import Mathlib

/-!
Verification of the NCAAFB ID-reconciliation and normalization pipeline
(`backend/data_transformer_uuid.py` together with `backend/utils/helpers.py`).

The Python code is shallowly embedded: JSON documents become the inductive
type `JValue`, the mutable `DataTransformer` object becomes the explicit
state `TState`, and each `transform_*` method becomes a Lean function from
state and input document to state.  Python exceptions (a `TypeError` from
iterating a non-iterable, the `ValueError` escaping
`convert_height_to_inches`) are modelled by `Option`: `none` means the call
raised.  The random `uuid.uuid4()` generator is modelled by an explicit
supply `g : Nat -> String` indexed by a counter kept in the state, so that
the nondeterminism of identifier synthesis is visible in the statements.
-/

/-- A JSON value as produced by Python's `json.load`.  Floating point
numbers are kept as their literal text: no claim under verification
inspects a float's numeric value, only passes it through, so an inert
representative is faithful for the properties proved here. -/
inductive JValue where
  | null : JValue
  | bool : Bool → JValue
  | int : Int → JValue
  | float : String → JValue
  | str : String → JValue
  | arr : List JValue → JValue
  | obj : List (String × JValue) → JValue
deriving Inhabited

namespace PyModel

/-- First-match association-list lookup.  JSON objects decoded by Python
have unique keys, for which this coincides with Python dict indexing. -/
def aget {α β : Type} [DecidableEq α] : List (α × β) → α → Option β
  | [], _ => none
  | (k, v) :: rest, key => if k = key then some v else aget rest key

/-- Python `d[k] = v`: update in place if the key exists (keeping its
insertion position, as CPython dicts do), otherwise append. -/
def aset {α β : Type} [DecidableEq α] : List (α × β) → α → β → List (α × β)
  | [], key, v => [(key, v)]
  | (k, w) :: rest, key, v =>
      if k = key then (k, v) :: rest else (k, w) :: aset rest key v

/-- Python truthiness of a decoded JSON value (`if not data: ...`).
A float literal is falsy exactly when it denotes zero, i.e. contains no
nonzero digit. -/
def pyTruthy : JValue → Bool
  | .null => false
  | .bool b => b
  | .int n => n != 0
  | .float r => r.data.any (fun c => c.isDigit && c != '0')
  | .str s => s != ""
  | .arr xs => !xs.isEmpty
  | .obj fs => !fs.isEmpty

/-- Truthiness of an optional string produced by `normalize_string`
(Python `if name:` where `name` is `None` or a `str`). -/
def optSTruthy : Option String → Bool
  | none => false
  | some s => s != ""

/-- Truthiness of an optional integer (Python `if year:` where `year` is
`None` or an `int`). -/
def optITruthy : Option Int → Bool
  | none => false
  | some n => n != 0

/-- Python `a or b` on decoded values: the first operand if truthy,
otherwise the second. -/
def pyOr (a b : JValue) : JValue := if pyTruthy a then a else b

/-- Python `a or b` where both operands are `None`-or-`str`
(as returned by `normalize_string`). -/
def pyOrS (a b : Option String) : Option String := if optSTruthy a then a else b

/-- Iterating a decoded JSON value with `for x in v`.  Lists yield their
items, dicts their keys, strings their characters; `None`, booleans and
numbers raise `TypeError`, modelled as `none`. -/
def pyIterList : JValue → Option (List JValue)
  | .arr xs => some xs
  | .obj fs => some (fs.map (fun kv => JValue.str kv.1))
  | .str s => some (s.data.map (fun c => JValue.str (String.mk [c])))
  | _ => none

/-- Python `v.items()`: succeeds only on a dict; anything else raises
`AttributeError`, modelled as `none`. -/
def pyItems : JValue → Option (List (String × JValue))
  | .obj fs => some fs
  | _ => none

/-- Python `v.get(k)` on a value expected to be a dict: returns the stored
value (or `None`) for dicts and raises `AttributeError` otherwise. -/
def pyDictGet : JValue → String → Option JValue
  | .obj fs, k => some ((aget fs k).getD .null)
  | _, _ => none

/-- Python whitespace strip (`str.strip()`) on a character list. -/
def stripWs (cs : List Char) : List Char :=
  ((cs.dropWhile Char.isWhitespace).reverse.dropWhile Char.isWhitespace).reverse

/-- Python `str.strip()` as a `String` operation. -/
def pyStrip (s : String) : String := String.mk (stripWs s.data)

/-- Python `str.split()` with no separator: split on runs of whitespace,
discarding empty fragments. -/
def pySplitWs (s : String) : List String :=
  ((s.data.splitOnP Char.isWhitespace).filter (· ≠ [])).map String.mk

/-- Python `' '.join parts`. -/
def joinSpace : List String → String
  | [] => ""
  | [x] => x
  | x :: xs => x ++ " " ++ joinSpace xs

mutual
/-- Python `repr` of a decoded JSON value, as used by `str()` on
containers.  Strings are rendered with single quotes; quote-escaping
subtleties inside string payloads are not reproduced because no verified
property inspects such a representation. -/
def pyRepr : JValue → String
  | .null => "None"
  | .bool true => "True"
  | .bool false => "False"
  | .int n => toString n
  | .float r => r
  | .str s => "'" ++ s ++ "'"
  | .arr xs => "[" ++ pyReprItems xs ++ "]"
  | .obj fs => "\x7b" ++ pyReprFields fs ++ "\x7d"

/-- Comma-separated `repr` of list items. -/
def pyReprItems : List JValue → String
  | [] => ""
  | [x] => pyRepr x
  | x :: xs => pyRepr x ++ ", " ++ pyReprItems xs

/-- Comma-separated `repr` of dict entries. -/
def pyReprFields : List (String × JValue) → String
  | [] => ""
  | [(k, v)] => "'" ++ k ++ "': " ++ pyRepr v
  | (k, v) :: fs => "'" ++ k ++ "': " ++ pyRepr v ++ ", " ++ pyReprFields fs
end

/-- Python `str(value)` for a decoded JSON value. -/
def pyStr : JValue → String
  | .null => "None"
  | .bool true => "True"
  | .bool false => "False"
  | .int n => toString n
  | .float r => r
  | .str s => s
  | .arr xs => "[" ++ pyReprItems xs ++ "]"
  | .obj fs => "\x7b" ++ pyReprFields fs ++ "\x7d"

/-- ASCII decimal digit test, the digit class accepted by Python `int()`.
CPython also accepts non-ASCII decimal digits (Unicode category Nd) and
underscore separators; those corners are not exercised by any statement
below. -/
def isAsciiDigit (c : Char) : Bool := c.isDigit

/-- Python `str.isdigit()` character class: decimal digits plus characters
with the Unicode digit property that are *not* decimal digits, such as the
superscript numerals.  The superscripts are listed explicitly; the full
Unicode table contains further such characters, none of which appear in
any statement below. -/
def pyIsDigitChar (c : Char) : Bool :=
  isAsciiDigit c || ['⁰', '¹', '²', '³', '⁴', '⁵', '⁶', '⁷', '⁸', '⁹'].contains c

/-- Python `str.isdigit()`: nonempty and every character a digit
character. -/
def pyIsdigit (s : String) : Bool :=
  !s.data.isEmpty && s.data.all pyIsDigitChar

/-- Numeric value of an ASCII digit list (most significant first). -/
def digitsVal : List Char → Nat
  | [] => 0
  | c :: cs => (c.toNat - '0'.toNat) * 10 ^ cs.length + digitsVal cs

/-- Python `int(s)` on a string: strip whitespace, allow one sign, then
require a nonempty run of decimal digits; anything else raises
`ValueError`, modelled as `none`. -/
def pyParseInt (s : String) : Option Int :=
  let cs := stripWs s.data
  match cs with
  | '+' :: rest => if !rest.isEmpty && rest.all isAsciiDigit then some (digitsVal rest) else none
  | '-' :: rest => if !rest.isEmpty && rest.all isAsciiDigit then some (-(digitsVal rest : Int)) else none
  | rest => if !rest.isEmpty && rest.all isAsciiDigit then some (digitsVal rest) else none

/-- Truncation of a float literal toward zero, as `int(float)` does.
Only plain decimal literals are handled; no verified property feeds a
float to an integer coercion. -/
def truncFloatLit (r : String) : Option Int :=
  let cs := stripWs r.data
  let (sign, body) : Int × List Char :=
    match cs with
    | '-' :: rest => (-1, rest)
    | '+' :: rest => (1, rest)
    | rest => (1, rest)
  let intPart := body.takeWhile isAsciiDigit
  let rest := body.drop intPart.length
  if !intPart.isEmpty && (rest.isEmpty || rest.head? == some '.') then
    some (sign * digitsVal intPart)
  else none

/-- Fuel-indexed worker for `removeAll`; the fuel (initially the list
length) strictly bounds the recursion depth, keeping the definition
structurally recursive and hence kernel-computable. -/
def removeAllAux (pat : List Char) : Nat → List Char → List Char
  | 0, s => s
  | _ + 1, [] => []
  | fuel + 1, c :: cs =>
      if pat ≠ [] ∧ pat.isPrefixOf (c :: cs) then
        removeAllAux pat fuel ((c :: cs).drop pat.length)
      else
        c :: removeAllAux pat fuel cs

/-- Remove every (left-to-right, non-overlapping) occurrence of a nonempty
pattern from a character list, as Python's `str.replace(pat, '')` does. -/
def removeAll (pat s : List Char) : List Char :=
  removeAllAux pat s.length s

/-- Python `str.strip(chars)`: remove leading and trailing characters
belonging to the given set. -/
def stripSet (cs : List Char) (set : List Char) : List Char :=
  ((cs.dropWhile (set.contains ·)).reverse.dropWhile (set.contains ·)).reverse

/-- Hexadecimal digit test (both cases), the digit class accepted by
`int(s, 16)` inside `uuid.UUID`. -/
def isHexChar (c : Char) : Bool :=
  c.isDigit || ('a' ≤ c && c ≤ 'f') || ('A' ≤ c && c ≤ 'F')

/-- Validity of a string as a UUID per `uuid.UUID(value)`: CPython removes
every occurrence of `urn:` and `uuid:`, strips surrounding braces, removes
hyphens, and then requires 32 hexadecimal digits.  (The sign and
underscore liberality of `int(_, 16)` is not reproduced; no statement
below exercises it.) -/
def pyUuidValid (s : String) : Bool :=
  let h1 := removeAll "urn:".data s.data
  let h2 := removeAll "uuid:".data h1
  let h3 := stripSet h2 ['\x7b', '\x7d']
  let h4 := h3.filter (· != '-')
  h4.length == 32 && h4.all isHexChar

end PyModel

namespace Helpers

open PyModel

/-- Embedding of `safe_get(data, *keys, default=default)` from
`backend/utils/helpers.py`: walk the key path, returning the default as
soon as the current value is not a dict containing the next key; a final
`None` is also replaced by the default.  The Python function contains no
raising operation, which the totality of this definition reflects. -/
def safe_get : JValue → List String → JValue → JValue
  | cur, [], dflt => match cur with
      | .null => dflt
      | v => v
  | cur, k :: rest, dflt =>
      match cur with
      | .obj fields =>
          match aget fields k with
          | some v => safe_get v rest dflt
          | none => dflt
      | _ => dflt

/-- Embedding of `normalize_string`: `None` stays `None`; a string is
stripped and an empty result becomes `None`; any other value is rendered
with `str()` first. -/
def normalize_string (v : JValue) : Option String :=
  match v with
  | .null => none
  | .str s => if pyStrip s ≠ "" then some (pyStrip s) else none
  | other => if pyStrip (pyStr other) ≠ "" then some (pyStrip (pyStr other)) else none

/-- Embedding of `normalize_int`: `int(value)` with `ValueError` and
`TypeError` mapped to `None`. -/
def normalize_int (v : JValue) : Option Int :=
  match v with
  | .null => none
  | .bool b => some (if b then 1 else 0)
  | .int n => some n
  | .float r => truncFloatLit r
  | .str s => pyParseInt s
  | _ => none

/-- Embedding of `normalize_float`: `None` and unparseable values become
`None`; otherwise the numeric value is kept, as an inert representative
(see `JValue.float`).  A string is accepted when it parses as a decimal
literal. -/
def normalize_float (v : JValue) : Option JValue :=
  match v with
  | .null => none
  | .bool b => some (.int (if b then 1 else 0))
  | .int n => some (.int n)
  | .float r => some (.float r)
  | .str s => if (truncFloatLit s).isSome then some (.str (pyStrip s)) else none
  | _ => none

/-- Embedding of `normalize_date`: a string is stripped (empty becoming
`None`); any non-string, non-datetime value becomes `None`.  The
`datetime` branch is unreachable from decoded JSON input. -/
def normalize_date (v : JValue) : Option String :=
  match v with
  | .str s => if pyStrip s ≠ "" then some (pyStrip s) else none
  | _ => none

/-- Embedding of `normalize_uuid`: only a string that `uuid.UUID` accepts
passes through; everything else becomes `None`. -/
def normalize_uuid (v : JValue) : Option String :=
  match v with
  | .str s => if pyUuidValid s then some s else none
  | _ => none

/-- The regex branch of `convert_height_to_inches`:
`re.match(r"(\d+)['\"](\d+)", s)` — digits, one quote character, digits,
anchored at the start only. -/
def matchFeetQuote (cs : List Char) : Option (Nat × Nat) :=
  let ds1 := cs.takeWhile isAsciiDigit
  if ds1.isEmpty then none
  else
    match cs.drop ds1.length with
    | q :: rest =>
        if q = '\'' ∨ q = '"' then
          let ds2 := rest.takeWhile isAsciiDigit
          if ds2.isEmpty then none else some (digitsVal ds1, digitsVal ds2)
        else none
    | [] => none

/-- Python `s.split('-')`. -/
def splitDash (s : String) : List (List Char) :=
  s.data.splitOn '-'

/-- Embedding of `convert_height_to_inches`.  The outer `Option` is the
exception channel: `none` means the call raised.  This happens exactly
when `height_str.isdigit()` is true but `int(height_str)` fails, which
occurs for digit-property characters that are not decimal digits (for
example the superscript `"²"`): the `int` call on that branch is not
guarded by a `try`.  The inner `Option Int` is the documented result:
total inches or `None`. -/
def convert_height_to_inches (v : JValue) : Option (Option Int) :=
  match v with
  | .null => some none
  | .int n => some (some n)
  | .bool b => some (some (if b then 1 else 0))
  | .str s0 =>
      let s := pyStrip s0
      if pyIsdigit s then
        match pyParseInt s with
        | some n => some (some n)
        | none => none
      else if s.data.contains '-' then
        match splitDash s with
        | [p1, p2] =>
            match pyParseInt (String.mk p1), pyParseInt (String.mk p2) with
            | some feet, some inches => some (some (feet * 12 + inches))
            | _, _ => some none
        | _ =>
            if s.data.contains '\'' ∨ s.data.contains '"' then
              match matchFeetQuote s.data with
              | some (f, i) => some (some ((f : Int) * 12 + (i : Int)))
              | none => some none
            else some none
      else if s.data.contains '\'' ∨ s.data.contains '"' then
        match matchFeetQuote s.data with
        | some (f, i) => some (some ((f : Int) * 12 + (i : Int)))
        | none => some none
      else some none
  | _ => some none

end Helpers

namespace Transformer

open PyModel Helpers

/-- Record appended to `self.conferences`. -/
structure ConferenceR where
  conference_id : String
  name : String
  alias_ : Option String
deriving DecidableEq

/-- Record appended to `self.divisions`.  The `conference_id` is an
`Option` because the roster extraction path can store `None` there. -/
structure DivisionR where
  division_id : String
  name : String
  alias_ : Option String
  conference_id : Option String
deriving DecidableEq

/-- Record appended to `self.venues`.  Latitude and longitude keep the
inert numeric representative produced by `normalize_float`. -/
structure VenueR where
  venue_id : String
  name : Option String
  city : Option String
  state : Option String
  country : Option String
  zip : Option String
  address : Option String
  capacity : Option Int
  surface : Option String
  roof_type : Option String
  latitude : Option JValue
  longitude : Option JValue

/-- Record appended to `self.teams`. -/
structure TeamR where
  team_id : String
  market : Option String
  name : Option String
  alias_ : Option String
  founded : Option Int
  mascot : Option String
  fight_song : Option String
  championships_won : Option Int
  conference_id : Option String
  division_id : Option String
  venue_id : Option String
deriving DecidableEq

/-- Record appended to `self.seasons`. -/
structure SeasonR where
  season_id : String
  year : Int
  start_date : Option String
  end_date : Option String
  status : Option String
  type_code : String
deriving DecidableEq

/-- Record appended to `self.players`. -/
structure PlayerR where
  player_id : String
  first_name : Option String
  last_name : String
  abbr_name : Option String
  birth_place : Option String
  position : Option String
  height : Option Int
  weight : Option Int
  status : Option String
  eligibility : Option String
  team_id : String
deriving DecidableEq

/-- Record appended to `self.coaches`. -/
structure CoachR where
  coach_id : String
  full_name : String
  position : Option String
  team_id : String
deriving DecidableEq

/-- Record appended to `self.player_statistics`. -/
structure StatR where
  stat_id : Int
  player_id : String
  team_id : String
  season_id : String
  games_played : Option Int
  games_started : Option Int
  rushing_yards : Option Int
  rushing_touchdowns : Option Int
  receiving_yards : Option Int
  receiving_touchdowns : Option Int
  kick_return_yards : Option Int
  fumbles : Option Int
deriving DecidableEq

/-- Record appended to `self.rankings`. -/
structure RankingR where
  ranking_id : Int
  poll_id : String
  poll_name : Option String
  season_id : Option String
  week : Option Int
  effective_time : Option String
  team_id : String
  rank : Option Int
  prev_rank : Option Int
  points : Option Int
  fp_votes : Option Int
  wins : Option Int
  losses : Option Int
  ties : Option Int
deriving DecidableEq

/-- Record written by `transform_schedule`: `scheduled` keeps the raw
event time value, exactly as the source stores it without coercion. -/
structure GameR where
  game_id : Int
  home_team_api_id : Option String
  away_team_api_id : Option String
  scheduled : JValue
  venue_name : Option String

/-- The mutable state of a `DataTransformer` instance: the nine entity
tables and the six identity maps, plus the counter indexing the
`uuid.uuid4()` supply.  The `clean_data_dir` filesystem field is not
modelled. -/
structure TState where
  conferences : List ConferenceR := []
  divisions : List DivisionR := []
  venues : List VenueR := []
  teams : List TeamR := []
  seasons : List SeasonR := []
  players : List PlayerR := []
  player_statistics : List StatR := []
  rankings : List RankingR := []
  coaches : List CoachR := []
  conference_id_map : List (String × String) := []
  division_id_map : List ((Option String × String) × String) := []
  venue_id_map : List (String × String) := []
  team_id_map : List (String × String) := []
  season_id_map : List ((Int × String) × String) := []
  player_id_map : List (String × String) := []
  ctr : Nat := 0

/-- The state of a freshly constructed `DataTransformer`. -/
def initState : TState := {}

/-- One draw from the modelled `uuid.uuid4()` supply. -/
def freshUuid (g : Nat → String) (s : TState) : String × TState :=
  (g s.ctr, { s with ctr := s.ctr + 1 })

/-- Embedding of `DataTransformer._extract_venue`: record the venue under
its external id, first occurrence winning; a venue without a valid
external id is ignored. -/
def extractVenue (s : TState) (venue : JValue) : TState :=
  if ¬ pyTruthy venue then s else
  let venue_api_id := normalize_uuid (safe_get venue ["id"] .null)
  let venue_name := normalize_string (safe_get venue ["name"] .null)
  match venue_api_id with
  | some vid =>
      if (aget s.venue_id_map vid).isSome then s
      else
        let location := safe_get venue ["location"] (.obj [])
        { s with
          venue_id_map := aset s.venue_id_map vid vid,
          venues := s.venues ++ [{
            venue_id := vid,
            name := venue_name,
            city := normalize_string (safe_get venue ["city"] .null),
            state := normalize_string (safe_get venue ["state"] .null),
            country := normalize_string (safe_get venue ["country"] (.str "USA")),
            zip := normalize_string (safe_get venue ["zip"] .null),
            address := normalize_string (safe_get venue ["address"] .null),
            capacity := normalize_int (safe_get venue ["capacity"] .null),
            surface := normalize_string (safe_get venue ["surface"] .null),
            roof_type := normalize_string (safe_get venue ["roof_type"] .null),
            latitude := normalize_float (safe_get location ["lat"] .null),
            longitude := normalize_float (safe_get location ["lng"] .null) }] }
  | none => s

/-- The shared per-team venue extraction loop body used by
`transform_hierarchy` and `transform_venues`. -/
def teamVenueStep (s : TState) (team : JValue) : TState :=
  let venue := safe_get team ["venue"] .null
  if pyTruthy venue then extractVenue s venue else s

/-- The inner conference loop body of `transform_hierarchy`: register the
conference (dedup by identity), then register the division under this
conference and extract venues from the conference's teams. -/
def hierConfStep (g : Nat → String) (dn : String) (divAlias : Option String)
    (divUuid : String) (s : TState) (conf : JValue) : Option TState :=
  let conf_name := normalize_string (safe_get conf ["name"] .null)
  let conf_alias := normalize_string (safe_get conf ["alias"] .null)
  let conf_api_id := normalize_uuid (safe_get conf ["id"] .null)
  match conf_name with
  | none => some s
  | some cn =>
      if cn = "" then some s else
      let (conf_uuid, s1) :=
        match conf_api_id with
        | some u => (u, s)
        | none => freshUuid g s
      let s2 := { s1 with conference_id_map := aset s1.conference_id_map cn conf_uuid }
      let s3 :=
        if s2.conferences.any (fun c => c.conference_id == conf_uuid) then s2
        else { s2 with conferences := s2.conferences ++
                 [{ conference_id := conf_uuid, name := cn, alias_ := conf_alias }] }
      let s4 := { s3 with division_id_map := aset s3.division_id_map (some conf_uuid, dn) divUuid }
      let s5 :=
        if s4.divisions.any (fun d => d.division_id == divUuid) then s4
        else { s4 with divisions := s4.divisions ++
                 [{ division_id := divUuid, name := dn, alias_ := divAlias,
                    conference_id := some conf_uuid }] }
      do
        let teams ← pyIterList (safe_get conf ["teams"] (.arr []))
        some (teams.foldl teamVenueStep s5)

/-- The outer division loop body of `transform_hierarchy`. -/
def hierDivStep (g : Nat → String) (s : TState) (div : JValue) : Option TState :=
  let div_name := normalize_string (safe_get div ["name"] .null)
  let div_alias := normalize_string (safe_get div ["alias"] .null)
  let div_api_id := normalize_uuid (safe_get div ["id"] .null)
  match div_name with
  | none => some s
  | some dn =>
      if dn = "" then some s else
      let (div_uuid, s1) :=
        match div_api_id with
        | some u => (u, s)
        | none => freshUuid g s
      do
        let confs ← pyIterList (safe_get div ["conferences"] (.arr []))
        confs.foldlM (hierConfStep g dn div_alias div_uuid) s1

/-- Embedding of `DataTransformer.transform_hierarchy`. -/
def transformHierarchy (g : Nat → String) (s : TState) (hierarchy_data : JValue) :
    Option TState :=
  if ¬ pyTruthy hierarchy_data then some s else
  let divisions_list := safe_get hierarchy_data ["divisions"] (.arr [])
  if ¬ pyTruthy divisions_list then some s else
  do
    let divs ← pyIterList divisions_list
    divs.foldlM (hierDivStep g) s

/-- Embedding of `DataTransformer.transform_venues`. -/
def transformVenues (s : TState) (teams_data : JValue) : Option TState :=
  if ¬ pyTruthy teams_data then some s else
  do
    let teams ← pyIterList (safe_get teams_data ["teams"] (.arr []))
    some (teams.foldl teamVenueStep s)

/-- The per-team loop body of `transform_teams`: register the pass-through
team identity and append a team record with conference, division and venue
references resolved against the current maps (null when unresolvable). -/
def teamStep (s : TState) (team : JValue) : TState :=
  match normalize_uuid (safe_get team ["id"] .null) with
  | none => s
  | some api_team_id =>
      let s1 := { s with team_id_map := aset s.team_id_map api_team_id api_team_id }
      let conference_name := normalize_string (safe_get team ["conference", "name"] .null)
      let division_name := normalize_string (safe_get team ["division", "name"] .null)
      let conference_id : Option String :=
        match conference_name with
        | some cn => if cn = "" then none else aget s1.conference_id_map cn
        | none => none
      let division_id : Option String :=
        match conference_name, division_name with
        | some cn, some dn =>
            if cn = "" ∨ dn = "" then none
            else ((s1.division_id_map.find?
                    (fun e => e.1.1 == conference_id && e.1.2 == dn)).map (·.2))
        | _, _ => none
      let venue := safe_get team ["venue"] .null
      let venue_id : Option String :=
        if pyTruthy venue then
          match normalize_uuid (safe_get venue ["id"] .null) with
          | some vapi => aget s1.venue_id_map vapi
          | none => none
        else none
      { s1 with teams := s1.teams ++ [{
          team_id := api_team_id,
          market := normalize_string (safe_get team ["market"] .null),
          name := normalize_string (safe_get team ["name"] .null),
          alias_ := normalize_string (safe_get team ["alias"] .null),
          founded := normalize_int (safe_get team ["founded"] .null),
          mascot := normalize_string (safe_get team ["mascot"] .null),
          fight_song := normalize_string (safe_get team ["fight_song"] .null),
          championships_won := normalize_int (safe_get team ["championships_won"] (.int 0)),
          conference_id := conference_id,
          division_id := division_id,
          venue_id := venue_id }] }

/-- Embedding of `DataTransformer.transform_teams`.  The optional
`hierarchy_data` parameter of the source is unused by its body and is
omitted. -/
def transformTeams (s : TState) (teams_data : JValue) : Option TState :=
  if ¬ pyTruthy teams_data then some s else
  do
    let teams ← pyIterList (safe_get teams_data ["teams"] (.arr []))
    some (teams.foldl teamStep s)

/-- The per-season loop body of `transform_seasons`: the `(year, type
code)` natural key is registered at most once, first write winning. -/
def seasonStep (g : Nat → String) (s : TState) (season : JValue) : TState :=
  let year := normalize_int (safe_get season ["year"] .null)
  let type_code := normalize_string (safe_get season ["type", "code"] .null)
  let season_api_id := normalize_uuid (safe_get season ["id"] .null)
  match year, type_code with
  | some y, some tc =>
      if y = 0 ∨ tc = "" then s else
      if (aget s.season_id_map (y, tc)).isSome then s
      else
        let (season_uuid, s1) :=
          match season_api_id with
          | some u => (u, s)
          | none => freshUuid g s
        { s1 with
          seasons := s1.seasons ++ [{
            season_id := season_uuid,
            year := y,
            start_date := normalize_date (safe_get season ["start_date"] .null),
            end_date := normalize_date (safe_get season ["end_date"] .null),
            status := normalize_string (safe_get season ["status"] .null),
            type_code := tc }],
          season_id_map := aset s1.season_id_map (y, tc) season_uuid }
  | _, _ => s

/-- Embedding of `DataTransformer.transform_seasons`. -/
def transformSeasons (g : Nat → String) (s : TState) (seasons_data : JValue) :
    Option TState :=
  if ¬ pyTruthy seasons_data then some s else
  do
    let seasons ← pyIterList (safe_get seasons_data ["seasons"] (.arr []))
    some (seasons.foldl (seasonStep g) s)

/-- Name reconciliation of `transform_players` (lines 342-361): direct
fields first, then the nested name object, then splitting a full-name
string on whitespace (last token becomes the last name), and finally the
`"Unknown"` placeholder.  The source's `isinstance(full_name, dict)`
branch is unreachable because `normalize_string` only returns a string or
`None`, and is therefore not modelled. -/
def resolvePlayerName (player : JValue) : Option String × String :=
  let lastA := pyOrS (normalize_string (safe_get player ["last_name"] .null))
                     (normalize_string (safe_get player ["name", "last"] .null))
  let firstA := pyOrS (normalize_string (safe_get player ["first_name"] .null))
                      (normalize_string (safe_get player ["name", "first"] .null))
  let (firstB, lastB) :=
    if optSTruthy lastA then (firstA, lastA) else
      match normalize_string (safe_get player ["name"] .null) with
      | some fullName =>
          let parts := pySplitWs (pyStrip fullName)
          match parts.getLast? with
          | some lastTok =>
              ((if ¬ optSTruthy firstA ∧ parts.length > 1
                then some (joinSpace parts.dropLast) else firstA),
               some lastTok)
          | none => (firstA, lastA)
      | none => (firstA, lastA)
  (firstB,
   match lastB with
   | some l => if l = "" then "Unknown" else l
   | none => "Unknown")

/-- Position reconciliation of `transform_players`: a structured position
object contributes its name, falling back to its abbreviation. -/
def resolvePosition (player : JValue) : Option String :=
  let pos := safe_get player ["position"] .null
  let pos1 :=
    match pos with
    | .obj _ => pyOr (safe_get pos ["name"] .null) (safe_get pos ["abbr"] .null)
    | _ => pos
  normalize_string pos1

/-- The per-player loop body of `transform_players`.  The `Option` result
is the exception channel of `convert_height_to_inches` (see there); the
source updates `player_id_map` before computing the height, but since an
escaping exception aborts the whole run before any table is handed over,
discarding the state on `none` is observationally faithful. -/
def playerStep (team_db_id : String) (s : TState) (player : JValue) : Option TState :=
  match normalize_uuid (safe_get player ["id"] .null) with
  | none => some s
  | some api_player_id =>
      let (first_name, last_name) := resolvePlayerName player
      if (aget s.player_id_map api_player_id).isSome then some s
      else do
        let height ← convert_height_to_inches (safe_get player ["height"] .null)
        some { s with
          player_id_map := aset s.player_id_map api_player_id api_player_id,
          players := s.players ++ [{
            player_id := api_player_id,
            first_name := first_name,
            last_name := last_name,
            abbr_name := pyOrS (normalize_string (safe_get player ["abbr_name"] .null))
                               (normalize_string (safe_get player ["name", "abbr"] .null)),
            birth_place := normalize_string (safe_get player ["birth_place"] .null),
            position := resolvePosition player,
            height := height,
            weight := normalize_int (safe_get player ["weight"] .null),
            status := normalize_string (safe_get player ["status"] .null),
            eligibility := normalize_string (safe_get player ["eligibility"] .null),
            team_id := team_db_id }] }

/-- The conference and division extraction blocks of the per-roster loop
of `transform_players` (lines 299-329). -/
def rosterConfDivStep (sA : TState) (roster_data : JValue) : TState :=
  let conf_data := safe_get roster_data ["conference"] .null
  let sB :=
    if pyTruthy conf_data then
      let conf_name := normalize_string (safe_get conf_data ["name"] .null)
      let conf_api_id := normalize_uuid (safe_get conf_data ["id"] .null)
      let conf_alias := normalize_string (safe_get conf_data ["alias"] .null)
      match conf_name, conf_api_id with
      | some cn, some cid =>
          if cn = "" then sA
          else if sA.conferences.any (fun c => c.conference_id == cid) then sA
          else { sA with
                 conference_id_map := aset sA.conference_id_map cn cid,
                 conferences := sA.conferences ++
                   [{ conference_id := cid, name := cn, alias_ := conf_alias }] }
      | _, _ => sA
    else sA
  let div_data := safe_get roster_data ["division"] .null
  if pyTruthy div_data ∧ pyTruthy conf_data then
    let div_name := normalize_string (safe_get div_data ["name"] .null)
    let div_api_id := normalize_uuid (safe_get div_data ["id"] .null)
    let div_alias := normalize_string (safe_get div_data ["alias"] .null)
    let conf_api_id := normalize_uuid (safe_get conf_data ["id"] .null)
    match div_name, div_api_id with
    | some dn, some did =>
        if dn = "" then sB
        else if sB.divisions.any (fun d => d.division_id == did) then sB
        else { sB with
               division_id_map := aset sB.division_id_map (conf_api_id, dn) did,
               divisions := sB.divisions ++
                 [{ division_id := did, name := dn, alias_ := div_alias,
                    conference_id := conf_api_id }] }
    | _, _ => sB
  else sB

/-- The venue, conference and division extraction prefix of the per-roster
loop of `transform_players` (lines 293-329), which runs before the team
resolution check. -/
def rosterMetaStep (s : TState) (roster_data : JValue) : TState :=
  let venue := safe_get roster_data ["venue"] .null
  let sA := if pyTruthy venue then extractVenue s venue else s
  rosterConfDivStep sA roster_data

/-- The per-roster loop body of `transform_players`. -/
def rosterPlayersStep (s : TState) (kv : String × JValue) : Option TState :=
  let s1 := rosterMetaStep s kv.2
  match aget s1.team_id_map kv.1 with
  | some team_db_id =>
      if team_db_id = "" then some s1
      else do
        let players ← pyIterList (safe_get kv.2 ["players"] (.arr []))
        players.foldlM (playerStep team_db_id) s1
  | none => some s1

/-- Embedding of `DataTransformer.transform_players`. -/
def transformPlayers (s : TState) (rosters_data : JValue) : Option TState :=
  if ¬ pyTruthy rosters_data then some s else
  do
    let items ← pyItems rosters_data
    items.foldlM rosterPlayersStep s

/-- The full-name reconciliation of `transform_coaches` (lines 410-418):
the `full_name` field first, then `first last` built from the direct
fields, then the last name alone. -/
def coachFullName (coach : JValue) : Option String :=
  let full_name0 := normalize_string (safe_get coach ["full_name"] .null)
  if optSTruthy full_name0 then full_name0
  else
    let first := normalize_string (safe_get coach ["first_name"] .null)
    let last := normalize_string (safe_get coach ["last_name"] .null)
    if optSTruthy first ∧ optSTruthy last then
      some (first.getD "" ++ " " ++ last.getD "")
    else if optSTruthy last then last
    else full_name0

/-- The per-coach loop body of `transform_coaches`: build the full name
from the accepted shapes and append, synthesizing an identity when no
valid external id is present. -/
def coachStep (g : Nat → String) (team_db_id : String) (s : TState) (coach : JValue) :
    TState :=
  let coach_api_id := normalize_uuid (safe_get coach ["id"] .null)
  match coachFullName coach with
  | some fn =>
      if fn = "" then s
      else
        let (coach_uuid, s1) :=
          match coach_api_id with
          | some u => (u, s)
          | none => freshUuid g s
        { s1 with coaches := s1.coaches ++ [{
            coach_id := coach_uuid,
            full_name := fn,
            position := normalize_string (safe_get coach ["position"] .null),
            team_id := team_db_id }] }
  | none => s

/-- The per-roster loop body of `transform_coaches`. -/
def rosterCoachesStep (g : Nat → String) (s : TState) (kv : String × JValue) :
    Option TState :=
  match aget s.team_id_map kv.1 with
  | some team_db_id =>
      if team_db_id = "" then some s
      else do
        let coaches ← pyIterList (safe_get kv.2 ["coaches"] (.arr []))
        some (coaches.foldl (coachStep g team_db_id) s)
  | none => some s

/-- Embedding of `DataTransformer.transform_coaches`. -/
def transformCoaches (g : Nat → String) (s : TState) (rosters_data : JValue) :
    Option TState :=
  if ¬ pyTruthy rosters_data then some s else
  do
    let items ← pyItems rosters_data
    items.foldlM (rosterCoachesStep g) s

/-- The per-player loop body of `transform_player_statistics`, carrying
the call-local sequential `stat_id`. -/
def statPlayerStep (team_db_id season_db_id : String) (acc : TState × Int)
    (player_stat : JValue) : TState × Int :=
  match normalize_uuid (safe_get player_stat ["id"] .null) with
  | none => acc
  | some api_player_id =>
      match aget acc.1.player_id_map api_player_id with
      | some player_db_id =>
          if player_db_id = "" then acc
          else
            let stats := safe_get player_stat ["statistics"] (.obj [])
            ({ acc.1 with player_statistics := acc.1.player_statistics ++ [{
                stat_id := acc.2,
                player_id := player_db_id,
                team_id := team_db_id,
                season_id := season_db_id,
                games_played := normalize_int (safe_get stats ["games_played"] .null),
                games_started := normalize_int (safe_get stats ["games_started"] .null),
                rushing_yards := normalize_int (safe_get stats ["rushing", "yards"] .null),
                rushing_touchdowns := normalize_int (safe_get stats ["rushing", "touchdowns"] .null),
                receiving_yards := normalize_int (safe_get stats ["receiving", "yards"] .null),
                receiving_touchdowns := normalize_int (safe_get stats ["receiving", "touchdowns"] .null),
                kick_return_yards := normalize_int (safe_get stats ["kick_returns", "yards"] .null),
                fumbles := normalize_int (safe_get stats ["fumbles", "total"] .null) }] },
             acc.2 + 1)
      | none => acc

/-- The per-team loop body of `transform_player_statistics`. -/
def statTeamStep (season_db_id : String) (acc : TState × Int) (kv : String × JValue) :
    Option (TState × Int) :=
  match aget acc.1.team_id_map kv.1 with
  | some team_db_id =>
      if team_db_id = "" then some acc
      else do
        let ps ← pyIterList (safe_get kv.2 ["players"] (.arr []))
        some (ps.foldl (statPlayerStep team_db_id season_db_id) acc)
  | none => some acc

/-- Embedding of `DataTransformer.transform_player_statistics`: the whole
call is a no-op unless the `(year, season_type)` season key resolves. -/
def transformPlayerStatistics (s : TState) (season_stats_data : JValue)
    (year : Int) (season_type : String) : Option TState :=
  if ¬ pyTruthy season_stats_data then some s else
  match aget s.season_id_map (year, season_type) with
  | some season_db_id =>
      if season_db_id = "" then some s
      else do
        let items ← pyItems season_stats_data
        let acc ← items.foldlM (statTeamStep season_db_id) (s, 1)
        some acc.1
  | none => some s

/-- The per-item loop body of `transform_rankings`, carrying the
sequential `ranking_id`. -/
def rankStep (poll_id : String) (poll_name : Option String)
    (season_db_id : Option String) (week : Option Int) (eff : Option String)
    (acc : TState × Int) (rank_item : JValue) : TState × Int :=
  match normalize_uuid (safe_get rank_item ["id"] .null) with
  | none => acc
  | some team_api_id =>
      match aget acc.1.team_id_map team_api_id with
      | some team_db_id =>
          if team_db_id = "" then acc
          else
            ({ acc.1 with rankings := acc.1.rankings ++ [{
                ranking_id := acc.2,
                poll_id := poll_id,
                poll_name := poll_name,
                season_id := season_db_id,
                week := if optITruthy week then week else none,
                effective_time := eff,
                team_id := team_db_id,
                rank := normalize_int (safe_get rank_item ["rank"] .null),
                prev_rank := normalize_int (safe_get rank_item ["prev_rank"] .null),
                points := normalize_int (safe_get rank_item ["points"] .null),
                fp_votes := normalize_int (safe_get rank_item ["fp_votes"] .null),
                wins := normalize_int (safe_get rank_item ["wins"] .null),
                losses := normalize_int (safe_get rank_item ["losses"] .null),
                ties := normalize_int (safe_get rank_item ["ties"] .null) }] },
             acc.2 + 1)
      | none => acc

/-- Embedding of `DataTransformer.transform_rankings`.  The
`rankings_type` parameter of the source is unused by its body and is
omitted; `weekParam` is the optional `week` argument. -/
def transformRankings (g : Nat → String) (s : TState) (rankings_data : JValue)
    (year : Int) (weekParam : Option Int) : Option TState :=
  if ¬ pyTruthy rankings_data then some s else
  let pidOpt := normalize_uuid (safe_get rankings_data ["poll", "id"] .null)
  let (poll_id, s1) :=
    if optSTruthy pidOpt then (pidOpt.getD "", s) else freshUuid g s
  let poll_name := normalize_string (safe_get rankings_data ["poll", "name"] .null)
  let week :=
    match weekParam with
    | some w => some w
    | none => normalize_int (safe_get rankings_data ["week"] .null)
  let season_db_id := aget s1.season_id_map (year, "REG")
  let eff := normalize_date (safe_get rankings_data ["effective_time"] .null)
  do
    let items ← pyIterList (safe_get rankings_data ["rankings"] (.arr []))
    some (items.foldl (rankStep poll_id poll_name season_db_id week eff)
            (s1, (s1.rankings.length : Int) + 1)).1

/-- The per-item loop body of `transform_schedule`.  Each `item.get`
raises on a non-dict item, hence the `Option`. -/
def scheduleItemStep (acc : List GameR × Int) (item : JValue) :
    Option (List GameR × Int) := do
  let h1 ← pyDictGet item "home"
  let h2 ← pyDictGet item "home_team"
  let home := pyOr h1 (pyOr h2 (.obj []))
  let a1 ← pyDictGet item "away"
  let a2 ← pyDictGet item "away_team"
  let away := pyOr a1 (pyOr a2 (.obj []))
  let v1 ← pyDictGet item "venue"
  let venue := pyOr v1 (.obj [])
  let t1 ← pyDictGet item "scheduled"
  let t2 ← pyDictGet item "date"
  let t3 ← pyDictGet item "start_time"
  let event_time := pyOr t1 (pyOr t2 t3)
  let home_api_id :=
    match home with
    | .obj fs => normalize_uuid ((aget fs "id").getD .null)
    | _ => none
  let away_api_id :=
    match away with
    | .obj fs => normalize_uuid ((aget fs "id").getD .null)
    | _ => none
  let venue_name :=
    match venue with
    | .obj fs => normalize_string ((aget fs "name").getD .null)
    | _ => none
  some (acc.1 ++ [{
      game_id := acc.2,
      home_team_api_id := home_api_id,
      away_team_api_id := away_api_id,
      scheduled := event_time,
      venue_name := venue_name }],
    acc.2 + 1)

/-- Embedding of `DataTransformer.transform_schedule`.  The result is the
list of game records written to the clean-data file: the inner `none`
means the stage returned without writing (falsy input), the outer `none`
that it raised. -/
def transformSchedule (schedule_data : JValue) : Option (Option (List GameR)) :=
  if ¬ pyTruthy schedule_data then some none else do
    let sl1 ← pyDictGet schedule_data "schedule"
    let sl2 ← pyDictGet schedule_data "games"
    let schedule_list := pyOr sl1 (pyOr sl2 (.arr []))
    let items ← pyIterList schedule_list
    let acc ← items.foldlM scheduleItemStep ([], 1)
    some (some acc.1)

/-- Lookup in the `all_api_data` dictionary handed to
`transform_all_data` (`all_api_data.get(key)`). -/
def dGet (allData : List (String × JValue)) (k : String) : JValue :=
  (aget allData k).getD .null

/-- A guarded pipeline stage: run the stage when its raw input is truthy,
otherwise skip it (`if all_api_data.get(key): self.transform_...`). -/
def stageIf (cond : Bool) (f : TState → Option TState) (s : TState) : Option TState :=
  if cond then f s else some s

/-- The guarded schedule stage, which touches no transformer state but
whose exception still aborts the run. -/
def scheduleStage (cond : Bool) (sched : JValue) : Option Unit :=
  if cond then (transformSchedule sched).map (fun _ => ()) else some ()

/-- Embedding of `DataTransformer.transform_all_data` on a fresh
transformer instance: the stages in their fixed dependency order, each
skipped when its input is absent or falsy.  The returned state carries the
nine output tables; `none` means some stage raised and no tables were
produced. -/
def transformAllData (g : Nat → String) (allData : List (String × JValue))
    (year : Int) (season_type : String) : Option TState := do
  let s1 ← stageIf (pyTruthy (dGet allData "hierarchy"))
             (fun s => transformHierarchy g s (dGet allData "hierarchy")) initState
  let s2 ← stageIf (pyTruthy (dGet allData "teams"))
             (fun s => do
               let sa ← transformVenues s (dGet allData "teams")
               transformTeams sa (dGet allData "teams")) s1
  let s3 ← stageIf (pyTruthy (dGet allData "seasons"))
             (fun s => transformSeasons g s (dGet allData "seasons")) s2
  let s4 ← stageIf (pyTruthy (dGet allData "rosters"))
             (fun s => do
               let sa ← transformPlayers s (dGet allData "rosters")
               transformCoaches g sa (dGet allData "rosters")) s3
  let s5 ← stageIf (pyTruthy (dGet allData "season_stats"))
             (fun s => transformPlayerStatistics s (dGet allData "season_stats")
                         year season_type) s4
  let s6 ← stageIf (pyTruthy (dGet allData "rankings_current"))
             (fun s => transformRankings g s (dGet allData "rankings_current") year none) s5
  let s7 ← stageIf (pyTruthy (dGet allData "rankings_week1"))
             (fun s => transformRankings g s (dGet allData "rankings_week1") year (some 1)) s6
  let _ ← scheduleStage (pyTruthy (dGet allData "season_schedule"))
            (dGet allData "season_schedule")
  some s7

/-- The nine output tables compiled by `transform_all_data` (the
`transformed_data` dictionary it returns and saves). -/
def outputTables (s : TState) :
    List ConferenceR × List DivisionR × List VenueR × List TeamR × List SeasonR ×
    List PlayerR × List StatR × List RankingR × List CoachR :=
  (s.conferences, s.divisions, s.venues, s.teams, s.seasons, s.players,
   s.player_statistics, s.rankings, s.coaches)

end Transformer

namespace Props

open PyModel Helpers Transformer

/-- A key path is broken for a document when, while walking it, some
segment is absent or the current value is not a mapping. -/
def pathBrokenB : JValue → List String → Bool
  | _, [] => false
  | .obj fs, k :: rest =>
      match aget fs k with
      | some v => pathBrokenB v rest
      | none => true
  | _, _ :: _ => true

/-- Strict traversal of a key path: `some v` exactly when every segment is
a mapping containing the next key, with `v` the stored value. -/
def pathValue : JValue → List String → Option JValue
  | d, [] => some d
  | .obj fs, k :: rest =>
      match aget fs k with
      | some v => pathValue v rest
      | none => none
  | _, _ :: _ => none

/-- Null-or-registered side condition for an optional foreign key. -/
def OptIn (o : Option String) (ids : List String) : Prop :=
  match o with
  | none => True
  | some x => x ∈ ids

instance (o : Option String) (ids : List String) : Decidable (OptIn o ids) := by
  unfold OptIn
  cases o <;> infer_instance

/-- Primary keys present in the conference table. -/
def confIds (s : TState) : List String := s.conferences.map (·.conference_id)

/-- Primary keys present in the division table. -/
def divIds (s : TState) : List String := s.divisions.map (·.division_id)

/-- Primary keys present in the venue table. -/
def venueIds (s : TState) : List String := s.venues.map (·.venue_id)

/-- Primary keys present in the team table. -/
def teamIds (s : TState) : List String := s.teams.map (·.team_id)

/-- Primary keys present in the season table. -/
def seasonIds (s : TState) : List String := s.seasons.map (·.season_id)

/-- Primary keys present in the player table. -/
def playerIds (s : TState) : List String := s.players.map (·.player_id)

/-- Referential integrity of every foreign-key field the pipeline
produces: each is null or the primary key of a record present in the
corresponding entity table. -/
def FKIntegrity (s : TState) : Prop :=
  (∀ d ∈ s.divisions, OptIn d.conference_id (confIds s)) ∧
  (∀ t ∈ s.teams, OptIn t.conference_id (confIds s) ∧
      OptIn t.division_id (divIds s) ∧ OptIn t.venue_id (venueIds s)) ∧
  (∀ p ∈ s.players, p.team_id ∈ teamIds s) ∧
  (∀ c ∈ s.coaches, c.team_id ∈ teamIds s) ∧
  (∀ st ∈ s.player_statistics, st.player_id ∈ playerIds s ∧
      st.team_id ∈ teamIds s ∧ st.season_id ∈ seasonIds s) ∧
  (∀ r ∈ s.rankings, r.team_id ∈ teamIds s ∧ OptIn r.season_id (seasonIds s))

/-- Every identity-map value points at a record already in the
corresponding entity table — the property making map lookups safe to
store as foreign keys. -/
def MapsBacked (s : TState) : Prop :=
  (∀ p ∈ s.conference_id_map, p.2 ∈ confIds s) ∧
  (∀ p ∈ s.division_id_map, p.2 ∈ divIds s) ∧
  (∀ p ∈ s.venue_id_map, p.2 ∈ venueIds s) ∧
  (∀ p ∈ s.team_id_map, p.2 ∈ teamIds s) ∧
  (∀ p ∈ s.season_id_map, p.2 ∈ seasonIds s) ∧
  (∀ p ∈ s.player_id_map, p.2 ∈ playerIds s)

/-- The full referential invariant carried through the pipeline proof. -/
def RefInv (s : TState) : Prop := MapsBacked s ∧ FKIntegrity s

/-- Side condition under which the roster metadata extraction cannot
introduce a dangling conference reference: every roster conference object
carrying a valid external id also carries a usable name (the source's
division block stores the conference id on the division record without
checking that the conference was registered, which only its name can
guarantee). -/
def rosterConfNamed (roster : JValue) : Bool :=
  let conf_data := safe_get roster ["conference"] .null
  if pyTruthy conf_data then
    match normalize_uuid (safe_get conf_data ["id"] .null) with
    | some _ => optSTruthy (normalize_string (safe_get conf_data ["name"] .null))
    | none => true
  else true

/-- The conference-naming side condition over a whole snapshot. -/
def rostersConfNamed (allData : List (String × JValue)) : Bool :=
  match dGet allData "rosters" with
  | .obj fs => fs.all (fun kv => rosterConfNamed kv.2)
  | _ => true

/-- Within-run uniqueness of resolution for the guarded identity maps:
whenever a key is registered, the corresponding entity table holds exactly
one record for that key and its identity is the registered one.  These are
the season (natural key), player (pass-through) and venue (pass-through)
resolvers, the ones whose source guards registration with a freshness
check. -/
def ResolutionUnique (s : TState) : Prop :=
  (∀ k id, aget s.season_id_map k = some id →
      (s.seasons.filter (fun r => r.year == k.1 && r.type_code == k.2)).map
        (·.season_id) = [id]) ∧
  (∀ k id, aget s.player_id_map k = some id →
      id = k ∧ (s.players.filter (fun p => p.player_id == k)).map (·.player_id) = [k]) ∧
  (∀ k id, aget s.venue_id_map k = some id →
      id = k ∧ (s.venues.filter (fun v => v.venue_id == k)).map (·.venue_id) = [k])

/-- The state components `ResolutionUnique` and `ResolutionInv` read:
seasons, players and venues with their identity maps.  Steps that leave
this projection unchanged trivially preserve both. -/
def resState (s : TState) :
    List SeasonR × List ((Int × String) × String) × List PlayerR ×
    List (String × String) × List VenueR × List (String × String) :=
  (s.seasons, s.season_id_map, s.players, s.player_id_map, s.venues, s.venue_id_map)

/-- Strengthening of `ResolutionUnique` with the converse direction (an
unregistered key has no record), needed for the induction. -/
def ResolutionInv (s : TState) : Prop :=
  ResolutionUnique s ∧
  (∀ k, aget s.season_id_map k = none →
      s.seasons.filter (fun r => r.year == k.1 && r.type_code == k.2) = []) ∧
  (∀ k, aget s.player_id_map k = none →
      s.players.filter (fun p => p.player_id == k) = []) ∧
  (∀ k, aget s.venue_id_map k = none →
      s.venues.filter (fun v => v.venue_id == k) = [])

/-- A hierarchy division entry cannot draw from the identifier supply:
skipped entirely (no usable name) or carrying a valid external id. -/
def divIdPresent (div : JValue) : Bool :=
  !(optSTruthy (normalize_string (safe_get div ["name"] .null))) ||
  (normalize_uuid (safe_get div ["id"] .null)).isSome

/-- A hierarchy conference entry cannot draw from the identifier
supply. -/
def confIdPresent (conf : JValue) : Bool :=
  !(optSTruthy (normalize_string (safe_get conf ["name"] .null))) ||
  (normalize_uuid (safe_get conf ["id"] .null)).isSome

/-- No entry of a hierarchy document can draw from the identifier
supply. -/
def hierIdsPresent (hd : JValue) : Bool :=
  match pyIterList (safe_get hd ["divisions"] (.arr [])) with
  | some divs =>
      divs.all (fun div =>
        divIdPresent div &&
        (match pyIterList (safe_get div ["conferences"] (.arr [])) with
         | some confs => confs.all confIdPresent
         | none => true))
  | none => true

/-- A season entry cannot draw from the identifier supply: skipped (no
usable key) or carrying a valid external id. -/
def seasonIdPresent (season : JValue) : Bool :=
  match normalize_int (safe_get season ["year"] .null),
        normalize_string (safe_get season ["type", "code"] .null) with
  | some y, some tc =>
      (y == 0 || tc == "") || (normalize_uuid (safe_get season ["id"] .null)).isSome
  | _, _ => true

/-- No entry of a seasons document can draw from the identifier supply. -/
def seasonsIdsPresent (sd : JValue) : Bool :=
  match pyIterList (safe_get sd ["seasons"] (.arr [])) with
  | some ss => ss.all seasonIdPresent
  | none => true

/-- A coach entry cannot draw from the identifier supply. -/
def coachIdPresent (coach : JValue) : Bool :=
  !(optSTruthy (coachFullName coach)) ||
  (normalize_uuid (safe_get coach ["id"] .null)).isSome

/-- No coach entry of a roster collection can draw from the identifier
supply. -/
def rostersIdsPresent (rd : JValue) : Bool :=
  match rd with
  | .obj fs =>
      fs.all (fun kv =>
        match pyIterList (safe_get kv.2 ["coaches"] (.arr [])) with
        | some cs => cs.all coachIdPresent
        | none => true)
  | _ => true

/-- A rankings document cannot draw from the identifier supply for its
poll id. -/
def rankingsPollPresent (rd : JValue) : Bool :=
  !(pyTruthy rd) ||
  optSTruthy (normalize_uuid (safe_get rd ["poll", "id"] .null))

/-- No stage of a pipeline run over this snapshot can draw from the
identifier supply: every entity that would otherwise receive a
synthesized identifier carries a valid external one. -/
def allIdsPresent (allData : List (String × JValue)) : Bool :=
  hierIdsPresent (dGet allData "hierarchy") &&
  seasonsIdsPresent (dGet allData "seasons") &&
  rostersIdsPresent (dGet allData "rosters") &&
  rankingsPollPresent (dGet allData "rankings_current") &&
  rankingsPollPresent (dGet allData "rankings_week1")

/-- The round-trip determinism property exactly as claimed: two runs of
the full normalization on identical input, each on a fresh transformer,
produce identical output tables — quantified over the identifier supplies
that model the two runs' `uuid.uuid4()` draws. -/
def DeterminismAsStated : Prop :=
  ∀ (allData : List (String × JValue)) (y : Int) (st : String)
    (g1 g2 : Nat → String),
    (transformAllData g1 allData y st).map outputTables =
      (transformAllData g2 allData y st).map outputTables

/-- A ranking item's team reference resolves against a team map. -/
def rankResolvableB (m : List (String × String)) (item : JValue) : Bool :=
  match normalize_uuid (safe_get item ["id"] .null) with
  | some tid =>
      match aget m tid with
      | some tdb => tdb != ""
      | none => false
  | none => false

/-- Number of ranking items whose team reference resolves against the
current team map — the rows `transform_rankings` emits. -/
def resolvableRankCount (s : TState) (rankings_data : JValue) : Nat :=
  (((pyIterList (safe_get rankings_data ["rankings"] (.arr []))).getD []).filter
    (rankResolvableB s.team_id_map)).length

/-- A one-item schedule document whose single game field is stored under
an arbitrary key. -/
def scheduleFieldDoc (k : String) (v : JValue) : JValue :=
  .obj [("schedule", .arr [.obj [(k, v)]])]

/-- A one-item schedule document carrying all four game fields, each
under a chosen key name. -/
def scheduleFullDoc (kh ka kt : String) (ho aw ve tv : JValue) : JValue :=
  .obj [("schedule", .arr [.obj [(kh, ho), (ka, aw), ("venue", ve), (kt, tv)]])]

/-- The name of a schedule field key "carries" the venue: a document
holding a venue object under this key yields a game record exposing that
venue's name. -/
def venueNameCarried (k : String) (n : String) : Prop :=
  ∃ g, transformSchedule (scheduleFieldDoc k (.obj [("name", .str n)])) =
        some (some [g]) ∧ g.venue_name = some n

/-- The venue half of the schedule tolerance claim as stated: at least
three differently-named source fields each carry the venue value. -/
def VenueAcceptsThreeNames : Prop :=
  ∃ k1 k2 k3 : String, k1 ≠ k2 ∧ k1 ≠ k3 ∧ k2 ≠ k3 ∧
    ∀ n : String, pyStrip n ≠ "" →
      venueNameCarried k1 n ∧ venueNameCarried k2 n ∧ venueNameCarried k3 n

/-- A key name carries the home team reference. -/
def homeCarried (k : String) (tid : String) : Prop :=
  ∃ g, transformSchedule (scheduleFieldDoc k (.obj [("id", .str tid)])) =
        some (some [g]) ∧ g.home_team_api_id = some tid

/-- The home half of the schedule tolerance claim as stated. -/
def HomeAcceptsThreeNames : Prop :=
  ∃ k1 k2 k3 : String, k1 ≠ k2 ∧ k1 ≠ k3 ∧ k2 ≠ k3 ∧
    ∀ tid : String, pyUuidValid tid = true →
      homeCarried k1 tid ∧ homeCarried k2 tid ∧ homeCarried k3 tid

/-- A key name carries the away team reference. -/
def awayCarried (k : String) (tid : String) : Prop :=
  ∃ g, transformSchedule (scheduleFieldDoc k (.obj [("id", .str tid)])) =
        some (some [g]) ∧ g.away_team_api_id = some tid

/-- The away half of the schedule tolerance claim as stated. -/
def AwayAcceptsThreeNames : Prop :=
  ∃ k1 k2 k3 : String, k1 ≠ k2 ∧ k1 ≠ k3 ∧ k2 ≠ k3 ∧
    ∀ tid : String, pyUuidValid tid = true →
      awayCarried k1 tid ∧ awayCarried k2 tid ∧ awayCarried k3 tid

/-- A key name carries the kickoff time. -/
def timeCarried (k : String) (v : JValue) : Prop :=
  ∃ g, transformSchedule (scheduleFieldDoc k v) = some (some [g]) ∧
        g.scheduled = v

/-- The kickoff-time half of the schedule tolerance claim as stated. -/
def TimeAcceptsThreeNames : Prop :=
  ∃ k1 k2 k3 : String, k1 ≠ k2 ∧ k1 ≠ k3 ∧ k2 ≠ k3 ∧
    ∀ v : JValue, pyTruthy v = true →
      timeCarried k1 v ∧ timeCarried k2 v ∧ timeCarried k3 v

/-- The schedule field-name tolerance claim as stated, for all four
fields at once. -/
def ScheduleToleranceAsStated : Prop :=
  HomeAcceptsThreeNames ∧ AwayAcceptsThreeNames ∧
  VenueAcceptsThreeNames ∧ TimeAcceptsThreeNames

/-- Concrete valid external identifiers used by closed statements. -/
def uuidA : String := "11111111-1111-1111-1111-111111111111"

/-- Second concrete identifier. -/
def uuidB : String := "22222222-2222-2222-2222-222222222222"

/-- Third concrete identifier. -/
def uuidC : String := "33333333-3333-3333-3333-333333333333"

/-- Fourth concrete identifier. -/
def uuidD : String := "44444444-4444-4444-4444-444444444444"

/-- Fifth concrete identifier. -/
def uuidE : String := "55555555-5555-5555-5555-555555555555"

/-- Sixth concrete identifier. -/
def uuidF : String := "66666666-6666-6666-6666-666666666666"

/-- A fixed identifier supply for closed statements in which no draw
occurs or the drawn value is irrelevant. -/
def gZero : Nat → String := fun _ => "generated-token"

/-- Identifier supply modelling the draws of a first run. -/
def gRunA : Nat → String := fun n => "runA-" ++ toString n

/-- Identifier supply modelling the draws of a second run. -/
def gRunB : Nat → String := fun n => "runB-" ++ toString n

/-- Snapshot whose roster carries a conference object with a valid id but
no name, together with a named division: the division record then stores
a conference reference that is in no conference table. -/
def danglingConfInput : List (String × JValue) :=
  [("rosters", .obj [(uuidE, .obj [
      ("conference", .obj [("id", .str uuidC)]),
      ("division", .obj [("id", .str uuidA), ("name", .str "East")])])])]

/-- Snapshot listing the same team twice: the team resolution key is
resolved twice within one run. -/
def dupTeamInput : List (String × JValue) :=
  [("teams", .obj [("teams", .arr [
      .obj [("id", .str uuidE), ("name", .str "Aggies")],
      .obj [("id", .str uuidE), ("name", .str "Aggies")]])])]

/-- Snapshot whose hierarchy conference carries no external id, forcing
an identifier draw. -/
def noIdHierInput : List (String × JValue) :=
  [("hierarchy", .obj [("divisions", .arr [
      .obj [("name", .str "FBS"), ("conferences", .arr [
        .obj [("name", .str "ACC")]])]])])]

/-- A hierarchy division entry with one conference under it, all fields
explicit, used by parametric statements. -/
def hierDivDoc (divId divName confId confName : String) : JValue :=
  .obj [("id", .str divId), ("name", .str divName),
        ("conferences", .arr [.obj [("id", .str confId), ("name", .str confName)]])]

/-- A hierarchy document holding exactly two division entries. -/
def hierTwoDoc (d1 d2 : JValue) : JValue :=
  .obj [("divisions", .arr [d1, d2])]

/-- A roster player document whose name information is a single string. -/
def playerStrNameDoc (pid nm : String) : JValue :=
  .obj [("id", .str pid), ("name", .str nm)]

/-- A roster player document with no name information at all. -/
def playerNoNameDoc (pid : String) : JValue :=
  .obj [("id", .str pid)]

/-- A roster collection holding one team's player list. -/
def rosterPlayersDoc (teamApi : String) (ps : List JValue) : JValue :=
  .obj [(teamApi, .obj [("players", .arr ps)])]

/-- The height string `6'3"` built from characters. -/
def heightQuoteStr : String := String.mk ['6', '\'', '3', '"']

/-- A transformer state knowing one team, used by closed statements. -/
def stateWithTeam : TState := { initState with team_id_map := [(uuidE, uuidE)] }

/-- A rankings document referencing one resolvable team and one unknown
team. -/
def rankTwoItemsDoc : JValue :=
  .obj [("poll", .obj [("id", .str uuidA), ("name", .str "AP Top 25")]),
        ("week", .int 3),
        ("rankings", .arr [
          .obj [("id", .str uuidE), ("rank", .int 1)],
          .obj [("id", .str uuidF), ("rank", .int 2)]])]

/-- A statistics collection referencing the known team. -/
def statsOneTeamDoc : JValue :=
  .obj [(uuidE, .obj [("players", .arr [.obj [("id", .str uuidF)]])])]

/-- A small but complete snapshot: hierarchy, teams, seasons, rosters,
statistics and rankings, every entity carrying a valid external
identifier. -/
def richInput : List (String × JValue) :=
  [("hierarchy", .obj [("divisions", .arr [
      .obj [("id", .str uuidA), ("name", .str "FBS"),
            ("conferences", .arr [
              .obj [("id", .str uuidB), ("name", .str "ACC"),
                    ("teams", .arr [
                      .obj [("venue", .obj [("id", .str uuidD),
                                            ("name", .str "Kenan Stadium")])]])]])]])]),
   ("teams", .obj [("teams", .arr [
      .obj [("id", .str uuidE), ("market", .str "North Carolina"),
            ("name", .str "Tar Heels"), ("alias", .str "UNC"),
            ("conference", .obj [("name", .str "ACC")]),
            ("division", .obj [("name", .str "FBS")]),
            ("venue", .obj [("id", .str uuidD)])]])]),
   ("seasons", .obj [("seasons", .arr [
      .obj [("id", .str uuidC), ("year", .int 2025),
            ("type", .obj [("code", .str "REG")]),
            ("status", .str "inprogress")]])]),
   ("rosters", .obj [(uuidE, .obj [
      ("players", .arr [
        .obj [("id", .str uuidF), ("name", .str "Bo Jackson"),
              ("position", .str "RB"), ("height", .str "6-3"),
              ("weight", .int 220)]]),
      ("coaches", .arr [
        .obj [("id", .str uuidB), ("full_name", .str "Mack Brown"),
              ("position", .str "Head Coach")]])])]),
   ("season_stats", .obj [(uuidE, .obj [("players", .arr [
      .obj [("id", .str uuidF), ("statistics", .obj [
        ("games_played", .int 12),
        ("rushing", .obj [("yards", .int 950), ("touchdowns", .int 9)])])]])])]),
   ("rankings_current", .obj [
      ("poll", .obj [("id", .str uuidA), ("name", .str "AP Top 25")]),
      ("week", .int 3),
      ("rankings", .arr [.obj [("id", .str uuidE), ("rank", .int 1)]])])]

/-- Snapshot whose hierarchy lists the same conference id twice under the
name "ACC" and then a different conference id under that same name:
exercises the conference record de-duplication by canonical identity and
the last-write-wins name map. -/
def confDedupInput : List (String × JValue) :=
  [("hierarchy", .obj [("divisions", .arr [
      .obj [("id", .str uuidA), ("name", .str "FBS"), ("conferences", .arr [
        .obj [("id", .str uuidB), ("name", .str "ACC")],
        .obj [("id", .str uuidB), ("name", .str "ACC")],
        .obj [("id", .str uuidD), ("name", .str "ACC")]])]])])]

end Props

section Theorems

open PyModel Helpers Transformer Props

/-- C7: Height coercion maps `"75"` to 75, `"6-3"` to 75, `"6'3\""` to
75, the integer 190 to 190 and `"tall"` to null — but it is not total:
on the superscript digit string `"²"`, `str.isdigit()` answers true while
`int()` rejects the literal, and the unguarded `int` call raises a
`ValueError` (the outer `none` of the model), contradicting the
documented contract of returning inches or `None`. -/
theorem convert_height_cases_and_superscript_raise :
    convert_height_to_inches (.str "75") = some (some 75) ∧
    convert_height_to_inches (.str "6-3") = some (some 75) ∧
    convert_height_to_inches (.str heightQuoteStr) = some (some 75) ∧
    convert_height_to_inches (.int 190) = some (some 190) ∧
    convert_height_to_inches (.str "tall") = some none ∧
    convert_height_to_inches (.str "²") = none := by
  refine ⟨?_, ?_, ?_, ?_, ?_, ?_⟩ <;> decide

/-- C8: `safe_get` returns the caller-supplied default whenever some
segment of the key path is absent or the value reached at that point is
not a mapping.  The embedding is a total function, reflecting that the
source contains no raising operation on any input. -/
theorem safe_get_default_on_broken_path :
    ∀ (data : JValue) (keys : List String) (dflt : JValue),
      pathBrokenB data keys = true → safe_get data keys dflt = dflt := by
  intro data keys
  induction keys generalizing data with
  | nil => intro dflt h; simp [pathBrokenB] at h
  | cons k rest ih =>
      intro dflt h
      cases data with
      | obj fs =>
          simp only [pathBrokenB] at h
          cases hv : aget fs k with
          | some v =>
              rw [hv] at h
              simp only [safe_get, hv]
              exact ih v dflt h
          | none => simp only [safe_get, hv]
      | null => simp [safe_get]
      | bool b => simp [safe_get]
      | int n => simp [safe_get]
      | float r => simp [safe_get]
      | str s => simp [safe_get]
      | arr xs => simp [safe_get]

/-- Witness for C8 at a concrete broken path. -/
theorem safe_get_default_on_broken_path_witness :
    pathBrokenB (.obj [("a", .int 1)]) ["b"] = true ∧
    safe_get (.obj [("a", .int 1)]) ["b"] (.str "dflt") = .str "dflt" :=
  ⟨by decide, safe_get_default_on_broken_path _ _ _ (by decide)⟩

/-- C10: when the full key path exists but the stored value is an
explicit null, `safe_get` returns the caller-supplied default, making a
present-but-null field indistinguishable from an absent one at this
interface. -/
theorem safe_get_default_on_null_value :
    ∀ (data : JValue) (keys : List String) (dflt : JValue),
      pathValue data keys = some .null → safe_get data keys dflt = dflt := by
  intro data keys
  induction keys generalizing data with
  | nil =>
      intro dflt h
      simp only [pathValue, Option.some.injEq] at h
      subst h
      rfl
  | cons k rest ih =>
      intro dflt h
      cases data with
      | obj fs =>
          simp only [pathValue] at h
          cases hv : aget fs k with
          | some v =>
              rw [hv] at h
              simp only [safe_get, hv]
              exact ih v dflt h
          | none => rw [hv] at h; exact absurd h (by simp)
      | null => simp [pathValue] at h
      | bool b => simp [pathValue] at h
      | int n => simp [pathValue] at h
      | float r => simp [pathValue] at h
      | str s => simp [pathValue] at h
      | arr xs => simp [pathValue] at h

/-- Witness for C10 at a concrete present-but-null path. -/
theorem safe_get_default_on_null_value_witness :
    pathValue (.obj [("a", .obj [("b", .null)])]) ["a", "b"] = some .null ∧
    safe_get (.obj [("a", .obj [("b", .null)])]) ["a", "b"] (.str "dflt") = .str "dflt" :=
  ⟨rfl, safe_get_default_on_null_value _ _ _ rfl⟩

/-- Python stripping is idempotent. -/
theorem stripWs_idem (cs : List Char) : stripWs (stripWs cs) = stripWs cs := by
  show stripWs ((cs.dropWhile Char.isWhitespace).rdropWhile Char.isWhitespace) = _
  set A := cs.dropWhile Char.isWhitespace with hA
  set X := A.rdropWhile Char.isWhitespace with hX
  have h1 : X.dropWhile Char.isWhitespace = X := by
    obtain ⟨t, ht⟩ := List.rdropWhile_prefix Char.isWhitespace A
    rw [← hX] at ht
    cases hXc : X with
    | nil => rfl
    | cons x X2 =>
        have hxa : ¬ Char.isWhitespace x = true := by
          intro hx
          have hAeq : A.dropWhile Char.isWhitespace = A :=
            List.dropWhile_idempotent Char.isWhitespace cs
          rw [← ht, hXc] at hAeq
          rw [List.cons_append, List.dropWhile_cons_of_pos hx] at hAeq
          have hlen : ((X2 ++ t).dropWhile Char.isWhitespace).length ≤ (X2 ++ t).length :=
            (List.dropWhile_suffix Char.isWhitespace).sublist.length_le
          rw [hAeq] at hlen
          simp at hlen
        exact List.dropWhile_cons_of_neg hxa
  have h2 : X.rdropWhile Char.isWhitespace = X :=
    List.rdropWhile_idempotent Char.isWhitespace A
  show (X.dropWhile Char.isWhitespace).rdropWhile Char.isWhitespace = X
  rw [h1, h2]

/-- String-level idempotence of Python stripping. -/
theorem pyStrip_idem (s : String) : pyStrip (pyStrip s) = pyStrip s := by
  simp [pyStrip, stripWs_idem]

/-- Lookup after an update at a different key is unchanged. -/
theorem aget_aset_ne {α β : Type} [DecidableEq α] (m : List (α × β)) (k k' : α) (v : β)
    (h : k ≠ k') : aget (aset m k v) k' = aget m k' := by
  induction m with
  | nil => simp [aset, aget, h]
  | cons kv m ih =>
      obtain ⟨k0, v0⟩ := kv
      by_cases hk : k0 = k
      · subst hk
        simp [aset, aget, h]
      · simp [aset, aget, hk, ih]

/-- Lookup after an update at the same key yields the new value. -/
theorem aget_aset_self {α β : Type} [DecidableEq α] (m : List (α × β)) (k : α) (v : β) :
    aget (aset m k v) k = some v := by
  induction m with
  | nil => simp [aset, aget]
  | cons kv m ih =>
      obtain ⟨k0, v0⟩ := kv
      by_cases hk : k0 = k
      · subst hk; simp [aset, aget]
      · simp [aset, aget, hk, ih]

/-- C6: a roster player with a valid external id whose name information
is a single whitespace-separated string gets the last token as last name
and the preceding tokens, joined by single spaces, as first name (absent
when there is only one token); a player with no name information at all
is still emitted, with the `"Unknown"` placeholder as last name. -/
theorem players_single_string_name_and_placeholder
    (s : TState) (teamApi tdb pidA pidB nm : String) (parts : List String)
    (hteam : aget s.team_id_map teamApi = some tdb) (htdb : ¬ tdb = "")
    (hA : pyUuidValid pidA = true) (hB : pyUuidValid pidB = true)
    (hAB : pidA ≠ pidB)
    (hAfresh : aget s.player_id_map pidA = none)
    (hBfresh : aget s.player_id_map pidB = none)
    (hnm : ¬ pyStrip nm = "")
    (hparts : pySplitWs (pyStrip nm) = parts)
    (hpne : parts ≠ [])
    (hlast : parts.getLast hpne ≠ "") :
    transformPlayers s (rosterPlayersDoc teamApi [playerStrNameDoc pidA nm, playerNoNameDoc pidB]) =
      some { s with
        player_id_map := aset (aset s.player_id_map pidA pidA) pidB pidB,
        players := s.players ++ [
          { player_id := pidA,
            first_name := if parts.length > 1 then some (joinSpace parts.dropLast) else none,
            last_name := parts.getLast hpne,
            abbr_name := none, birth_place := none, position := none,
            height := none, weight := none, status := none, eligibility := none,
            team_id := tdb },
          { player_id := pidB, first_name := none, last_name := "Unknown",
            abbr_name := none, birth_place := none, position := none,
            height := none, weight := none, status := none, eligibility := none,
            team_id := tdb }] } := by
  have hB2 : aget (aset s.player_id_map pidA pidA) pidB = none := by
    rw [aget_aset_ne _ _ _ _ hAB]; exact hBfresh
  have hgl : parts.getLast? = some (parts.getLast hpne) := List.getLast?_eq_getLast _ _
  simp [transformPlayers, rosterPlayersDoc, pyTruthy, pyItems, List.foldlM, pyIterList,
        Option.bind, rosterPlayersStep, rosterMetaStep, rosterConfDivStep, safe_get, aget, playerStrNameDoc,
        playerNoNameDoc, hteam, htdb, playerStep, normalize_uuid, hA, hB, resolvePlayerName,
        normalize_string, hnm, pyStrip_idem, hparts, hgl, hAfresh, hB2, pyOrS, optSTruthy,
        convert_height_to_inches, resolvePosition, hlast, normalize_int, aset]

/-- Witness for C6: the string name `"Bo Jackson"` yields first name
`"Bo"` and last name `"Jackson"`, and a nameless player record is kept
with the placeholder. -/
theorem players_single_string_name_and_placeholder_witness :
    transformPlayers stateWithTeam
        (rosterPlayersDoc uuidE [playerStrNameDoc uuidF "Bo Jackson", playerNoNameDoc uuidA]) =
      some { stateWithTeam with
        player_id_map := aset (aset stateWithTeam.player_id_map uuidF uuidF) uuidA uuidA,
        players := [
          { player_id := uuidF, first_name := some "Bo", last_name := "Jackson",
            abbr_name := none, birth_place := none, position := none,
            height := none, weight := none, status := none, eligibility := none,
            team_id := uuidE },
          { player_id := uuidA, first_name := none, last_name := "Unknown",
            abbr_name := none, birth_place := none, position := none,
            height := none, weight := none, status := none, eligibility := none,
            team_id := uuidE }] } := by
  have h := players_single_string_name_and_placeholder stateWithTeam uuidE uuidE uuidF uuidA
    "Bo Jackson" ["Bo", "Jackson"] rfl (by decide) (by decide) (by decide) (by decide)
    rfl rfl (by decide) (by decide) (by decide) (by decide)
  simpa [joinSpace, stateWithTeam, initState] using h

/-- C5: a hierarchy document with two division entries sharing one name
but owned by two different conferences produces two distinct division
records, each linked to its own conference identity — division identity
is scoped by `(conference identity, division name)`, not by name alone. -/
theorem hierarchy_shared_division_name_scoped
    (g : Nat → String) (u1 u2 c1 c2 dn cn1 cn2 : String)
    (hu1 : pyUuidValid u1 = true) (hu2 : pyUuidValid u2 = true)
    (hc1 : pyUuidValid c1 = true) (hc2 : pyUuidValid c2 = true)
    (hu : u1 ≠ u2) (hc : c1 ≠ c2)
    (hdn : ¬ pyStrip dn = "") (hcn1 : ¬ pyStrip cn1 = "") (hcn2 : ¬ pyStrip cn2 = "") :
    (transformHierarchy g initState
        (hierTwoDoc (hierDivDoc u1 dn c1 cn1) (hierDivDoc u2 dn c2 cn2))).map
        (fun s => (s.divisions, s.conferences)) =
      some ([
        { division_id := u1, name := pyStrip dn, alias_ := none, conference_id := some c1 },
        { division_id := u2, name := pyStrip dn, alias_ := none, conference_id := some c2 }],
        [{ conference_id := c1, name := pyStrip cn1, alias_ := none },
         { conference_id := c2, name := pyStrip cn2, alias_ := none }]) := by
  simp [transformHierarchy, hierTwoDoc, hierDivDoc, pyTruthy, pyIterList, List.foldlM,
        hierDivStep, hierConfStep, safe_get, aget, normalize_uuid, hu1, hu2, hc1, hc2,
        normalize_string, hdn, hcn1, hcn2, teamVenueStep, aset, hu, hc, initState]

/-- Witness for C5: two divisions named `"East"` under the conferences
`"Alpha"` and `"Beta"` are both retained. -/
theorem hierarchy_shared_division_name_scoped_witness :
    (transformHierarchy gZero initState
        (hierTwoDoc (hierDivDoc uuidA "East" uuidC "Alpha") (hierDivDoc uuidB "East" uuidD "Beta"))).map
        (fun s => (s.divisions, s.conferences)) =
      some ([
        { division_id := uuidA, name := "East", alias_ := none, conference_id := some uuidC },
        { division_id := uuidB, name := "East", alias_ := none, conference_id := some uuidD }],
        [{ conference_id := uuidC, name := "Alpha", alias_ := none },
         { conference_id := uuidD, name := "Beta", alias_ := none }]) := by
  have h := hierarchy_shared_division_name_scoped gZero uuidA uuidB uuidC uuidD "East" "Alpha" "Beta"
    (by decide) (by decide) (by decide) (by decide) (by decide) (by decide)
    (by decide) (by decide) (by decide)
  simpa [show pyStrip "East" = "East" from rfl, show pyStrip "Alpha" = "Alpha" from rfl,
         show pyStrip "Beta" = "Beta" from rfl] using h

/-- One rankings loop step either leaves the table unchanged (unresolvable team) or appends exactly one record carrying the season reference it was given. -/
theorem rankStep_preserves (pid : String) (pname : Option String) (sdb : Option String)
    (wk : Option Int) (eff : Option String) (acc : TState × Int) (item : JValue) :
    (rankStep pid pname sdb wk eff acc item).1.team_id_map = acc.1.team_id_map ∧
    ((rankStep pid pname sdb wk eff acc item).1.rankings = acc.1.rankings ∧
        rankResolvableB acc.1.team_id_map item = false ∨
      (∃ r, (rankStep pid pname sdb wk eff acc item).1.rankings = acc.1.rankings ++ [r] ∧
          r.season_id = sdb) ∧
        rankResolvableB acc.1.team_id_map item = true) := by
  unfold rankStep rankResolvableB
  cases hid : normalize_uuid (safe_get item ["id"] JValue.null) with
  | none => exact ⟨rfl, Or.inl ⟨rfl, rfl⟩⟩
  | some tid =>
      dsimp only
      cases hmap : aget acc.1.team_id_map tid with
      | none => exact ⟨rfl, Or.inl ⟨rfl, rfl⟩⟩
      | some tdb =>
          dsimp only
          by_cases htdb : tdb = ""
          · subst htdb
            simp only [if_pos rfl]
            refine ⟨rfl, Or.inl ?_⟩
            constructor
            · rfl
            · simp
          · simp only [if_neg htdb]
            refine ⟨trivial, Or.inr ⟨⟨_, rfl, rfl⟩, ?_⟩⟩
            simp [htdb]

/-- The rankings loop appends one record per resolvable item, each carrying the given season reference, and leaves the team map unchanged. -/
theorem rankStep_fold (pid : String) (pname : Option String) (sdb : Option String)
    (wk : Option Int) (eff : Option String) :
    ∀ (items : List JValue) (acc : TState × Int),
      (items.foldl (rankStep pid pname sdb wk eff) acc).1.team_id_map = acc.1.team_id_map ∧
      ∃ newPart : List RankingR,
        (items.foldl (rankStep pid pname sdb wk eff) acc).1.rankings =
          acc.1.rankings ++ newPart ∧
        newPart.length = (items.filter (rankResolvableB acc.1.team_id_map)).length ∧
        ∀ r ∈ newPart, r.season_id = sdb := by
  intro items
  induction items with
  | nil => intro acc; exact ⟨rfl, [], by simp, by simp, by simp⟩
  | cons item rest ih =>
      intro acc
      obtain ⟨hmap, hor⟩ := rankStep_preserves pid pname sdb wk eff acc item
      obtain ⟨ihmap, newPart, ihr, ihlen, ihsdb⟩ := ih (rankStep pid pname sdb wk eff acc item)
      rcases hor with ⟨hkeep, hres⟩ | ⟨⟨r, happ, hrs⟩, hres⟩
      · refine ⟨by simp [List.foldl_cons, ihmap, hmap], newPart, ?_, ?_, ihsdb⟩
        · simp only [List.foldl_cons] at ihr ⊢
          rw [ihr, hkeep]
        · rw [List.filter_cons, if_neg (by simp [hres])]
          rw [ihlen, hmap]
      · refine ⟨by simp [List.foldl_cons, ihmap, hmap], r :: newPart, ?_, ?_, ?_⟩
        · simp only [List.foldl_cons] at ihr ⊢
          rw [ihr, happ, List.append_assoc]
          rfl
        · rw [List.filter_cons, if_pos (by simp [hres])]
          simp only [List.length_cons]
          rw [ihlen, hmap]
        · intro x hx
          rcases List.mem_cons.mp hx with h1 | h2
          · subst h1; exact hrs
          · exact ihsdb x h2

/-- A falsy rankings document yields no resolvable items. -/
theorem resolvableRankCount_falsy (s : TState) (rd : JValue) (hT : ¬ pyTruthy rd = true) :
    resolvableRankCount s rd = 0 := by
  cases rd <;>
    simp_all [resolvableRankCount, pyTruthy, safe_get, pyIterList, aget, List.isEmpty_iff]

/-- Specialization of the rankings loop to an unresolved season: every appended record has a null season reference. -/
theorem rank_fold_null_season (pollId : String) (pname : Option String)
    (wk0 : Option Int) (eff : Option String) (sBase s1 : TState) (items : List JValue)
    (hr : s1.rankings = sBase.rankings) (ht : s1.team_id_map = sBase.team_id_map) :
    (items.foldl (rankStep pollId pname none wk0 eff)
        (s1, (s1.rankings.length : Int) + 1)).1.rankings.length =
      sBase.rankings.length + (items.filter (rankResolvableB sBase.team_id_map)).length ∧
    ∀ r ∈ (items.foldl (rankStep pollId pname none wk0 eff)
        (s1, (s1.rankings.length : Int) + 1)).1.rankings.drop sBase.rankings.length,
      r.season_id = none := by
  obtain ⟨hmap, newPart, hrw, hlen, hsdb⟩ :=
    rankStep_fold pollId pname none wk0 eff items (s1, (s1.rankings.length : Int) + 1)
  rw [hrw, hr]
  constructor
  · simp only [List.length_append]
    rw [hlen, ht]
  · intro r hrmem
    rw [List.drop_left] at hrmem
    exact hsdb r hrmem

/-- C4: when the `(year, season_type)` season key fails to resolve, `transform_player_statistics` returns with the state untouched — no statistic record is emitted at all — whereas `transform_rankings`, when `(year, "REG")` fails to resolve, still emits one ranking record per resolvable team, each with a null season reference. -/
theorem season_failure_asymmetry
    (g : Nat → String) (s : TState) (stats_data rank_data : JValue)
    (y : Int) (stype : String) (wk : Option Int)
    (hstat : aget s.season_id_map (y, stype) = none)
    (hrank : aget s.season_id_map (y, "REG") = none) :
    transformPlayerStatistics s stats_data y stype = some s ∧
    ∀ s', transformRankings g s rank_data y wk = some s' →
      s'.rankings.length = s.rankings.length + resolvableRankCount s rank_data ∧
      ∀ r ∈ s'.rankings.drop s.rankings.length, r.season_id = none := by
  constructor
  · unfold transformPlayerStatistics
    split
    · rfl
    · simp only [hstat]
  · intro s' hs'
    unfold transformRankings at hs'
    by_cases hT : pyTruthy rank_data
    case neg =>
      rw [if_pos (by simpa using hT)] at hs'
      obtain rfl : s = s' := Option.some.inj hs'
      refine ⟨?_, by simp⟩
      rw [resolvableRankCount_falsy s rank_data hT]
      simp
    case pos =>
      rw [if_neg (by simpa using hT)] at hs'
      simp only [] at hs'
      by_cases hp : optSTruthy (normalize_uuid (safe_get rank_data ["poll", "id"] JValue.null))
      · rw [if_pos hp] at hs'
        dsimp only at hs'
        cases hit : pyIterList (safe_get rank_data ["rankings"] (JValue.arr [])) with
        | none => rw [hit] at hs'; exact absurd hs' (by simp)
        | some items =>
            rw [hit] at hs'
            simp only [Option.bind_eq_bind, Option.some_bind, Option.some.injEq] at hs'
            subst hs'
            rw [hrank]
            obtain ⟨h1, h2⟩ := rank_fold_null_season
              ((normalize_uuid (safe_get rank_data ["poll", "id"] JValue.null)).getD "")
              (normalize_string (safe_get rank_data ["poll", "name"] JValue.null))
              (match wk with
               | some w => some w
               | none => normalize_int (safe_get rank_data ["week"] JValue.null))
              (normalize_date (safe_get rank_data ["effective_time"] JValue.null))
              s s items rfl rfl
            refine ⟨?_, h2⟩
            rw [h1]
            simp [resolvableRankCount, hit]
      · rw [if_neg hp] at hs'
        dsimp only [freshUuid] at hs'
        cases hit : pyIterList (safe_get rank_data ["rankings"] (JValue.arr [])) with
        | none => rw [hit] at hs'; exact absurd hs' (by simp [freshUuid])
        | some items =>
            rw [hit] at hs'
            simp only [freshUuid, Option.bind_eq_bind, Option.some_bind, Option.some.injEq] at hs'
            subst hs'
            rw [show ({ s with ctr := s.ctr + 1 } : TState).season_id_map = s.season_id_map from rfl, hrank]
            obtain ⟨h1, h2⟩ := rank_fold_null_season (g s.ctr)
              (normalize_string (safe_get rank_data ["poll", "name"] JValue.null))
              (match wk with
               | some w => some w
               | none => normalize_int (safe_get rank_data ["week"] JValue.null))
              (normalize_date (safe_get rank_data ["effective_time"] JValue.null))
              s { s with ctr := s.ctr + 1 } items rfl rfl
            refine ⟨?_, h2⟩
            rw [h1]
            simp [resolvableRankCount, hit]

/-- Witness for C4 at a concrete state and documents: statistics are
skipped entirely while rankings are emitted with null season. -/
theorem season_failure_asymmetry_witness :
    transformPlayerStatistics stateWithTeam statsOneTeamDoc 2025 "REG" = some stateWithTeam ∧
    ∃ s', transformRankings gZero stateWithTeam rankTwoItemsDoc 2025 none = some s' ∧
      s'.rankings.length =
        stateWithTeam.rankings.length + resolvableRankCount stateWithTeam rankTwoItemsDoc ∧
      ∀ r ∈ s'.rankings.drop stateWithTeam.rankings.length, r.season_id = none := by
  obtain ⟨h1, h2⟩ := season_failure_asymmetry gZero stateWithTeam statsOneTeamDoc
    rankTwoItemsDoc 2025 "REG" none rfl rfl
  exact ⟨h1, _, rfl, h2 _ rfl⟩


/-- Placing a venue object under any key other than `venue` leaves the produced game record's venue name null: `transform_schedule` probes only the one key for the venue. -/
theorem schedule_other_key_no_venue (k : String) (hk : ¬ k = "venue") (n : String) :
    ∃ gg, transformSchedule (scheduleFieldDoc k (.obj [("name", .str n)])) =
        some (some [gg]) ∧ gg.venue_name = none := by
  by_cases h1 : k = "home"
  · subst h1
    refine ⟨_, rfl, ?_⟩
    rfl
  by_cases h2 : k = "home_team"
  · subst h2
    refine ⟨_, rfl, ?_⟩
    rfl
  by_cases h3 : k = "away"
  · subst h3
    refine ⟨_, rfl, ?_⟩
    rfl
  by_cases h4 : k = "away_team"
  · subst h4
    refine ⟨_, rfl, ?_⟩
    rfl
  by_cases h5 : k = "scheduled"
  · subst h5
    refine ⟨_, rfl, ?_⟩
    rfl
  by_cases h6 : k = "date"
  · subst h6
    refine ⟨_, rfl, ?_⟩
    rfl
  by_cases h7 : k = "start_time"
  · subst h7
    refine ⟨_, rfl, ?_⟩
    rfl
  refine ⟨{ game_id := 1, home_team_api_id := none, away_team_api_id := none,
            scheduled := JValue.null, venue_name := none }, ?_, rfl⟩
  simp [transformSchedule, scheduleFieldDoc, scheduleItemStep, pyDictGet, aget, pyOr,
        pyTruthy, pyIterList, List.foldlM, h1, h2, h3, h4, h5, h6, h7, hk,
        normalize_uuid, normalize_string, safe_get]

/-- No key other than `venue` carries the venue name. -/
theorem venue_not_carried_by_other_key (k : String) (hk : ¬ k = "venue") :
    ¬ venueNameCarried k "Stadium X" := by
  rintro ⟨gg, hrun, hname⟩
  obtain ⟨gg', hrun', hname'⟩ := schedule_other_key_no_venue k hk "Stadium X"
  rw [hrun] at hrun'
  have : gg = gg' := by
    have := Option.some.inj (Option.some.inj hrun')
    simpa using this
  rw [this, hname'] at hname
  exact Option.noConfusion hname

/-- Null is falsy. -/
theorem pyTruthy_null : pyTruthy JValue.null = false := rfl

/-- A nonempty dict is truthy. -/
theorem pyTruthy_obj_cons (kv : String × JValue) (fs : List (String × JValue)) :
    pyTruthy (JValue.obj (kv :: fs)) = true := rfl

/-- A nonempty list is truthy. -/
theorem pyTruthy_arr_cons (v : JValue) (vs : List JValue) :
    pyTruthy (JValue.arr (v :: vs)) = true := rfl

/-- C9, counterexample: the claim that each of the four schedule fields is accepted under at least three differently-named source fields is false — the venue is read from the single key `venue`, so no three distinct key names can all carry it (witnessed with the venue name `"Stadium X"`). -/
theorem schedule_venue_single_name_only : ¬ ScheduleToleranceAsStated := by
  rintro ⟨-, -, ⟨k1, k2, k3, h12, h13, h23, hall⟩, -⟩
  obtain ⟨hc1, hc2, hc3⟩ := hall "Stadium X" (by decide)
  by_cases e1 : k1 = "venue"
  · have e2 : ¬ k2 = "venue" := fun h => h12 (h ▸ e1 ▸ rfl)
    exact venue_not_carried_by_other_key k2 e2 hc2
  · exact venue_not_carried_by_other_key k1 e1 hc1

/-- C9, amended: `transform_schedule` accepts two names each for home (`home`, `home_team`) and away (`away`, `away_team`), one name for the venue (`venue`), and three for the kickoff time (`scheduled`, `date`, `start_time`), producing the same game record whichever accepted name the document uses; team references are stored as the (validated) raw external identifier without consulting any identity map — the function takes no transformer state at all. -/
theorem schedule_field_name_tolerance
    (ho aw ve tv : JValue) (kh ka kt : String)
    (hkh : kh = "home" ∨ kh = "home_team")
    (hka : ka = "away" ∨ ka = "away_team")
    (hkt : kt = "scheduled" ∨ kt = "date" ∨ kt = "start_time")
    (htv : pyTruthy tv = true) :
    transformSchedule (scheduleFullDoc kh ka kt ho aw ve tv) =
      transformSchedule (scheduleFullDoc "home" "away" "scheduled" ho aw ve tv) ∧
    ∀ (tidH tidA vn : String), pyUuidValid tidH = true → pyUuidValid tidA = true →
      ¬ pyStrip vn = "" →
      transformSchedule (scheduleFullDoc "home" "away" "scheduled"
          (.obj [("id", .str tidH)]) (.obj [("id", .str tidA)]) (.obj [("name", .str vn)]) tv) =
        some (some [{ game_id := 1, home_team_api_id := some tidH,
                      away_team_api_id := some tidA, scheduled := tv,
                      venue_name := some (pyStrip vn) }]) := by
  constructor
  · rcases hkh with rfl | rfl <;> rcases hka with rfl | rfl <;>
      rcases hkt with rfl | rfl | rfl <;>
      simp [transformSchedule, scheduleFullDoc, scheduleItemStep, pyDictGet, aget, pyOr,
            pyTruthy_null, pyTruthy_obj_cons, pyTruthy_arr_cons, htv,
            pyIterList, List.foldlM]
  · intro tidH tidA vn hH hA hvn
    simp [transformSchedule, scheduleFullDoc, scheduleItemStep, pyDictGet, aget, pyOr,
          pyTruthy_null, pyTruthy_obj_cons, pyTruthy_arr_cons, htv,
          pyIterList, List.foldlM, normalize_uuid, hH, hA, normalize_string, hvn]

/-- Witness for the amended C9 at concrete documents. -/
theorem schedule_field_name_tolerance_witness :
    transformSchedule (scheduleFullDoc "home_team" "away_team" "date"
        (.obj [("id", .str uuidE)]) (.obj [("id", .str uuidF)])
        (.obj [("name", .str "Stadium")]) (.str "2025-09-01")) =
      transformSchedule (scheduleFullDoc "home" "away" "scheduled"
        (.obj [("id", .str uuidE)]) (.obj [("id", .str uuidF)])
        (.obj [("name", .str "Stadium")]) (.str "2025-09-01")) ∧
    transformSchedule (scheduleFullDoc "home" "away" "scheduled"
        (.obj [("id", .str uuidE)]) (.obj [("id", .str uuidF)])
        (.obj [("name", .str "Stadium")]) (.str "2025-09-01")) =
      some (some [{ game_id := 1, home_team_api_id := some uuidE,
                    away_team_api_id := some uuidF, scheduled := .str "2025-09-01",
                    venue_name := some "Stadium" }]) := by
  obtain ⟨h1, h2⟩ := schedule_field_name_tolerance
    (.obj [("id", .str uuidE)]) (.obj [("id", .str uuidF)])
    (.obj [("name", .str "Stadium")]) (.str "2025-09-01")
    "home_team" "away_team" "date" (Or.inr rfl) (Or.inr rfl) (Or.inr (Or.inl rfl)) (by decide)
  refine ⟨h1, ?_⟩
  have := h2 uuidE uuidF "Stadium" (by decide) (by decide) (by decide)
  simpa [show pyStrip "Stadium" = "Stadium" from rfl] using this


/-- The resolution invariant only reads the season, player and venue tables and maps. -/
theorem resolutionInv_of_eq (s s' : TState)
    (hse : s'.seasons = s.seasons) (hsm : s'.season_id_map = s.season_id_map)
    (hpl : s'.players = s.players) (hpm : s'.player_id_map = s.player_id_map)
    (hve : s'.venues = s.venues) (hvm : s'.venue_id_map = s.venue_id_map) :
    ResolutionInv s → ResolutionInv s' := by
  unfold ResolutionInv ResolutionUnique
  rw [hse, hsm, hpl, hpm, hve, hvm]
  exact id

/-- Venue extraction preserves the resolution invariant: registration is guarded by a freshness check and the appended record carries the registered identity. -/
theorem extractVenue_resInv (s : TState) (v : JValue) (h : ResolutionInv s) :
    ResolutionInv (extractVenue s v) := by
  unfold extractVenue
  by_cases ht : pyTruthy v
  case neg => simpa [ht] using h
  rw [if_neg (by simpa using ht)]
  cases hid : normalize_uuid (safe_get v ["id"] JValue.null) with
  | none => exact h
  | some vid =>
      dsimp only
      by_cases hin : (aget s.venue_id_map vid).isSome
      · rw [if_pos hin]
        exact h
      · rw [if_neg hin]
        have hvn : aget s.venue_id_map vid = none := Option.not_isSome_iff_eq_none.mp hin
        obtain ⟨⟨hsu, hpu, hvu⟩, hsn, hpn, hvnn⟩ := h
        refine ⟨⟨hsu, hpu, ?_⟩, hsn, hpn, ?_⟩
        · intro k id hk
          by_cases hkv : k = vid
          · subst hkv
            rw [aget_aset_self] at hk
            obtain rfl := Option.some.inj hk
            refine ⟨rfl, ?_⟩
            simp only [List.filter_append, hvnn _ hvn, List.nil_append]
            simp
          · rw [aget_aset_ne _ _ _ _ (fun hh => hkv hh.symm)] at hk
            obtain ⟨hik, hfil⟩ := hvu k id hk
            refine ⟨hik, ?_⟩
            simp only [List.filter_append, List.map_append]
            rw [hfil]
            have hkv' : ¬ vid = k := fun hh => hkv hh.symm
            simp [hkv']
        · intro k hk
          have hkv : ¬ k = vid := by
            intro hkv
            subst hkv
            rw [aget_aset_self] at hk
            exact Option.noConfusion hk
          rw [aget_aset_ne _ _ _ _ (fun hh => hkv hh.symm)] at hk
          simp only [List.filter_append, hvnn k hk, List.nil_append]
          have hkv' : ¬ vid = k := fun hh => hkv hh.symm
          simp [hkv']

/-- A season entry preserves the resolution invariant: the `(year, type code)` key is registered at most once, together with exactly one record. -/
theorem seasonStep_resInv (g : Nat → String) (s : TState) (season : JValue)
    (h : ResolutionInv s) : ResolutionInv (seasonStep g s season) := by
  unfold seasonStep
  cases hy : normalize_int (safe_get season ["year"] JValue.null) with
  | none => exact h
  | some y =>
      cases htc : normalize_string (safe_get season ["type", "code"] JValue.null) with
      | none => exact h
      | some tc =>
          dsimp only
          by_cases hze : y = 0 ∨ tc = ""
          · rw [if_pos hze]; exact h
          · rw [if_neg hze]
            by_cases hkin : (aget s.season_id_map (y, tc)).isSome
            · rw [if_pos hkin]; exact h
            · rw [if_neg hkin]
              have hkn : aget s.season_id_map (y, tc) = none :=
                Option.not_isSome_iff_eq_none.mp hkin
              obtain ⟨⟨hsu, hpu, hvu⟩, hsn, hpn, hvnn⟩ := h
              have core : ∀ (uuid : String) (sb : TState),
                  sb.seasons = s.seasons → sb.season_id_map = s.season_id_map →
                  sb.players = s.players → sb.player_id_map = s.player_id_map →
                  sb.venues = s.venues → sb.venue_id_map = s.venue_id_map →
                  ResolutionInv { sb with
                    seasons := sb.seasons ++ [{
                      season_id := uuid, year := y,
                      start_date := normalize_date (safe_get season ["start_date"] JValue.null),
                      end_date := normalize_date (safe_get season ["end_date"] JValue.null),
                      status := normalize_string (safe_get season ["status"] JValue.null),
                      type_code := tc }],
                    season_id_map := aset sb.season_id_map (y, tc) uuid } := by
                intro uuid sb he1 he2 he3 he4 he5 he6
                rw [he1, he2, he3, he4, he5, he6] at *
                refine ⟨⟨?_, hpu, hvu⟩, ?_, hpn, hvnn⟩
                · intro k id hk
                  by_cases hkv : k = (y, tc)
                  · subst hkv
                    rw [aget_aset_self] at hk
                    obtain rfl := Option.some.inj hk
                    simp only [List.filter_append, hsn _ hkn, List.nil_append]
                    simp
                  · rw [aget_aset_ne _ _ _ _ (fun hh => hkv hh.symm)] at hk
                    have hfil := hsu k id hk
                    simp only [List.filter_append, List.map_append]
                    rw [hfil]
                    have hkpair : ¬ (y = k.1 ∧ tc = k.2) := by
                      rintro ⟨h1, h2⟩
                      exact hkv (by cases k; simp_all)
                    simp [List.filter_cons, hkpair]
                · intro k hk
                  have hkv : ¬ k = (y, tc) := by
                    intro hkv
                    subst hkv
                    rw [aget_aset_self] at hk
                    exact Option.noConfusion hk
                  rw [aget_aset_ne _ _ _ _ (fun hh => hkv hh.symm)] at hk
                  simp only [List.filter_append, hsn k hk, List.nil_append]
                  have hkpair : ¬ (y = k.1 ∧ tc = k.2) := by
                    rintro ⟨h1, h2⟩
                    exact hkv (by cases k; simp_all)
                  simp [List.filter_cons]
                  intro h1 h2
                  exact absurd ⟨h1, h2⟩ hkpair
              cases hapi : normalize_uuid (safe_get season ["id"] JValue.null) with
              | some u => exact core u s rfl rfl rfl rfl rfl rfl
              | none => exact core (g s.ctr) { s with ctr := s.ctr + 1 } rfl rfl rfl rfl rfl rfl

/-- A player entry preserves the resolution invariant: the pass-through identity is registered at most once, together with exactly one record. -/
theorem playerStep_resInv (tdb : String) (s : TState) (p : JValue) (s' : TState)
    (h : ResolutionInv s) (hs : playerStep tdb s p = some s') : ResolutionInv s' := by
  unfold playerStep at hs
  cases hpid : normalize_uuid (safe_get p ["id"] JValue.null) with
  | none =>
      rw [hpid] at hs
      obtain rfl := Option.some.inj hs
      exact h
  | some pid =>
      rw [hpid] at hs
      dsimp only at hs
      rcases hnm : resolvePlayerName p with ⟨fn, ln⟩
      rw [hnm] at hs
      dsimp only at hs
      by_cases hin : (aget s.player_id_map pid).isSome
      · rw [if_pos hin] at hs
        obtain rfl := Option.some.inj hs
        exact h
      · rw [if_neg hin] at hs
        have hpn0 : aget s.player_id_map pid = none := Option.not_isSome_iff_eq_none.mp hin
        cases hh : convert_height_to_inches (safe_get p ["height"] JValue.null) with
        | none => rw [hh] at hs; exact absurd hs (by simp)
        | some height =>
            rw [hh] at hs
            simp only [Option.bind_eq_bind, Option.some_bind, Option.some.injEq] at hs
            subst hs
            obtain ⟨⟨hsu, hpu, hvu⟩, hsn, hpn, hvnn⟩ := h
            refine ⟨⟨hsu, ?_, hvu⟩, hsn, ?_, hvnn⟩
            · intro k id hk
              by_cases hkv : k = pid
              · subst hkv
                rw [aget_aset_self] at hk
                obtain rfl := Option.some.inj hk
                simp only [List.filter_append, hpn _ hpn0, List.nil_append]
                simp
              · rw [aget_aset_ne _ _ _ _ (fun hh2 => hkv hh2.symm)] at hk
                obtain ⟨hik, hfil⟩ := hpu k id hk
                refine ⟨hik, ?_⟩
                simp only [List.filter_append, List.map_append]
                rw [hfil]
                have hkv' : ¬ pid = k := fun hh2 => hkv hh2.symm
                simp [hkv']
            · intro k hk
              have hkv : ¬ k = pid := by
                intro hkv
                subst hkv
                rw [aget_aset_self] at hk
                exact Option.noConfusion hk
              rw [aget_aset_ne _ _ _ _ (fun hh2 => hkv hh2.symm)] at hk
              simp only [List.filter_append, hpn k hk, List.nil_append]
              have hkv' : ¬ pid = k := fun hh2 => hkv hh2.symm
              simp [hkv']

/-- A fold preserves any invariant its step preserves. -/
theorem foldl_inv {σ α : Type} (P : σ → Prop) (f : σ → α → σ)
    (hstep : ∀ s a, P s → P (f s a)) :
    ∀ (l : List α) (s : σ), P s → P (l.foldl f s) := by
  intro l
  induction l with
  | nil => intro s h; exact h
  | cons a l ih => intro s h; exact ih _ (hstep s a h)

/-- A monadic fold over `Option` preserves any invariant its step preserves. -/
theorem foldlM_inv {σ α : Type} (P : σ → Prop) (f : σ → α → Option σ)
    (hstep : ∀ s a s', P s → f s a = some s' → P s') :
    ∀ (l : List α) (s s' : σ), P s → l.foldlM f s = some s' → P s' := by
  intro l
  induction l with
  | nil =>
      intro s s' h hf
      simp only [List.foldlM_nil] at hf
      obtain rfl := Option.some.inj hf
      exact h
  | cons a l ih =>
      intro s s' h hf
      simp only [List.foldlM_cons, Option.bind_eq_bind, Option.bind_eq_some] at hf
      obtain ⟨s1, h1, h2⟩ := hf
      exact ih s1 s' (hstep s a s1 h h1) h2

/-- A conditionally-run stage preserves any invariant the stage preserves. -/
theorem ite_stage_inv {P : TState → Prop} (cond : Prop) [Decidable cond]
    (f : Option TState) (sprev snext : TState)
    (hf : P sprev → f = some snext → P snext)
    (h : (if cond then f else some sprev) = some snext) (hp : P sprev) : P snext := by
  by_cases hc : cond
  · rw [if_pos hc] at h
    exact hf hp h
  · rw [if_neg hc] at h
    obtain rfl := Option.some.inj h
    exact hp

/-- Steps that do not change the resolution-relevant state components preserve the resolution invariant. -/
theorem resolutionInv_of_resState_eq (s s' : TState)
    (h : resState s' = resState s) : ResolutionInv s → ResolutionInv s' := by
  unfold resState at h
  injection h with h1 h
  injection h with h2 h
  injection h with h3 h
  injection h with h4 h
  injection h with h5 h6
  exact resolutionInv_of_eq s s' h1 h2 h3 h4 h5 h6

/-- The team loop body does not touch the resolution-relevant components. -/
theorem teamStep_resState (s : TState) (t : JValue) :
    resState (teamStep s t) = resState s := by
  unfold teamStep
  split <;> rfl

/-- The coach loop body does not touch the resolution-relevant components. -/
theorem coachStep_resState (g : Nat → String) (tdb : String) (s : TState) (c : JValue) :
    resState (coachStep g tdb s c) = resState s := by
  unfold coachStep
  split
  · split
    · rfl
    · cases normalize_uuid (safe_get c ["id"] JValue.null) <;> rfl
  · rfl

/-- The rankings loop body does not touch the resolution-relevant components. -/
theorem rankStep_resState (pid : String) (pname : Option String) (sdb : Option String)
    (wk : Option Int) (eff : Option String) (acc : TState × Int) (item : JValue) :
    resState (rankStep pid pname sdb wk eff acc item).1 = resState acc.1 := by
  unfold rankStep
  split
  · rfl
  · split
    · split <;> rfl
    · rfl

/-- The statistics loop body does not touch the resolution-relevant components. -/
theorem statPlayerStep_resState (tdb sdb : String) (acc : TState × Int) (ps : JValue) :
    resState (statPlayerStep tdb sdb acc ps).1 = resState acc.1 := by
  unfold statPlayerStep
  split
  · rfl
  · split
    · split <;> rfl
    · rfl

/-- The roster conference/division extraction does not touch the resolution-relevant components. -/
theorem rosterConfDivStep_resState (s : TState) (r : JValue) :
    resState (rosterConfDivStep s r) = resState s := by
  unfold rosterConfDivStep
  dsimp only
  repeat' split
  all_goals rfl

/-- The per-team venue extraction preserves the resolution invariant. -/
theorem teamVenueStep_resInv (s : TState) (t : JValue) (h : ResolutionInv s) :
    ResolutionInv (teamVenueStep s t) := by
  unfold teamVenueStep
  dsimp only
  split
  · exact extractVenue_resInv _ _ h
  · exact h

/-- The hierarchy conference loop body preserves the resolution invariant. -/
theorem hierConfStep_resInv (g : Nat → String) (dn : String) (da : Option String)
    (du : String) (s : TState) (conf : JValue) (s' : TState)
    (h : ResolutionInv s) (hs : hierConfStep g dn da du s conf = some s') :
    ResolutionInv s' := by
  unfold hierConfStep at hs
  cases hcn : normalize_string (safe_get conf ["name"] JValue.null) with
  | none =>
      rw [hcn] at hs
      obtain rfl := Option.some.inj hs
      exact h
  | some cn =>
      rw [hcn] at hs
      dsimp only at hs
      by_cases hce : cn = ""
      · rw [if_pos hce] at hs
        obtain rfl := Option.some.inj hs
        exact h
      · rw [if_neg hce] at hs
        cases hcap : normalize_uuid (safe_get conf ["id"] JValue.null) with
        | some u =>
            rw [hcap] at hs
            dsimp only at hs
            cases hit : pyIterList (safe_get conf ["teams"] (JValue.arr [])) with
            | none => rw [hit] at hs; exact absurd hs (by simp)
            | some ts =>
                rw [hit] at hs
                simp only [Option.bind_eq_bind, Option.some_bind, Option.some.injEq] at hs
                subst hs
                refine foldl_inv ResolutionInv teamVenueStep
                  (fun s a hP => teamVenueStep_resInv s a hP) ts _ ?_
                refine resolutionInv_of_resState_eq _ _ ?_ h
                repeat' split
                all_goals rfl
        | none =>
            rw [hcap] at hs
            dsimp only [freshUuid] at hs
            cases hit : pyIterList (safe_get conf ["teams"] (JValue.arr [])) with
            | none => rw [hit] at hs; exact absurd hs (by simp)
            | some ts =>
                rw [hit] at hs
                simp only [Option.bind_eq_bind, Option.some_bind, Option.some.injEq] at hs
                subst hs
                refine foldl_inv ResolutionInv teamVenueStep
                  (fun s a hP => teamVenueStep_resInv s a hP) ts _ ?_
                refine resolutionInv_of_resState_eq _ _ ?_ h
                repeat' split
                all_goals rfl

/-- The hierarchy division loop body preserves the resolution invariant. -/
theorem hierDivStep_resInv (g : Nat → String) (s : TState) (d : JValue) (s' : TState)
    (h : ResolutionInv s) (hs : hierDivStep g s d = some s') : ResolutionInv s' := by
  unfold hierDivStep at hs
  cases hdn : normalize_string (safe_get d ["name"] JValue.null) with
  | none =>
      rw [hdn] at hs
      obtain rfl := Option.some.inj hs
      exact h
  | some dn =>
      rw [hdn] at hs
      dsimp only at hs
      by_cases hde : dn = ""
      · rw [if_pos hde] at hs
        obtain rfl := Option.some.inj hs
        exact h
      · rw [if_neg hde] at hs
        cases hdap : normalize_uuid (safe_get d ["id"] JValue.null) with
        | some u =>
            rw [hdap] at hs
            dsimp only at hs
            cases hit : pyIterList (safe_get d ["conferences"] (JValue.arr [])) with
            | none => rw [hit] at hs; exact absurd hs (by simp)
            | some cs =>
                rw [hit] at hs
                simp only [Option.bind_eq_bind, Option.some_bind] at hs
                have hstep : ∀ (sx : TState) (a : JValue) (sy : TState), ResolutionInv sx →
                    hierConfStep g dn (normalize_string (safe_get d ["alias"] JValue.null)) u sx a =
                      some sy → ResolutionInv sy :=
                  fun sx a sy hP hf => hierConfStep_resInv _ _ _ _ _ _ _ hP hf
                exact foldlM_inv ResolutionInv _ hstep cs _ _ h hs
        | none =>
            rw [hdap] at hs
            dsimp only [freshUuid] at hs
            cases hit : pyIterList (safe_get d ["conferences"] (JValue.arr [])) with
            | none => rw [hit] at hs; exact absurd hs (by simp)
            | some cs =>
                rw [hit] at hs
                simp only [Option.bind_eq_bind, Option.some_bind] at hs
                have hstep : ∀ (sx : TState) (a : JValue) (sy : TState), ResolutionInv sx →
                    hierConfStep g dn (normalize_string (safe_get d ["alias"] JValue.null)) (g s.ctr) sx a =
                      some sy → ResolutionInv sy :=
                  fun sx a sy hP hf => hierConfStep_resInv _ _ _ _ _ _ _ hP hf
                exact foldlM_inv ResolutionInv _ hstep cs { s with ctr := s.ctr + 1 } s'
                  (resolutionInv_of_resState_eq _ _ rfl h) hs

/-- `transform_hierarchy` preserves the resolution invariant. -/
theorem transformHierarchy_resInv (g : Nat → String) (s : TState) (hd : JValue)
    (s' : TState) (h : ResolutionInv s) (hs : transformHierarchy g s hd = some s') :
    ResolutionInv s' := by
  unfold transformHierarchy at hs
  by_cases h1 : pyTruthy hd
  case neg =>
    rw [if_pos (by simpa using h1)] at hs
    obtain rfl := Option.some.inj hs
    exact h
  rw [if_neg (by simpa using h1)] at hs
  by_cases h2 : pyTruthy (safe_get hd ["divisions"] (JValue.arr []))
  case neg =>
    rw [if_pos (by simpa using h2)] at hs
    obtain rfl := Option.some.inj hs
    exact h
  rw [if_neg (by simpa using h2)] at hs
  cases hit : pyIterList (safe_get hd ["divisions"] (JValue.arr [])) with
  | none => rw [hit] at hs; exact absurd hs (by simp)
  | some ds =>
      rw [hit] at hs
      simp only [Option.bind_eq_bind, Option.some_bind] at hs
      exact foldlM_inv ResolutionInv _
        (fun sx a sy hP hf => hierDivStep_resInv g sx a sy hP hf) ds _ _ h hs

/-- `transform_venues` preserves the resolution invariant. -/
theorem transformVenues_resInv (s : TState) (td : JValue) (s' : TState)
    (h : ResolutionInv s) (hs : transformVenues s td = some s') : ResolutionInv s' := by
  unfold transformVenues at hs
  by_cases h1 : pyTruthy td
  case neg =>
    rw [if_pos (by simpa using h1)] at hs
    obtain rfl := Option.some.inj hs
    exact h
  rw [if_neg (by simpa using h1)] at hs
  cases hit : pyIterList (safe_get td ["teams"] (JValue.arr [])) with
  | none => rw [hit] at hs; exact absurd hs (by simp)
  | some ts =>
      rw [hit] at hs
      simp only [Option.bind_eq_bind, Option.some_bind, Option.some.injEq] at hs
      subst hs
      exact foldl_inv ResolutionInv teamVenueStep
        (fun sx a hP => teamVenueStep_resInv sx a hP) ts _ h

/-- `transform_teams` preserves the resolution invariant. -/
theorem transformTeams_resInv (s : TState) (td : JValue) (s' : TState)
    (h : ResolutionInv s) (hs : transformTeams s td = some s') : ResolutionInv s' := by
  unfold transformTeams at hs
  by_cases h1 : pyTruthy td
  case neg =>
    rw [if_pos (by simpa using h1)] at hs
    obtain rfl := Option.some.inj hs
    exact h
  rw [if_neg (by simpa using h1)] at hs
  cases hit : pyIterList (safe_get td ["teams"] (JValue.arr [])) with
  | none => rw [hit] at hs; exact absurd hs (by simp)
  | some ts =>
      rw [hit] at hs
      simp only [Option.bind_eq_bind, Option.some_bind, Option.some.injEq] at hs
      subst hs
      exact foldl_inv ResolutionInv teamStep
        (fun sx a hP => resolutionInv_of_resState_eq _ _ (teamStep_resState sx a) hP) ts _ h

/-- `transform_seasons` preserves the resolution invariant. -/
theorem transformSeasons_resInv (g : Nat → String) (s : TState) (sd : JValue) (s' : TState)
    (h : ResolutionInv s) (hs : transformSeasons g s sd = some s') : ResolutionInv s' := by
  unfold transformSeasons at hs
  by_cases h1 : pyTruthy sd
  case neg =>
    rw [if_pos (by simpa using h1)] at hs
    obtain rfl := Option.some.inj hs
    exact h
  rw [if_neg (by simpa using h1)] at hs
  cases hit : pyIterList (safe_get sd ["seasons"] (JValue.arr [])) with
  | none => rw [hit] at hs; exact absurd hs (by simp)
  | some ss =>
      rw [hit] at hs
      simp only [Option.bind_eq_bind, Option.some_bind, Option.some.injEq] at hs
      subst hs
      exact foldl_inv ResolutionInv (seasonStep g)
        (fun sx a hP => seasonStep_resInv g sx a hP) ss _ h

/-- The roster metadata extraction preserves the resolution invariant. -/
theorem rosterMetaStep_resInv (s : TState) (r : JValue) (h : ResolutionInv s) :
    ResolutionInv (rosterMetaStep s r) := by
  unfold rosterMetaStep
  dsimp only
  refine resolutionInv_of_resState_eq _ _ (rosterConfDivStep_resState _ _) ?_
  split
  · exact extractVenue_resInv _ _ h
  · exact h

/-- The per-roster player loop preserves the resolution invariant. -/
theorem rosterPlayersStep_resInv (s : TState) (kv : String × JValue) (s' : TState)
    (h : ResolutionInv s) (hs : rosterPlayersStep s kv = some s') : ResolutionInv s' := by
  unfold rosterPlayersStep at hs
  dsimp only at hs
  have h1 : ResolutionInv (rosterMetaStep s kv.2) := rosterMetaStep_resInv s kv.2 h
  cases htm : aget (rosterMetaStep s kv.2).team_id_map kv.1 with
  | none =>
      rw [htm] at hs
      obtain rfl := Option.some.inj hs
      exact h1
  | some tdb =>
      rw [htm] at hs
      dsimp only at hs
      by_cases hte : tdb = ""
      · rw [if_pos hte] at hs
        obtain rfl := Option.some.inj hs
        exact h1
      · rw [if_neg hte] at hs
        cases hit : pyIterList (safe_get kv.2 ["players"] (JValue.arr [])) with
        | none => rw [hit] at hs; exact absurd hs (by simp)
        | some ps =>
            rw [hit] at hs
            simp only [Option.bind_eq_bind, Option.some_bind] at hs
            exact foldlM_inv ResolutionInv _
              (fun sx a sy hP hf => playerStep_resInv tdb sx a sy hP hf) ps _ _ h1 hs

/-- `transform_players` preserves the resolution invariant. -/
theorem transformPlayers_resInv (s : TState) (rd : JValue) (s' : TState)
    (h : ResolutionInv s) (hs : transformPlayers s rd = some s') : ResolutionInv s' := by
  unfold transformPlayers at hs
  by_cases h1 : pyTruthy rd
  case neg =>
    rw [if_pos (by simpa using h1)] at hs
    obtain rfl := Option.some.inj hs
    exact h
  rw [if_neg (by simpa using h1)] at hs
  cases hit : pyItems rd with
  | none => rw [hit] at hs; exact absurd hs (by simp)
  | some items =>
      rw [hit] at hs
      simp only [Option.bind_eq_bind, Option.some_bind] at hs
      exact foldlM_inv ResolutionInv _
        (fun sx a sy hP hf => rosterPlayersStep_resInv sx a sy hP hf) items _ _ h hs

/-- The per-roster coach loop preserves the resolution invariant. -/
theorem rosterCoachesStep_resInv (g : Nat → String) (s : TState) (kv : String × JValue)
    (s' : TState) (h : ResolutionInv s) (hs : rosterCoachesStep g s kv = some s') :
    ResolutionInv s' := by
  unfold rosterCoachesStep at hs
  cases htm : aget s.team_id_map kv.1 with
  | none =>
      rw [htm] at hs
      obtain rfl := Option.some.inj hs
      exact h
  | some tdb =>
      rw [htm] at hs
      dsimp only at hs
      by_cases hte : tdb = ""
      · rw [if_pos hte] at hs
        obtain rfl := Option.some.inj hs
        exact h
      · rw [if_neg hte] at hs
        cases hit : pyIterList (safe_get kv.2 ["coaches"] (JValue.arr [])) with
        | none => rw [hit] at hs; exact absurd hs (by simp)
        | some cs =>
            rw [hit] at hs
            simp only [Option.bind_eq_bind, Option.some_bind, Option.some.injEq] at hs
            subst hs
            exact foldl_inv ResolutionInv (coachStep g tdb)
              (fun sx a hP => resolutionInv_of_resState_eq _ _ (coachStep_resState g tdb sx a) hP)
              cs _ h

/-- `transform_coaches` preserves the resolution invariant. -/
theorem transformCoaches_resInv (g : Nat → String) (s : TState) (rd : JValue) (s' : TState)
    (h : ResolutionInv s) (hs : transformCoaches g s rd = some s') : ResolutionInv s' := by
  unfold transformCoaches at hs
  by_cases h1 : pyTruthy rd
  case neg =>
    rw [if_pos (by simpa using h1)] at hs
    obtain rfl := Option.some.inj hs
    exact h
  rw [if_neg (by simpa using h1)] at hs
  cases hit : pyItems rd with
  | none => rw [hit] at hs; exact absurd hs (by simp)
  | some items =>
      rw [hit] at hs
      simp only [Option.bind_eq_bind, Option.some_bind] at hs
      exact foldlM_inv ResolutionInv _
        (fun sx a sy hP hf => rosterCoachesStep_resInv g sx a sy hP hf) items _ _ h hs

/-- The per-team statistics loop preserves the resolution invariant. -/
theorem statTeamStep_resInv (sdb : String) (acc : TState × Int) (kv : String × JValue)
    (acc' : TState × Int) (h : ResolutionInv acc.1)
    (hs : statTeamStep sdb acc kv = some acc') : ResolutionInv acc'.1 := by
  unfold statTeamStep at hs
  cases htm : aget acc.1.team_id_map kv.1 with
  | none =>
      rw [htm] at hs
      obtain rfl := Option.some.inj hs
      exact h
  | some tdb =>
      rw [htm] at hs
      dsimp only at hs
      by_cases hte : tdb = ""
      · rw [if_pos hte] at hs
        obtain rfl := Option.some.inj hs
        exact h
      · rw [if_neg hte] at hs
        cases hit : pyIterList (safe_get kv.2 ["players"] (JValue.arr [])) with
        | none => rw [hit] at hs; exact absurd hs (by simp)
        | some ps =>
            rw [hit] at hs
            simp only [Option.bind_eq_bind, Option.some_bind, Option.some.injEq] at hs
            subst hs
            exact foldl_inv (fun a => ResolutionInv a.1) (statPlayerStep tdb sdb)
              (fun ax a hP =>
                resolutionInv_of_resState_eq _ _ (statPlayerStep_resState tdb sdb ax a) hP)
              ps _ h

/-- `transform_player_statistics` preserves the resolution invariant. -/
theorem transformPlayerStatistics_resInv (s : TState) (sd : JValue) (y : Int) (st : String)
    (s' : TState) (h : ResolutionInv s) (hs : transformPlayerStatistics s sd y st = some s') :
    ResolutionInv s' := by
  unfold transformPlayerStatistics at hs
  by_cases h1 : pyTruthy sd
  case neg =>
    rw [if_pos (by simpa using h1)] at hs
    obtain rfl := Option.some.inj hs
    exact h
  rw [if_neg (by simpa using h1)] at hs
  cases hsk : aget s.season_id_map (y, st) with
  | none =>
      rw [hsk] at hs
      obtain rfl := Option.some.inj hs
      exact h
  | some sdb =>
      rw [hsk] at hs
      dsimp only at hs
      by_cases hse : sdb = ""
      · rw [if_pos hse] at hs
        obtain rfl := Option.some.inj hs
        exact h
      · rw [if_neg hse] at hs
        cases hit : pyItems sd with
        | none => rw [hit] at hs; exact absurd hs (by simp)
        | some items =>
            rw [hit] at hs
            simp only [Option.bind_eq_bind, Option.some_bind, Option.bind_eq_some,
              Option.some.injEq] at hs
            obtain ⟨acc, hacc, rfl⟩ := hs
            exact foldlM_inv (fun a => ResolutionInv a.1) _
              (fun ax a ay hP hf => statTeamStep_resInv sdb ax a ay hP hf) items _ _ h hacc

/-- `transform_rankings` preserves the resolution invariant. -/
theorem transformRankings_resInv (g : Nat → String) (s : TState) (rd : JValue) (y : Int)
    (wk : Option Int) (s' : TState) (h : ResolutionInv s)
    (hs : transformRankings g s rd y wk = some s') : ResolutionInv s' := by
  unfold transformRankings at hs
  by_cases h1 : pyTruthy rd
  case neg =>
    rw [if_pos (by simpa using h1)] at hs
    obtain rfl := Option.some.inj hs
    exact h
  rw [if_neg (by simpa using h1)] at hs
  simp only [] at hs
  by_cases hp : optSTruthy (normalize_uuid (safe_get rd ["poll", "id"] JValue.null))
  · rw [if_pos hp] at hs
    dsimp only at hs
    cases hit : pyIterList (safe_get rd ["rankings"] (JValue.arr [])) with
    | none => rw [hit] at hs; exact absurd hs (by simp)
    | some items =>
        rw [hit] at hs
        simp only [Option.bind_eq_bind, Option.some_bind, Option.some.injEq] at hs
        subst hs
        exact foldl_inv (fun a => ResolutionInv a.1) _
          (fun ax a hP => resolutionInv_of_resState_eq _ _ (rankStep_resState _ _ _ _ _ ax a) hP)
          items (s, (s.rankings.length : Int) + 1) h
  · rw [if_neg hp] at hs
    dsimp only [freshUuid] at hs
    cases hit : pyIterList (safe_get rd ["rankings"] (JValue.arr [])) with
    | none => rw [hit] at hs; exact absurd hs (by simp)
    | some items =>
        rw [hit] at hs
        simp only [Option.bind_eq_bind, Option.some_bind, Option.some.injEq] at hs
        subst hs
        refine foldl_inv (fun a => ResolutionInv a.1) _
          (fun ax a hP => resolutionInv_of_resState_eq _ _ (rankStep_resState _ _ _ _ _ ax a) hP)
          items ({ s with ctr := s.ctr + 1 },
            ((TState.rankings { s with ctr := s.ctr + 1 }).length : Int) + 1) ?_
        exact resolutionInv_of_resState_eq _ _ rfl h

/-- A fresh transformer satisfies the resolution invariant. -/
theorem resolutionInv_init : ResolutionInv initState := by
  refine ⟨⟨?_, ?_, ?_⟩, ?_, ?_, ?_⟩ <;> intro k <;> simp [initState, aget]

/-- A guarded stage preserves any invariant the stage preserves. -/
theorem stageIf_inv {P : TState → Prop} (cond : Bool) (f : TState → Option TState)
    (sprev snext : TState) (hf : P sprev → f sprev = some snext → P snext)
    (h : stageIf cond f sprev = some snext) (hp : P sprev) : P snext :=
  ite_stage_inv (cond = true) (f sprev) sprev snext hf h hp

/-- Any state invariant preserved by every stage and satisfied by the fresh transformer holds of the output of a successful pipeline run. -/
theorem transformAllData_inv (P : TState → Prop) (g : Nat → String)
    (allData : List (String × JValue)) (y : Int) (st : String)
    (hH : ∀ s s', P s → transformHierarchy g s (dGet allData "hierarchy") = some s' → P s')
    (hV : ∀ s s', P s → transformVenues s (dGet allData "teams") = some s' → P s')
    (hT : ∀ s s', P s → transformTeams s (dGet allData "teams") = some s' → P s')
    (hS : ∀ s s', P s → transformSeasons g s (dGet allData "seasons") = some s' → P s')
    (hPl : ∀ s s', P s → transformPlayers s (dGet allData "rosters") = some s' → P s')
    (hC : ∀ s s', P s → transformCoaches g s (dGet allData "rosters") = some s' → P s')
    (hSt : ∀ s s', P s →
        transformPlayerStatistics s (dGet allData "season_stats") y st = some s' → P s')
    (hR1 : ∀ s s', P s →
        transformRankings g s (dGet allData "rankings_current") y none = some s' → P s')
    (hR2 : ∀ s s', P s →
        transformRankings g s (dGet allData "rankings_week1") y (some 1) = some s' → P s')
    (hInit : P initState) (out : TState)
    (hrun : transformAllData g allData y st = some out) : P out := by
  unfold transformAllData at hrun
  simp only [Option.bind_eq_bind, Option.bind_eq_some] at hrun
  obtain ⟨s1, h1, s2, h2, s3, h3, s4, h4, s5, h5, s6, h6, s7, h7, u, hu, hout⟩ := hrun
  obtain rfl := Option.some.inj hout
  have p1 : P s1 := stageIf_inv _ _ _ _ (fun hp hf => hH _ _ hp hf) h1 hInit
  have p2 : P s2 := by
    refine stageIf_inv _ _ _ _ (fun hp hf => ?_) h2 p1
    simp only [Option.bind_eq_bind, Option.bind_eq_some] at hf
    obtain ⟨sa, hva, htt⟩ := hf
    exact hT _ _ (hV _ _ hp hva) htt
  have p3 : P s3 := stageIf_inv _ _ _ _ (fun hp hf => hS _ _ hp hf) h3 p2
  have p4 : P s4 := by
    refine stageIf_inv _ _ _ _ (fun hp hf => ?_) h4 p3
    simp only [Option.bind_eq_bind, Option.bind_eq_some] at hf
    obtain ⟨sa, hpl, hco⟩ := hf
    exact hC _ _ (hPl _ _ hp hpl) hco
  have p5 : P s5 := stageIf_inv _ _ _ _ (fun hp hf => hSt _ _ hp hf) h5 p4
  have p6 : P s6 := stageIf_inv _ _ _ _ (fun hp hf => hR1 _ _ hp hf) h6 p5
  have p7 : P s7 := stageIf_inv _ _ _ _ (fun hp hf => hR2 _ _ hp hf) h7 p6
  exact p7

/-- C3, amended: for the resolvers whose registration is guarded by a freshness check — seasons by `(year, type code)`, players and venues by pass-through external id — any successful pipeline run ends with each registered key mapped to the identity of exactly one record in the corresponding table, so resolving a key again returns the first-registered identity and creates no duplicate.  (The team resolver appends a record per occurrence without a freshness check, refuting the claim as stated; see the counterexample.  The conference resolver de-duplicates records by canonical identity but keys its map by name with last write winning; see `conference_identity_dedup`.) -/
theorem guarded_resolution_unique (g : Nat → String) (allData : List (String × JValue))
    (y : Int) (st : String) (out : TState)
    (hrun : transformAllData g allData y st = some out) : ResolutionUnique out := by
  have h : ResolutionInv out := by
    refine transformAllData_inv ResolutionInv g allData y st ?_ ?_ ?_ ?_ ?_ ?_ ?_ ?_ ?_
      resolutionInv_init out hrun
    · exact fun s s' hp hf => transformHierarchy_resInv g s _ s' hp hf
    · exact fun s s' hp hf => transformVenues_resInv s _ s' hp hf
    · exact fun s s' hp hf => transformTeams_resInv s _ s' hp hf
    · exact fun s s' hp hf => transformSeasons_resInv g s _ s' hp hf
    · exact fun s s' hp hf => transformPlayers_resInv s _ s' hp hf
    · exact fun s s' hp hf => transformCoaches_resInv g s _ s' hp hf
    · exact fun s s' hp hf => transformPlayerStatistics_resInv s _ y st s' hp hf
    · exact fun s s' hp hf => transformRankings_resInv g s _ y none s' hp hf
    · exact fun s s' hp hf => transformRankings_resInv g s _ y (some 1) s' hp hf
  exact h.1

/-- C3, counterexample to the claim as stated: `transform_teams` registers the team resolution key without a freshness guard and appends a record per occurrence, so a snapshot listing the same team twice ends the run with the key resolved once but two records for it in the team table — not "exactly one record per resolved key" for every entity type. -/
theorem team_double_resolution_duplicates_record :
    (transformAllData gZero dupTeamInput 2025 "REG").map
      (fun s => (aget s.team_id_map uuidE,
        (s.teams.filter (fun t => t.team_id == uuidE)).length)) =
    some (some uuidE, 2) := by decide

/-- The conference resolver of `transform_hierarchy` de-duplicates
records by canonical identity while its name map is last-write-wins: a
conference re-encountered with the same id appends nothing, and a third
occurrence carrying the same name but a different id appends its own
record and overwrites the name map entry. -/
theorem conference_identity_dedup :
    (transformAllData gZero confDedupInput 2025 "REG").map
      (fun s => (confIds s, aget s.conference_id_map "ACC")) =
    some ([uuidB, uuidD], some uuidD) := by decide

/-- Witness for the amended C3 on a concrete snapshot. -/
theorem guarded_resolution_unique_witness :
    ∃ out, transformAllData gZero richInput 2025 "REG" = some out ∧ ResolutionUnique out :=
  ⟨_, rfl, guarded_resolution_unique gZero richInput 2025 "REG" _ rfl⟩


/-- A fold with two pointwise-equal step functions gives equal results. -/
theorem foldl_congr {α β : Type} (f1 f2 : β → α → β) (l : List α)
    (h : ∀ x ∈ l, ∀ b, f1 b x = f2 b x) :
    ∀ b, l.foldl f1 b = l.foldl f2 b := by
  induction l with
  | nil => intro b; rfl
  | cons x xs ih =>
      intro b
      rw [List.foldl_cons, List.foldl_cons, h x (by simp)]
      exact ih (fun y hy b => h y (by simp [hy]) b) _

/-- A monadic fold over `Option` with two pointwise-equal step functions gives equal results. -/
theorem foldlM_congr {α β : Type} (f1 f2 : β → α → Option β) (l : List α)
    (h : ∀ x ∈ l, ∀ b, f1 b x = f2 b x) :
    ∀ b, l.foldlM f1 b = l.foldlM f2 b := by
  induction l with
  | nil => intro b; rfl
  | cons x xs ih =>
      intro b
      rw [List.foldlM_cons, List.foldlM_cons, h x (by simp)]
      cases hx : f2 b x with
      | none => rfl
      | some b2 =>
          simp only [Option.bind_eq_bind, Option.some_bind]
          exact ih (fun y hy b => h y (by simp [hy]) b) b2

/-- When a hierarchy conference entry carries a valid external id, its loop body never consults the identifier supply. -/
theorem hierConfStep_g_congr (g1 g2 : Nat → String) (dn : String)
    (da : Option String) (du : String) (conf : JValue)
    (h : confIdPresent conf = true) :
    ∀ s, hierConfStep g1 dn da du s conf = hierConfStep g2 dn da du s conf := by
  intro s
  unfold hierConfStep
  cases hcn : normalize_string (safe_get conf ["name"] .null) with
  | none => rfl
  | some cn =>
      dsimp only
      by_cases hcn0 : cn = ""
      · rw [if_pos hcn0, if_pos hcn0]
      · rw [if_neg hcn0, if_neg hcn0]
        have hapi : (normalize_uuid (safe_get conf ["id"] .null)).isSome := by
          unfold confIdPresent at h
          rw [hcn] at h
          simpa [optSTruthy, hcn0] using h
        cases hu : normalize_uuid (safe_get conf ["id"] .null) with
        | none => rw [hu] at hapi; simp at hapi
        | some u => rfl

/-- When a hierarchy division entry and all its conferences carry valid external ids, the division loop body never consults the identifier supply. -/
theorem hierDivStep_g_congr (g1 g2 : Nat → String) (div : JValue)
    (h1 : divIdPresent div = true)
    (h2 : ∀ confs, pyIterList (safe_get div ["conferences"] (.arr [])) = some confs →
          confs.all confIdPresent = true) :
    ∀ s, hierDivStep g1 s div = hierDivStep g2 s div := by
  intro s
  unfold hierDivStep
  cases hdn : normalize_string (safe_get div ["name"] .null) with
  | none => rfl
  | some dn =>
      dsimp only
      by_cases hdn0 : dn = ""
      · rw [if_pos hdn0, if_pos hdn0]
      · rw [if_neg hdn0, if_neg hdn0]
        have hapi : (normalize_uuid (safe_get div ["id"] .null)).isSome := by
          unfold divIdPresent at h1
          rw [hdn] at h1
          simpa [optSTruthy, hdn0] using h1
        cases hu : normalize_uuid (safe_get div ["id"] .null) with
        | none => rw [hu] at hapi; simp at hapi
        | some u =>
            dsimp only
            cases hcf : pyIterList (safe_get div ["conferences"] (.arr [])) with
            | none => rfl
            | some confs =>
                simp only [Option.bind_eq_bind, Option.some_bind]
                have hall := h2 confs hcf
                rw [List.all_eq_true] at hall
                exact foldlM_congr _ _ confs
                  (fun c hc b => hierConfStep_g_congr g1 g2 dn
                    (normalize_string (safe_get div ["alias"] .null)) u c (hall c hc) b) s

/-- When every entry of a hierarchy document carries a valid external id, `transform_hierarchy` never consults the identifier supply. -/
theorem transformHierarchy_g_congr (g1 g2 : Nat → String) (hd : JValue)
    (h : hierIdsPresent hd = true) :
    ∀ s, transformHierarchy g1 s hd = transformHierarchy g2 s hd := by
  intro s
  unfold transformHierarchy
  dsimp only
  by_cases ht : pyTruthy hd
  · rw [if_neg (by simpa using ht)]
    by_cases hdl : pyTruthy (safe_get hd ["divisions"] (.arr []))
    · rw [if_neg (by simpa using hdl), if_neg (by simpa using ht), if_neg (by simpa using hdl)]
      cases hds : pyIterList (safe_get hd ["divisions"] (.arr [])) with
      | none => rfl
      | some divs =>
          simp only [Option.bind_eq_bind, Option.some_bind]
          unfold hierIdsPresent at h
          rw [hds] at h
          rw [List.all_eq_true] at h
          refine foldlM_congr _ _ divs (fun d hd b => ?_) s
          have hdd := h d hd
          rw [Bool.and_eq_true] at hdd
          refine hierDivStep_g_congr g1 g2 d hdd.1 (fun confs hc => ?_) b
          have := hdd.2
          rw [hc] at this
          exact this
    · rw [if_pos (by simpa using hdl), if_neg (by simpa using ht), if_pos (by simpa using hdl)]
  · rw [if_pos (by simpa using ht), if_pos (by simpa using ht)]

/-- When a season entry carries a valid external id, its loop body never consults the identifier supply. -/
theorem seasonStep_g_congr (g1 g2 : Nat → String) (season : JValue)
    (h : seasonIdPresent season = true) :
    ∀ s, seasonStep g1 s season = seasonStep g2 s season := by
  intro s
  unfold seasonStep
  cases hy : normalize_int (safe_get season ["year"] .null) with
  | none => rfl
  | some y =>
      cases htc : normalize_string (safe_get season ["type", "code"] .null) with
      | none => rfl
      | some tc =>
          dsimp only
          by_cases h0 : y = 0 ∨ tc = ""
          · rw [if_pos h0, if_pos h0]
          · rw [if_neg h0, if_neg h0]
            by_cases hm : (aget s.season_id_map (y, tc)).isSome
            · rw [if_pos hm, if_pos hm]
            · rw [if_neg hm, if_neg hm]
              push_neg at h0
              have hapi : (normalize_uuid (safe_get season ["id"] .null)).isSome := by
                unfold seasonIdPresent at h
                rw [hy, htc] at h
                simpa [h0.1, h0.2] using h
              cases hu : normalize_uuid (safe_get season ["id"] .null) with
              | none => rw [hu] at hapi; simp at hapi
              | some u => rfl

/-- When every season entry carries a valid external id, `transform_seasons` never consults the identifier supply. -/
theorem transformSeasons_g_congr (g1 g2 : Nat → String) (sd : JValue)
    (h : seasonsIdsPresent sd = true) :
    ∀ s, transformSeasons g1 s sd = transformSeasons g2 s sd := by
  intro s
  unfold transformSeasons
  by_cases ht : pyTruthy sd
  · rw [if_neg (by simpa using ht), if_neg (by simpa using ht)]
    cases hss : pyIterList (safe_get sd ["seasons"] (.arr [])) with
    | none => rfl
    | some ss =>
        simp only [Option.bind_eq_bind, Option.some_bind]
        unfold seasonsIdsPresent at h
        rw [hss] at h
        rw [List.all_eq_true] at h
        exact congrArg some
          (foldl_congr _ _ ss (fun x hx b => seasonStep_g_congr g1 g2 x (h x hx) b) s)
  · rw [if_pos (by simpa using ht), if_pos (by simpa using ht)]

/-- When a coach entry carries a valid external id, its loop body never consults the identifier supply. -/
theorem coachStep_g_congr (g1 g2 : Nat → String) (coach : JValue)
    (h : coachIdPresent coach = true) :
    ∀ t s, coachStep g1 t s coach = coachStep g2 t s coach := by
  intro t s
  unfold coachStep
  cases hfn : coachFullName coach with
  | none => rfl
  | some fn =>
      dsimp only
      by_cases h0 : fn = ""
      · rw [if_pos h0, if_pos h0]
      · rw [if_neg h0, if_neg h0]
        have hapi : (normalize_uuid (safe_get coach ["id"] .null)).isSome := by
          unfold coachIdPresent at h
          rw [hfn] at h
          simpa [optSTruthy, h0] using h
        cases hu : normalize_uuid (safe_get coach ["id"] .null) with
        | none => rw [hu] at hapi; simp at hapi
        | some u => rfl

/-- When every coach of a roster entry carries a valid external id, the per-roster coach loop never consults the identifier supply. -/
theorem rosterCoachesStep_g_congr (g1 g2 : Nat → String) (kv : String × JValue)
    (h : (match pyIterList (safe_get kv.2 ["coaches"] (.arr [])) with
          | some cs => cs.all coachIdPresent
          | none => true) = true) :
    ∀ s, rosterCoachesStep g1 s kv = rosterCoachesStep g2 s kv := by
  intro s
  unfold rosterCoachesStep
  cases aget s.team_id_map kv.1 with
  | none => rfl
  | some tid =>
      dsimp only
      by_cases h0 : tid = ""
      · rw [if_pos h0, if_pos h0]
      · rw [if_neg h0, if_neg h0]
        cases hcs : pyIterList (safe_get kv.2 ["coaches"] (.arr [])) with
        | none => rfl
        | some cs =>
            simp only [Option.bind_eq_bind, Option.some_bind]
            rw [hcs] at h
            rw [List.all_eq_true] at h
            exact congrArg some
              (foldl_congr _ _ cs (fun c hc b => coachStep_g_congr g1 g2 c (h c hc) tid b) s)

/-- When every coach of a roster collection carries a valid external id, `transform_coaches` never consults the identifier supply. -/
theorem transformCoaches_g_congr (g1 g2 : Nat → String) (rd : JValue)
    (h : rostersIdsPresent rd = true) :
    ∀ s, transformCoaches g1 s rd = transformCoaches g2 s rd := by
  intro s
  unfold transformCoaches
  by_cases ht : pyTruthy rd
  · rw [if_neg (by simpa using ht), if_neg (by simpa using ht)]
    cases hit : pyItems rd with
    | none => rfl
    | some items =>
        simp only [Option.bind_eq_bind, Option.some_bind]
        have hall : items.all (fun kv =>
            match pyIterList (safe_get kv.2 ["coaches"] (.arr [])) with
            | some cs => cs.all coachIdPresent
            | none => true) = true := by
          unfold rostersIdsPresent at h
          cases rd with
          | obj fs =>
              have : items = fs := by
                simpa [pyItems] using hit.symm
              rw [this]
              exact h
          | null => exact absurd hit (by simp [pyItems])
          | str v => exact absurd hit (by simp [pyItems])
          | int v => exact absurd hit (by simp [pyItems])
          | float v => exact absurd hit (by simp [pyItems])
          | bool v => exact absurd hit (by simp [pyItems])
          | arr v => exact absurd hit (by simp [pyItems])
        rw [List.all_eq_true] at hall
        exact foldlM_congr _ _ items
          (fun kv hkv b => rosterCoachesStep_g_congr g1 g2 kv (hall kv hkv) b) s
  · rw [if_pos (by simpa using ht), if_pos (by simpa using ht)]

/-- When a rankings document carries a valid poll id, `transform_rankings` never consults the identifier supply. -/
theorem transformRankings_g_congr (g1 g2 : Nat → String) (rd : JValue)
    (y : Int) (w : Option Int)
    (h : rankingsPollPresent rd = true) :
    ∀ s, transformRankings g1 s rd y w = transformRankings g2 s rd y w := by
  intro s
  unfold transformRankings
  by_cases ht : pyTruthy rd
  · rw [if_neg (by simpa using ht), if_neg (by simpa using ht)]
    have hpid : optSTruthy (normalize_uuid (safe_get rd ["poll", "id"] .null)) = true := by
      unfold rankingsPollPresent at h
      simpa [ht] using h
    dsimp only
    rw [if_pos hpid, if_pos hpid]
  · rw [if_pos (by simpa using ht), if_pos (by simpa using ht)]

/-- C2, counterexample to the claim as stated: on a snapshot whose hierarchy conference carries no external id, each run names the conference with a fresh `uuid.uuid4()` draw, so two runs on identical input and fresh transformer instances produce different conference tables — the round-trip is not deterministic whenever any entity is missing its id. -/
theorem run_divergence_on_missing_ids : ¬ DeterminismAsStated := fun h =>
  absurd (congrArg (Option.map (fun t => t.1))
      (h noIdHierInput 2025 "REG" gRunA gRunB))
    (by decide)

/-- C2, amended: on any snapshot in which every entity that would otherwise receive a synthesized identifier carries a valid external one — so no stage can draw from the `uuid.uuid4()` supply — two runs of the full normalization on identical input, each on a fresh transformer instance, produce identical output tables record for record and field for field, whatever identifiers the two runs' supplies would have drawn. -/
theorem determinism_with_ids (allData : List (String × JValue)) (y : Int)
    (st : String) (g1 g2 : Nat → String) (h : allIdsPresent allData = true) :
    (transformAllData g1 allData y st).map outputTables =
      (transformAllData g2 allData y st).map outputTables := by
  unfold allIdsPresent at h
  simp only [Bool.and_eq_true] at h
  obtain ⟨⟨⟨⟨hh, hs⟩, hro⟩, hr1⟩, hr2⟩ := h
  have e1 : (fun s => transformHierarchy g1 s (dGet allData "hierarchy")) =
      (fun s => transformHierarchy g2 s (dGet allData "hierarchy")) :=
    funext (transformHierarchy_g_congr g1 g2 _ hh)
  have e3 : (fun s => transformSeasons g1 s (dGet allData "seasons")) =
      (fun s => transformSeasons g2 s (dGet allData "seasons")) :=
    funext (transformSeasons_g_congr g1 g2 _ hs)
  have e4 : (fun s => do
        let sa ← transformPlayers s (dGet allData "rosters")
        transformCoaches g1 sa (dGet allData "rosters")) =
      (fun s => do
        let sa ← transformPlayers s (dGet allData "rosters")
        transformCoaches g2 sa (dGet allData "rosters")) := by
    funext s
    cases transformPlayers s (dGet allData "rosters") with
    | none => rfl
    | some sa =>
        simp only [Option.bind_eq_bind, Option.some_bind]
        exact transformCoaches_g_congr g1 g2 _ hro sa
  have e6 : (fun s => transformRankings g1 s (dGet allData "rankings_current") y none) =
      (fun s => transformRankings g2 s (dGet allData "rankings_current") y none) :=
    funext (transformRankings_g_congr g1 g2 _ y none hr1)
  have e7 : (fun s => transformRankings g1 s (dGet allData "rankings_week1") y (some 1)) =
      (fun s => transformRankings g2 s (dGet allData "rankings_week1") y (some 1)) :=
    funext (transformRankings_g_congr g1 g2 _ y (some 1) hr2)
  have hrun : transformAllData g1 allData y st = transformAllData g2 allData y st := by
    unfold transformAllData
    rw [e1, e3, e4, e6, e7]
  rw [hrun]

/-- Witness for the amended C2 on a concrete snapshot with all ids present. -/
theorem determinism_with_ids_witness :
    allIdsPresent richInput = true ∧
    (transformAllData gRunA richInput 2025 "REG").map outputTables =
      (transformAllData gRunB richInput 2025 "REG").map outputTables :=
  ⟨by decide, determinism_with_ids richInput 2025 "REG" gRunA gRunB (by decide)⟩


/-- A value returned by a map lookup is the value of some entry of the map. -/
theorem aget_mem {α β : Type} [DecidableEq α] :
    ∀ (m : List (α × β)) (k : α) (v : β), aget m k = some v → ∃ kv ∈ m, kv.2 = v
  | [], _, _, h => by simp [aget] at h
  | (k0, v0) :: rest, k, v, h => by
      unfold aget at h
      by_cases hk : k0 = k
      · rw [if_pos hk] at h
        exact ⟨(k0, v0), by simp, Option.some.inj h⟩
      · rw [if_neg hk] at h
        obtain ⟨kv, hmem, hv⟩ := aget_mem rest k v h
        exact ⟨kv, by simp [hmem], hv⟩

/-- An entry of an updated map is an old entry or the newly written pair. -/
theorem mem_aset {α β : Type} [DecidableEq α] :
    ∀ (m : List (α × β)) (k : α) (v : β) (kv : α × β),
      kv ∈ aset m k v → kv ∈ m ∨ kv = (k, v)
  | [], k, v, kv, h => by
      right
      simpa [aset] using h
  | (k0, v0) :: rest, k, v, kv, h => by
      unfold aset at h
      by_cases hk : k0 = k
      · rw [if_pos hk] at h
        rcases List.mem_cons.mp h with h1 | h1
        · right; rw [h1, hk]
        · left; exact List.mem_cons_of_mem _ h1
      · rw [if_neg hk] at h
        rcases List.mem_cons.mp h with h1 | h1
        · left; rw [h1]; exact List.mem_cons_self _ _
        · rcases mem_aset rest k v kv h1 with h2 | h2
          · left; exact List.mem_cons_of_mem _ h2
          · right; exact h2

/-- `OptIn` is monotone in the list of registered identities. -/
theorem optIn_sub (o : Option String) (ids ids' : List String)
    (hsub : ∀ x ∈ ids, x ∈ ids') (h : OptIn o ids) : OptIn o ids' := by
  cases o with
  | none => trivial
  | some x => exact hsub x h

/-- A successful `any` equality probe over a table yields membership of the probed identity in the projected key list. -/
theorem any_pk_mem {γ : Type} (f : γ → String) (l : List γ) (u : String)
    (h : l.any (fun c => f c == u) = true) : u ∈ l.map f := by
  rcases List.any_eq_true.mp h with ⟨c, hc, hceq⟩
  exact List.mem_map.mpr ⟨c, hc, beq_iff_eq.mp hceq⟩

/-- Advancing the draw counter alone preserves the referential invariant. -/
theorem refInv_ctr (s : TState) (n : Nat) (h : RefInv s) : RefInv { s with ctr := n } := h

/-- Registering a venue (map entry and record together) preserves the referential invariant. -/
theorem refInv_venueAdd (s : TState) (r : VenueR) (h : RefInv s) :
    RefInv { s with
      venue_id_map := aset s.venue_id_map r.venue_id r.venue_id,
      venues := s.venues ++ [r] } := by
  obtain ⟨⟨m1, m2, m3, m4, m5, m6⟩, f1, f2, f3, f4, f5, f6⟩ := h
  have hsub : ∀ x ∈ venueIds s, x ∈ venueIds { s with
      venue_id_map := aset s.venue_id_map r.venue_id r.venue_id,
      venues := s.venues ++ [r] } := by
    intro x hx
    simp only [venueIds, List.map_append, List.mem_append]
    exact Or.inl hx
  refine ⟨⟨m1, m2, ?_, m4, m5, m6⟩, f1, ?_, f3, f4, f5, f6⟩
  · intro p hp
    rcases mem_aset _ _ _ _ hp with hold | hnew
    · exact hsub _ (m3 p hold)
    · rw [hnew]
      simp [venueIds]
  · intro t ht
    obtain ⟨h1, h2, h3⟩ := f2 t ht
    exact ⟨h1, h2, optIn_sub _ _ _ hsub h3⟩

/-- Re-pointing the conference name map at an identity already in the conference table preserves the referential invariant. -/
theorem refInv_confMap (s : TState) (cn cid : String) (hcid : cid ∈ confIds s)
    (h : RefInv s) :
    RefInv { s with conference_id_map := aset s.conference_id_map cn cid } := by
  obtain ⟨⟨m1, m2, m3, m4, m5, m6⟩, hf⟩ := h
  refine ⟨⟨?_, m2, m3, m4, m5, m6⟩, hf⟩
  intro p hp
  rcases mem_aset _ _ _ _ hp with hold | hnew
  · exact m1 p hold
  · rw [hnew]; exact hcid

/-- Registering a conference (map entry and record together) preserves the referential invariant. -/
theorem refInv_confAdd (s : TState) (cn : String) (r : ConferenceR) (h : RefInv s) :
    RefInv { s with
      conference_id_map := aset s.conference_id_map cn r.conference_id,
      conferences := s.conferences ++ [r] } := by
  obtain ⟨⟨m1, m2, m3, m4, m5, m6⟩, f1, f2, f3, f4, f5, f6⟩ := h
  have hsub : ∀ x ∈ confIds s, x ∈ confIds { s with
      conference_id_map := aset s.conference_id_map cn r.conference_id,
      conferences := s.conferences ++ [r] } := by
    intro x hx
    simp only [confIds, List.map_append, List.mem_append]
    exact Or.inl hx
  refine ⟨⟨?_, m2, m3, m4, m5, m6⟩, ?_, ?_, f3, f4, f5, f6⟩
  · intro p hp
    rcases mem_aset _ _ _ _ hp with hold | hnew
    · exact hsub _ (m1 p hold)
    · rw [hnew]
      simp [confIds]
  · intro d hd
    exact optIn_sub _ _ _ hsub (f1 d hd)
  · intro t ht
    obtain ⟨h1, h2, h3⟩ := f2 t ht
    exact ⟨optIn_sub _ _ _ hsub h1, h2, h3⟩

/-- Re-pointing the division map at an identity already in the division table preserves the referential invariant. -/
theorem refInv_divMap (s : TState) (k : Option String × String) (did : String)
    (hdid : did ∈ divIds s) (h : RefInv s) :
    RefInv { s with division_id_map := aset s.division_id_map k did } := by
  obtain ⟨⟨m1, m2, m3, m4, m5, m6⟩, hf⟩ := h
  refine ⟨⟨m1, ?_, m3, m4, m5, m6⟩, hf⟩
  intro p hp
  rcases mem_aset _ _ _ _ hp with hold | hnew
  · exact m2 p hold
  · rw [hnew]; exact hdid

/-- Registering a division whose conference reference is null or backed preserves the referential invariant. -/
theorem refInv_divAdd (s : TState) (k : Option String × String) (r : DivisionR)
    (hconf : OptIn r.conference_id (confIds s)) (h : RefInv s) :
    RefInv { s with
      division_id_map := aset s.division_id_map k r.division_id,
      divisions := s.divisions ++ [r] } := by
  obtain ⟨⟨m1, m2, m3, m4, m5, m6⟩, f1, f2, f3, f4, f5, f6⟩ := h
  have hsub : ∀ x ∈ divIds s, x ∈ divIds { s with
      division_id_map := aset s.division_id_map k r.division_id,
      divisions := s.divisions ++ [r] } := by
    intro x hx
    simp only [divIds, List.map_append, List.mem_append]
    exact Or.inl hx
  refine ⟨⟨m1, ?_, m3, m4, m5, m6⟩, ?_, ?_, f3, f4, f5, f6⟩
  · intro p hp
    rcases mem_aset _ _ _ _ hp with hold | hnew
    · exact hsub _ (m2 p hold)
    · rw [hnew]
      simp [divIds]
  · intro d hd
    rcases List.mem_append.mp hd with h1 | h1
    · exact f1 d h1
    · rw [List.mem_singleton.mp h1]
      exact hconf
  · intro t ht
    obtain ⟨h1, h2, h3⟩ := f2 t ht
    exact ⟨h1, optIn_sub _ _ _ hsub h2, h3⟩

/-- Registering a team whose conference, division and venue references are null or backed preserves the referential invariant. -/
theorem refInv_teamAdd (s : TState) (r : TeamR)
    (hc : OptIn r.conference_id (confIds s)) (hd : OptIn r.division_id (divIds s))
    (hv : OptIn r.venue_id (venueIds s)) (h : RefInv s) :
    RefInv { s with
      team_id_map := aset s.team_id_map r.team_id r.team_id,
      teams := s.teams ++ [r] } := by
  obtain ⟨⟨m1, m2, m3, m4, m5, m6⟩, f1, f2, f3, f4, f5, f6⟩ := h
  have hsub : ∀ x ∈ teamIds s, x ∈ teamIds { s with
      team_id_map := aset s.team_id_map r.team_id r.team_id,
      teams := s.teams ++ [r] } := by
    intro x hx
    simp only [teamIds, List.map_append, List.mem_append]
    exact Or.inl hx
  refine ⟨⟨m1, m2, m3, ?_, m5, m6⟩, f1, ?_, ?_, ?_, ?_, ?_⟩
  · intro p hp
    rcases mem_aset _ _ _ _ hp with hold | hnew
    · exact hsub _ (m4 p hold)
    · rw [hnew]
      simp [teamIds]
  · intro t ht
    rcases List.mem_append.mp ht with h1 | h1
    · exact f2 t h1
    · rw [List.mem_singleton.mp h1]
      exact ⟨hc, hd, hv⟩
  · intro p hp
    exact hsub _ (f3 p hp)
  · intro c hc2
    exact hsub _ (f4 c hc2)
  · intro st hst
    obtain ⟨h1, h2, h3⟩ := f5 st hst
    exact ⟨h1, hsub _ h2, h3⟩
  · intro rk hrk
    obtain ⟨h1, h2⟩ := f6 rk hrk
    exact ⟨hsub _ h1, h2⟩

/-- Registering a season (map entry and record together) preserves the referential invariant. -/
theorem refInv_seasonAdd (s : TState) (k : Int × String) (r : SeasonR) (h : RefInv s) :
    RefInv { s with
      seasons := s.seasons ++ [r],
      season_id_map := aset s.season_id_map k r.season_id } := by
  obtain ⟨⟨m1, m2, m3, m4, m5, m6⟩, f1, f2, f3, f4, f5, f6⟩ := h
  have hsub : ∀ x ∈ seasonIds s, x ∈ seasonIds { s with
      seasons := s.seasons ++ [r],
      season_id_map := aset s.season_id_map k r.season_id } := by
    intro x hx
    simp only [seasonIds, List.map_append, List.mem_append]
    exact Or.inl hx
  refine ⟨⟨m1, m2, m3, m4, ?_, m6⟩, f1, f2, f3, f4, ?_, ?_⟩
  · intro p hp
    rcases mem_aset _ _ _ _ hp with hold | hnew
    · exact hsub _ (m5 p hold)
    · rw [hnew]
      simp [seasonIds]
  · intro st hst
    obtain ⟨h1, h2, h3⟩ := f5 st hst
    exact ⟨h1, h2, hsub _ h3⟩
  · intro rk hrk
    obtain ⟨h1, h2⟩ := f6 rk hrk
    exact ⟨h1, optIn_sub _ _ _ hsub h2⟩

/-- Registering a player whose team reference is backed preserves the referential invariant. -/
theorem refInv_playerAdd (s : TState) (r : PlayerR) (ht : r.team_id ∈ teamIds s)
    (h : RefInv s) :
    RefInv { s with
      player_id_map := aset s.player_id_map r.player_id r.player_id,
      players := s.players ++ [r] } := by
  obtain ⟨⟨m1, m2, m3, m4, m5, m6⟩, f1, f2, f3, f4, f5, f6⟩ := h
  have hsub : ∀ x ∈ playerIds s, x ∈ playerIds { s with
      player_id_map := aset s.player_id_map r.player_id r.player_id,
      players := s.players ++ [r] } := by
    intro x hx
    simp only [playerIds, List.map_append, List.mem_append]
    exact Or.inl hx
  refine ⟨⟨m1, m2, m3, m4, m5, ?_⟩, f1, f2, ?_, f4, ?_, f6⟩
  · intro p hp
    rcases mem_aset _ _ _ _ hp with hold | hnew
    · exact hsub _ (m6 p hold)
    · rw [hnew]
      simp [playerIds]
  · intro p hp
    rcases List.mem_append.mp hp with h1 | h1
    · exact f3 p h1
    · rw [List.mem_singleton.mp h1]
      exact ht
  · intro st hst
    obtain ⟨h1, h2, h3⟩ := f5 st hst
    exact ⟨hsub _ h1, h2, h3⟩

/-- Appending a coach whose team reference is backed preserves the referential invariant. -/
theorem refInv_coachAdd (s : TState) (r : CoachR) (ht : r.team_id ∈ teamIds s)
    (h : RefInv s) :
    RefInv { s with coaches := s.coaches ++ [r] } := by
  obtain ⟨hm, f1, f2, f3, f4, f5, f6⟩ := h
  refine ⟨hm, f1, f2, f3, ?_, f5, f6⟩
  intro c hc
  rcases List.mem_append.mp hc with h1 | h1
  · exact f4 c h1
  · rw [List.mem_singleton.mp h1]
    exact ht

/-- Appending a statistic whose player, team and season references are backed preserves the referential invariant. -/
theorem refInv_statAdd (s : TState) (r : StatR) (hp : r.player_id ∈ playerIds s)
    (htm : r.team_id ∈ teamIds s) (hsn : r.season_id ∈ seasonIds s) (h : RefInv s) :
    RefInv { s with player_statistics := s.player_statistics ++ [r] } := by
  obtain ⟨hm, f1, f2, f3, f4, f5, f6⟩ := h
  refine ⟨hm, f1, f2, f3, f4, ?_, f6⟩
  intro st hst
  rcases List.mem_append.mp hst with h1 | h1
  · exact f5 st h1
  · rw [List.mem_singleton.mp h1]
    exact ⟨hp, htm, hsn⟩

/-- Appending a ranking whose team reference is backed and season reference null or backed preserves the referential invariant. -/
theorem refInv_rankAdd (s : TState) (r : RankingR) (ht : r.team_id ∈ teamIds s)
    (hsn : OptIn r.season_id (seasonIds s)) (h : RefInv s) :
    RefInv { s with rankings := s.rankings ++ [r] } := by
  obtain ⟨hm, f1, f2, f3, f4, f5, f6⟩ := h
  refine ⟨hm, f1, f2, f3, f4, f5, ?_⟩
  intro rk hrk
  rcases List.mem_append.mp hrk with h1 | h1
  · exact f6 rk h1
  · rw [List.mem_singleton.mp h1]
    exact ⟨ht, hsn⟩

/-- A fresh transformer satisfies the referential invariant. -/
theorem refInv_init : RefInv initState := by
  refine ⟨⟨?_, ?_, ?_, ?_, ?_, ?_⟩, ?_, ?_, ?_, ?_, ?_, ?_⟩ <;>
    intro p hp <;> simp [initState] at hp

/-- Venue extraction preserves the referential invariant. -/
theorem extractVenue_refInv (s : TState) (v : JValue) (h : RefInv s) :
    RefInv (extractVenue s v) := by
  unfold extractVenue
  by_cases ht : pyTruthy v
  case neg => simpa [ht] using h
  rw [if_neg (by simpa using ht)]
  cases hid : normalize_uuid (safe_get v ["id"] JValue.null) with
  | none => exact h
  | some vid =>
      dsimp only
      by_cases hin : (aget s.venue_id_map vid).isSome
      · rw [if_pos hin]
        exact h
      · rw [if_neg hin]
        exact refInv_venueAdd s _ h

/-- The per-team venue extraction preserves the referential invariant. -/
theorem teamVenueStep_refInv (s : TState) (team : JValue) (h : RefInv s) :
    RefInv (teamVenueStep s team) := by
  unfold teamVenueStep
  dsimp only
  by_cases ht : pyTruthy (safe_get team ["venue"] JValue.null)
  · rw [if_pos ht]
    exact extractVenue_refInv _ _ h
  · rw [if_neg ht]
    exact h

/-- The hierarchy conference loop body preserves the referential invariant: the division record it appends points at the conference it has just registered. -/
theorem hierConfStep_refInv (g : Nat → String) (dn : String) (da : Option String)
    (du : String) (s : TState) (conf : JValue) (s' : TState)
    (h : RefInv s) (hs : hierConfStep g dn da du s conf = some s') :
    RefInv s' := by
  unfold hierConfStep at hs
  cases hcn : normalize_string (safe_get conf ["name"] JValue.null) with
  | none =>
      rw [hcn] at hs
      obtain rfl := Option.some.inj hs
      exact h
  | some cn =>
      rw [hcn] at hs
      dsimp only at hs
      by_cases hce : cn = ""
      · rw [if_pos hce] at hs
        obtain rfl := Option.some.inj hs
        exact h
      · rw [if_neg hce] at hs
        cases hcap : normalize_uuid (safe_get conf ["id"] JValue.null) with
        | some u =>
            rw [hcap] at hs
            dsimp only at hs
            cases hit : pyIterList (safe_get conf ["teams"] (JValue.arr [])) with
            | none => rw [hit] at hs; exact absurd hs (by simp)
            | some ts =>
                rw [hit] at hs
                simp only [Option.bind_eq_bind, Option.some_bind, Option.some.injEq] at hs
                subst hs
                refine foldl_inv RefInv teamVenueStep
                  (fun a b hP => teamVenueStep_refInv a b hP) ts _ ?_
                by_cases hca : s.conferences.any (fun c => c.conference_id == u)
                · rw [if_pos hca]
                  dsimp only
                  have hcu : u ∈ confIds s := any_pk_mem _ _ _ hca
                  have h3 : RefInv { s with
                      conference_id_map := aset s.conference_id_map cn u } :=
                    refInv_confMap s cn u hcu h
                  by_cases hda : s.divisions.any (fun d => d.division_id == du)
                  · rw [if_pos hda]
                    exact refInv_divMap
                      { s with conference_id_map := aset s.conference_id_map cn u }
                      (some u, dn) du (any_pk_mem _ _ _ hda) h3
                  · rw [if_neg hda]
                    refine refInv_divAdd
                      { s with conference_id_map := aset s.conference_id_map cn u }
                      (some u, dn) _ ?_ h3
                    exact hcu
                · rw [if_neg hca]
                  dsimp only
                  have h3 : RefInv { s with
                      conference_id_map := aset s.conference_id_map cn u,
                      conferences := s.conferences ++
                        [{ conference_id := u,
                           name := cn,
                           alias_ := normalize_string (safe_get conf ["alias"]
                             JValue.null) }] } := by
                    refine refInv_confAdd s cn ?_ h
                  have hcu : u ∈ confIds { s with
                      conference_id_map := aset s.conference_id_map cn u,
                      conferences := s.conferences ++
                        [{ conference_id := u,
                           name := cn,
                           alias_ := normalize_string (safe_get conf ["alias"]
                             JValue.null) }] } := by
                    simp [confIds]
                  by_cases hda : s.divisions.any (fun d => d.division_id == du)
                  · rw [if_pos hda]
                    exact refInv_divMap
                      { s with
                        conference_id_map := aset s.conference_id_map cn u,
                        conferences := s.conferences ++
                          [{ conference_id := u,
                             name := cn,
                             alias_ := normalize_string (safe_get conf ["alias"]
                               JValue.null) }] }
                      (some u, dn) du (any_pk_mem _ _ _ hda) h3
                  · rw [if_neg hda]
                    refine refInv_divAdd
                      { s with
                        conference_id_map := aset s.conference_id_map cn u,
                        conferences := s.conferences ++
                          [{ conference_id := u,
                             name := cn,
                             alias_ := normalize_string (safe_get conf ["alias"]
                               JValue.null) }] }
                      (some u, dn) _ ?_ h3
                    exact hcu
        | none =>
            rw [hcap] at hs
            dsimp only [freshUuid] at hs
            cases hit : pyIterList (safe_get conf ["teams"] (JValue.arr [])) with
            | none => rw [hit] at hs; exact absurd hs (by simp)
            | some ts =>
                rw [hit] at hs
                simp only [Option.bind_eq_bind, Option.some_bind, Option.some.injEq] at hs
                subst hs
                refine foldl_inv RefInv teamVenueStep
                  (fun a b hP => teamVenueStep_refInv a b hP) ts _ ?_
                have h0 : RefInv { s with ctr := s.ctr + 1 } := refInv_ctr s _ h
                by_cases hca : s.conferences.any (fun c => c.conference_id == g s.ctr)
                · rw [if_pos hca]
                  dsimp only
                  have hcu : g s.ctr ∈ confIds s := any_pk_mem _ _ _ hca
                  have h3 : RefInv { s with
                      ctr := s.ctr + 1,
                      conference_id_map := aset s.conference_id_map cn (g s.ctr) } :=
                    refInv_confMap { s with ctr := s.ctr + 1 } cn (g s.ctr) hcu h0
                  by_cases hda : s.divisions.any (fun d => d.division_id == du)
                  · rw [if_pos hda]
                    exact refInv_divMap
                      { s with
                        ctr := s.ctr + 1,
                        conference_id_map := aset s.conference_id_map cn (g s.ctr) }
                      (some (g s.ctr), dn) du (any_pk_mem _ _ _ hda) h3
                  · rw [if_neg hda]
                    refine refInv_divAdd
                      { s with
                        ctr := s.ctr + 1,
                        conference_id_map := aset s.conference_id_map cn (g s.ctr) }
                      (some (g s.ctr), dn) _ ?_ h3
                    exact hcu
                · rw [if_neg hca]
                  dsimp only
                  have h3 : RefInv { s with
                      ctr := s.ctr + 1,
                      conference_id_map := aset s.conference_id_map cn (g s.ctr),
                      conferences := s.conferences ++
                        [{ conference_id := g s.ctr,
                           name := cn,
                           alias_ := normalize_string (safe_get conf ["alias"]
                             JValue.null) }] } := by
                    refine refInv_confAdd { s with ctr := s.ctr + 1 } cn ?_ h0
                  have hcu : g s.ctr ∈ confIds { s with
                      ctr := s.ctr + 1,
                      conference_id_map := aset s.conference_id_map cn (g s.ctr),
                      conferences := s.conferences ++
                        [{ conference_id := g s.ctr,
                           name := cn,
                           alias_ := normalize_string (safe_get conf ["alias"]
                             JValue.null) }] } := by
                    simp [confIds]
                  by_cases hda : s.divisions.any (fun d => d.division_id == du)
                  · rw [if_pos hda]
                    exact refInv_divMap
                      { s with
                        ctr := s.ctr + 1,
                        conference_id_map := aset s.conference_id_map cn (g s.ctr),
                        conferences := s.conferences ++
                          [{ conference_id := g s.ctr,
                             name := cn,
                             alias_ := normalize_string (safe_get conf ["alias"]
                               JValue.null) }] }
                      (some (g s.ctr), dn) du (any_pk_mem _ _ _ hda) h3
                  · rw [if_neg hda]
                    refine refInv_divAdd
                      { s with
                        ctr := s.ctr + 1,
                        conference_id_map := aset s.conference_id_map cn (g s.ctr),
                        conferences := s.conferences ++
                          [{ conference_id := g s.ctr,
                             name := cn,
                             alias_ := normalize_string (safe_get conf ["alias"]
                               JValue.null) }] }
                      (some (g s.ctr), dn) _ ?_ h3
                    exact hcu

/-- The hierarchy division loop body preserves the referential invariant. -/
theorem hierDivStep_refInv (g : Nat → String) (s : TState) (d : JValue) (s' : TState)
    (h : RefInv s) (hs : hierDivStep g s d = some s') : RefInv s' := by
  unfold hierDivStep at hs
  cases hdn : normalize_string (safe_get d ["name"] JValue.null) with
  | none =>
      rw [hdn] at hs
      obtain rfl := Option.some.inj hs
      exact h
  | some dn =>
      rw [hdn] at hs
      dsimp only at hs
      by_cases hde : dn = ""
      · rw [if_pos hde] at hs
        obtain rfl := Option.some.inj hs
        exact h
      · rw [if_neg hde] at hs
        cases hda : normalize_uuid (safe_get d ["id"] JValue.null) with
        | some u =>
            rw [hda] at hs
            dsimp only at hs
            cases hcs : pyIterList (safe_get d ["conferences"] (JValue.arr [])) with
            | none => rw [hcs] at hs; exact absurd hs (by simp)
            | some confs =>
                rw [hcs] at hs
                simp only [Option.bind_eq_bind, Option.some_bind] at hs
                exact foldlM_inv RefInv _
                  (fun a b c hP hf => hierConfStep_refInv g dn _ u a b c hP hf)
                  confs s s' h hs
        | none =>
            rw [hda] at hs
            dsimp only [freshUuid] at hs
            cases hcs : pyIterList (safe_get d ["conferences"] (JValue.arr [])) with
            | none => rw [hcs] at hs; exact absurd hs (by simp)
            | some confs =>
                rw [hcs] at hs
                simp only [Option.bind_eq_bind, Option.some_bind] at hs
                exact foldlM_inv RefInv _
                  (fun a b c hP hf => hierConfStep_refInv g dn _ (g s.ctr) a b c hP hf)
                  confs { s with ctr := s.ctr + 1 } s' (refInv_ctr s _ h) hs

/-- `transform_hierarchy` preserves the referential invariant. -/
theorem transformHierarchy_refInv (g : Nat → String) (s : TState) (hd : JValue)
    (s' : TState) (h : RefInv s) (hs : transformHierarchy g s hd = some s') :
    RefInv s' := by
  unfold transformHierarchy at hs
  by_cases ht : pyTruthy hd
  case neg =>
    rw [if_pos (by simpa using ht)] at hs
    obtain rfl := Option.some.inj hs
    exact h
  case pos =>
    rw [if_neg (by simpa using ht)] at hs
    dsimp only at hs
    by_cases hdl : pyTruthy (safe_get hd ["divisions"] (JValue.arr []))
    case neg =>
      rw [if_pos (by simpa using hdl)] at hs
      obtain rfl := Option.some.inj hs
      exact h
    case pos =>
      rw [if_neg (by simpa using hdl)] at hs
      cases hds : pyIterList (safe_get hd ["divisions"] (JValue.arr [])) with
      | none => rw [hds] at hs; exact absurd hs (by simp)
      | some divs =>
          rw [hds] at hs
          simp only [Option.bind_eq_bind, Option.some_bind] at hs
          exact foldlM_inv RefInv _
            (fun a b c hP hf => hierDivStep_refInv g a b c hP hf) divs s s' h hs

/-- `transform_venues` preserves the referential invariant. -/
theorem transformVenues_refInv (s : TState) (td : JValue) (s' : TState)
    (h : RefInv s) (hs : transformVenues s td = some s') : RefInv s' := by
  unfold transformVenues at hs
  by_cases ht : pyTruthy td
  case neg =>
    rw [if_pos (by simpa using ht)] at hs
    obtain rfl := Option.some.inj hs
    exact h
  case pos =>
    rw [if_neg (by simpa using ht)] at hs
    cases hts : pyIterList (safe_get td ["teams"] (JValue.arr [])) with
    | none => rw [hts] at hs; exact absurd hs (by simp)
    | some ts =>
        rw [hts] at hs
        simp only [Option.bind_eq_bind, Option.some_bind, Option.some.injEq] at hs
        subst hs
        exact foldl_inv RefInv teamVenueStep
          (fun a b hP => teamVenueStep_refInv a b hP) ts s h

/-- The team loop body preserves the referential invariant: every stored reference comes from an identity map backed by its table. -/
theorem teamStep_refInv (s : TState) (team : JValue) (h : RefInv s) :
    RefInv (teamStep s team) := by
  unfold teamStep
  cases hid : normalize_uuid (safe_get team ["id"] JValue.null) with
  | none => exact h
  | some api =>
      dsimp only
      have hv : OptIn (if pyTruthy (safe_get team ["venue"] JValue.null) then
          match normalize_uuid (safe_get (safe_get team ["venue"] JValue.null) ["id"]
              JValue.null) with
          | some vapi => aget s.venue_id_map vapi
          | none => none
        else none) (venueIds s) := by
        by_cases hvt : pyTruthy (safe_get team ["venue"] JValue.null)
        · rw [if_pos hvt]
          cases hvu : normalize_uuid (safe_get (safe_get team ["venue"] JValue.null) ["id"]
              JValue.null) with
          | none => exact True.intro
          | some vapi =>
              dsimp only
              cases hag : aget s.venue_id_map vapi with
              | none => exact True.intro
              | some vdb =>
                  obtain ⟨kv, hkv, hv2⟩ := aget_mem _ _ _ hag
                  exact hv2 ▸ h.1.2.2.1 kv hkv
        · rw [if_neg hvt]
          exact True.intro
      cases hcn : normalize_string (safe_get team ["conference", "name"] JValue.null) with
      | none =>
          dsimp only
          cases hdnm : normalize_string (safe_get team ["division", "name"] JValue.null) with
          | none =>
              refine refInv_teamAdd s _ ?_ ?_ ?_ h
              · exact True.intro
              · exact True.intro
              · exact hv
          | some dn =>
              refine refInv_teamAdd s _ ?_ ?_ ?_ h
              · exact True.intro
              · exact True.intro
              · exact hv
      | some cn =>
          dsimp only
          by_cases hce : cn = ""
          · rw [if_pos hce]
            cases hdnm : normalize_string (safe_get team ["division", "name"] JValue.null) with
            | none =>
                refine refInv_teamAdd s _ ?_ ?_ ?_ h
                · exact True.intro
                · exact True.intro
                · exact hv
            | some dn =>
                dsimp only
                rw [if_pos (Or.inl hce)]
                refine refInv_teamAdd s _ ?_ ?_ ?_ h
                · exact True.intro
                · exact True.intro
                · exact hv
          · rw [if_neg hce]
            have hc : OptIn (aget s.conference_id_map cn) (confIds s) := by
              cases hag : aget s.conference_id_map cn with
              | none => exact True.intro
              | some cid =>
                  obtain ⟨kv, hkv, hv2⟩ := aget_mem _ _ _ hag
                  exact hv2 ▸ h.1.1 kv hkv
            cases hdnm : normalize_string (safe_get team ["division", "name"] JValue.null) with
            | none =>
                refine refInv_teamAdd s _ ?_ ?_ ?_ h
                · exact hc
                · exact True.intro
                · exact hv
            | some dn =>
                dsimp only
                by_cases hde : dn = ""
                · rw [if_pos (Or.inr hde)]
                  refine refInv_teamAdd s _ ?_ ?_ ?_ h
                  · exact hc
                  · exact True.intro
                  · exact hv
                · rw [if_neg (not_or.mpr ⟨hce, hde⟩)]
                  have hdv : OptIn ((s.division_id_map.find?
                      (fun e => e.1.1 == aget s.conference_id_map cn && e.1.2 == dn)).map
                        (·.2)) (divIds s) := by
                    cases hf : s.division_id_map.find?
                        (fun e => e.1.1 == aget s.conference_id_map cn && e.1.2 == dn) with
                    | none => exact True.intro
                    | some e =>
                        exact h.1.2.1 e (List.mem_of_find?_eq_some hf)
                  refine refInv_teamAdd s _ ?_ ?_ ?_ h
                  · exact hc
                  · exact hdv
                  · exact hv

/-- `transform_teams` preserves the referential invariant. -/
theorem transformTeams_refInv (s : TState) (td : JValue) (s' : TState)
    (h : RefInv s) (hs : transformTeams s td = some s') : RefInv s' := by
  unfold transformTeams at hs
  by_cases ht : pyTruthy td
  case neg =>
    rw [if_pos (by simpa using ht)] at hs
    obtain rfl := Option.some.inj hs
    exact h
  case pos =>
    rw [if_neg (by simpa using ht)] at hs
    cases hts : pyIterList (safe_get td ["teams"] (JValue.arr [])) with
    | none => rw [hts] at hs; exact absurd hs (by simp)
    | some ts =>
        rw [hts] at hs
        simp only [Option.bind_eq_bind, Option.some_bind, Option.some.injEq] at hs
        subst hs
        exact foldl_inv RefInv teamStep (fun a b hP => teamStep_refInv a b hP) ts s h

/-- The season loop body preserves the referential invariant. -/
theorem seasonStep_refInv (g : Nat → String) (s : TState) (season : JValue)
    (h : RefInv s) : RefInv (seasonStep g s season) := by
  unfold seasonStep
  cases hy : normalize_int (safe_get season ["year"] JValue.null) with
  | none => exact h
  | some y =>
      cases htc : normalize_string (safe_get season ["type", "code"] JValue.null) with
      | none => exact h
      | some tc =>
          dsimp only
          by_cases h0 : y = 0 ∨ tc = ""
          · rw [if_pos h0]
            exact h
          · rw [if_neg h0]
            by_cases hm : (aget s.season_id_map (y, tc)).isSome
            · rw [if_pos hm]
              exact h
            · rw [if_neg hm]
              cases hap : normalize_uuid (safe_get season ["id"] JValue.null) with
              | some u =>
                  dsimp only
                  exact refInv_seasonAdd s (y, tc) _ h
              | none =>
                  dsimp only [freshUuid]
                  exact refInv_seasonAdd { s with ctr := s.ctr + 1 } (y, tc) _
                    (refInv_ctr s _ h)

/-- `transform_seasons` preserves the referential invariant. -/
theorem transformSeasons_refInv (g : Nat → String) (s : TState) (sd : JValue)
    (s' : TState) (h : RefInv s) (hs : transformSeasons g s sd = some s') :
    RefInv s' := by
  unfold transformSeasons at hs
  by_cases ht : pyTruthy sd
  case neg =>
    rw [if_pos (by simpa using ht)] at hs
    obtain rfl := Option.some.inj hs
    exact h
  case pos =>
    rw [if_neg (by simpa using ht)] at hs
    cases hss : pyIterList (safe_get sd ["seasons"] (JValue.arr [])) with
    | none => rw [hss] at hs; exact absurd hs (by simp)
    | some ss =>
        rw [hss] at hs
        simp only [Option.bind_eq_bind, Option.some_bind, Option.some.injEq] at hs
        subst hs
        exact foldl_inv RefInv (seasonStep g)
          (fun a b hP => seasonStep_refInv g a b hP) ss s h

/-- The player loop body preserves the referential invariant together with the resolved team identity staying backed. -/
theorem playerStep_refInv (tid : String) (s : TState) (player : JValue) (s' : TState)
    (h : RefInv s ∧ tid ∈ teamIds s) (hs : playerStep tid s player = some s') :
    RefInv s' ∧ tid ∈ teamIds s' := by
  unfold playerStep at hs
  cases hid : normalize_uuid (safe_get player ["id"] JValue.null) with
  | none =>
      rw [hid] at hs
      obtain rfl := Option.some.inj hs
      exact h
  | some api =>
      rw [hid] at hs
      dsimp only at hs
      by_cases hin : (aget s.player_id_map api).isSome
      · rw [if_pos hin] at hs
        obtain rfl := Option.some.inj hs
        exact h
      · rw [if_neg hin] at hs
        simp only [Option.bind_eq_bind, Option.bind_eq_some, Option.some.injEq] at hs
        obtain ⟨hgt, hhgt, rfl⟩ := hs
        refine ⟨refInv_playerAdd s _ ?_ h.1, h.2⟩
        exact h.2

/-- Under the conference-naming side condition, the roster conference and division extraction preserves the referential invariant: a division record appended here points at a conference registered in the same step or already present. -/
theorem rosterConfDivStep_refInv (s : TState) (rd : JValue)
    (hn : rosterConfNamed rd = true) (h : RefInv s) :
    RefInv (rosterConfDivStep s rd) := by
  unfold rosterConfNamed at hn
  dsimp only at hn
  unfold rosterConfDivStep
  dsimp only
  by_cases hct : pyTruthy (safe_get rd ["conference"] JValue.null)
  case neg =>
    rw [if_neg hct]
    rw [if_neg (show ¬ (pyTruthy (safe_get rd ["division"] JValue.null) = true ∧
      pyTruthy (safe_get rd ["conference"] JValue.null) = true) from fun hand => hct hand.2)]
    exact h
  case pos =>
    rw [if_pos hct]
    rw [if_pos hct] at hn
    cases hcid : normalize_uuid (safe_get (safe_get rd ["conference"] JValue.null) ["id"]
        JValue.null) with
    | none =>
        cases hcn : normalize_string (safe_get (safe_get rd ["conference"] JValue.null)
            ["name"] JValue.null) with
        | none =>
            dsimp only
            by_cases hg : (pyTruthy (safe_get rd ["division"] JValue.null) = true ∧
                pyTruthy (safe_get rd ["conference"] JValue.null) = true)
            case neg => rw [if_neg hg]; exact h
            case pos =>
              rw [if_pos hg]
              cases hdn : normalize_string (safe_get (safe_get rd ["division"] JValue.null)
                  ["name"] JValue.null) with
              | none => exact h
              | some dn =>
                  cases hdid : normalize_uuid (safe_get (safe_get rd ["division"]
                      JValue.null) ["id"] JValue.null) with
                  | none => exact h
                  | some did =>
                      dsimp only
                      by_cases hde : dn = ""
                      · rw [if_pos hde]; exact h
                      · rw [if_neg hde]
                        by_cases hda : s.divisions.any (fun d => d.division_id == did)
                        · rw [if_pos hda]; exact h
                        · rw [if_neg hda]
                          refine refInv_divAdd s (none, dn) _ ?_ h
                          exact True.intro
        | some cn =>
            dsimp only
            by_cases hg : (pyTruthy (safe_get rd ["division"] JValue.null) = true ∧
                pyTruthy (safe_get rd ["conference"] JValue.null) = true)
            case neg => rw [if_neg hg]; exact h
            case pos =>
              rw [if_pos hg]
              cases hdn : normalize_string (safe_get (safe_get rd ["division"] JValue.null)
                  ["name"] JValue.null) with
              | none => exact h
              | some dn =>
                  cases hdid : normalize_uuid (safe_get (safe_get rd ["division"]
                      JValue.null) ["id"] JValue.null) with
                  | none => exact h
                  | some did =>
                      dsimp only
                      by_cases hde : dn = ""
                      · rw [if_pos hde]; exact h
                      · rw [if_neg hde]
                        by_cases hda : s.divisions.any (fun d => d.division_id == did)
                        · rw [if_pos hda]; exact h
                        · rw [if_neg hda]
                          refine refInv_divAdd s (none, dn) _ ?_ h
                          exact True.intro
    | some cid =>
        rw [hcid] at hn
        cases hcn : normalize_string (safe_get (safe_get rd ["conference"] JValue.null)
            ["name"] JValue.null) with
        | none =>
            rw [hcn] at hn
            exact absurd hn (by simp [optSTruthy])
        | some cn =>
            rw [hcn] at hn
            have hcne : ¬ cn = "" := by simpa [optSTruthy] using hn
            dsimp only
            rw [if_neg hcne]
            by_cases hca : s.conferences.any (fun c => c.conference_id == cid)
            · rw [if_pos hca]
              have hfk : cid ∈ confIds s := any_pk_mem _ _ _ hca
              by_cases hg : (pyTruthy (safe_get rd ["division"] JValue.null) = true ∧
                  pyTruthy (safe_get rd ["conference"] JValue.null) = true)
              case neg => rw [if_neg hg]; exact h
              case pos =>
                rw [if_pos hg]
                cases hdn : normalize_string (safe_get (safe_get rd ["division"] JValue.null)
                    ["name"] JValue.null) with
                | none => exact h
                | some dn =>
                    cases hdid : normalize_uuid (safe_get (safe_get rd ["division"]
                        JValue.null) ["id"] JValue.null) with
                    | none => exact h
                    | some did =>
                        dsimp only
                        by_cases hde : dn = ""
                        · rw [if_pos hde]; exact h
                        · rw [if_neg hde]
                          by_cases hda : s.divisions.any (fun d => d.division_id == did)
                          · rw [if_pos hda]; exact h
                          · rw [if_neg hda]
                            refine refInv_divAdd s (some cid, dn) _ ?_ h
                            exact hfk
            · rw [if_neg hca]
              have hB : RefInv { s with
                  conference_id_map := aset s.conference_id_map cn cid,
                  conferences := s.conferences ++
                    [{ conference_id := cid,
                       name := cn,
                       alias_ := normalize_string (safe_get (safe_get rd ["conference"]
                         JValue.null) ["alias"] JValue.null) }] } := by
                refine refInv_confAdd s cn ?_ h
              have hfk : cid ∈ confIds { s with
                  conference_id_map := aset s.conference_id_map cn cid,
                  conferences := s.conferences ++
                    [{ conference_id := cid,
                       name := cn,
                       alias_ := normalize_string (safe_get (safe_get rd ["conference"]
                         JValue.null) ["alias"] JValue.null) }] } := by
                simp [confIds]
              by_cases hg : (pyTruthy (safe_get rd ["division"] JValue.null) = true ∧
                  pyTruthy (safe_get rd ["conference"] JValue.null) = true)
              case neg => rw [if_neg hg]; exact hB
              case pos =>
                rw [if_pos hg]
                cases hdn : normalize_string (safe_get (safe_get rd ["division"] JValue.null)
                    ["name"] JValue.null) with
                | none => exact hB
                | some dn =>
                    cases hdid : normalize_uuid (safe_get (safe_get rd ["division"]
                        JValue.null) ["id"] JValue.null) with
                    | none => exact hB
                    | some did =>
                        dsimp only
                        by_cases hde : dn = ""
                        · rw [if_pos hde]; exact hB
                        · rw [if_neg hde]
                          by_cases hda : s.divisions.any (fun d => d.division_id == did)
                          · rw [if_pos hda]; exact hB
                          · rw [if_neg hda]
                            refine refInv_divAdd
                              { s with
                                conference_id_map := aset s.conference_id_map cn cid,
                                conferences := s.conferences ++
                                  [{ conference_id := cid,
                                     name := cn,
                                     alias_ := normalize_string (safe_get (safe_get rd
                                       ["conference"] JValue.null) ["alias"]
                                       JValue.null) }] }
                              (some cid, dn) _ ?_ hB
                            exact hfk

/-- Under the conference-naming side condition, the roster metadata extraction preserves the referential invariant. -/
theorem rosterMetaStep_refInv (s : TState) (rd : JValue)
    (hn : rosterConfNamed rd = true) (h : RefInv s) :
    RefInv (rosterMetaStep s rd) := by
  unfold rosterMetaStep
  dsimp only
  by_cases hvt : pyTruthy (safe_get rd ["venue"] JValue.null)
  · rw [if_pos hvt]
    exact rosterConfDivStep_refInv _ rd hn (extractVenue_refInv s _ h)
  · rw [if_neg hvt]
    exact rosterConfDivStep_refInv s rd hn h

/-- Under the conference-naming side condition, the per-roster loop of `transform_players` preserves the referential invariant. -/
theorem rosterPlayersStep_refInv (s : TState) (kv : String × JValue) (s' : TState)
    (hn : rosterConfNamed kv.2 = true) (h : RefInv s)
    (hs : rosterPlayersStep s kv = some s') : RefInv s' := by
  unfold rosterPlayersStep at hs
  dsimp only at hs
  have h1 : RefInv (rosterMetaStep s kv.2) := rosterMetaStep_refInv s kv.2 hn h
  cases hag : aget (rosterMetaStep s kv.2).team_id_map kv.1 with
  | none =>
      rw [hag] at hs
      obtain rfl := Option.some.inj hs
      exact h1
  | some tid =>
      rw [hag] at hs
      dsimp only at hs
      by_cases hte : tid = ""
      · rw [if_pos hte] at hs
        obtain rfl := Option.some.inj hs
        exact h1
      · rw [if_neg hte] at hs
        cases hpl : pyIterList (safe_get kv.2 ["players"] (JValue.arr [])) with
        | none => rw [hpl] at hs; exact absurd hs (by simp)
        | some ps =>
            rw [hpl] at hs
            simp only [Option.bind_eq_bind, Option.some_bind] at hs
            have htid : tid ∈ teamIds (rosterMetaStep s kv.2) := by
              obtain ⟨p, hp, hp2⟩ := aget_mem _ _ _ hag
              exact hp2 ▸ h1.1.2.2.2.1 p hp
            exact (foldlM_inv (fun st => RefInv st ∧ tid ∈ teamIds st)
              (playerStep tid) (fun a b c hP hf => playerStep_refInv tid a b c hP hf)
              ps _ s' ⟨h1, htid⟩ hs).1

/-- A monadic fold preserves any invariant its step preserves on the elements actually folded over. -/
theorem foldlM_inv_mem {σ α : Type} (P : σ → Prop) (f : σ → α → Option σ)
    (l : List α) (hstep : ∀ a ∈ l, ∀ s s', P s → f s a = some s' → P s') :
    ∀ (s s' : σ), P s → l.foldlM f s = some s' → P s' := by
  induction l with
  | nil =>
      intro s s' h hf
      simp only [List.foldlM_nil] at hf
      exact (Option.some.inj hf) ▸ h
  | cons a l ih =>
      intro s s' h hf
      rw [List.foldlM_cons] at hf
      cases hx : f s a with
      | none => rw [hx] at hf; exact absurd hf (by simp)
      | some b =>
          rw [hx] at hf
          simp only [Option.bind_eq_bind, Option.some_bind] at hf
          exact ih (fun x hx2 => hstep x (List.mem_cons_of_mem _ hx2)) b s'
            (hstep a (List.mem_cons_self _ _) s b h hx) hf

/-- Under the conference-naming side condition, `transform_players` preserves the referential invariant. -/
theorem transformPlayers_refInv (s : TState) (rd : JValue) (s' : TState)
    (hn : ∀ items, pyItems rd = some items →
      items.all (fun kv => rosterConfNamed kv.2) = true)
    (h : RefInv s) (hs : transformPlayers s rd = some s') : RefInv s' := by
  unfold transformPlayers at hs
  by_cases ht : pyTruthy rd
  case neg =>
    rw [if_pos (by simpa using ht)] at hs
    obtain rfl := Option.some.inj hs
    exact h
  case pos =>
    rw [if_neg (by simpa using ht)] at hs
    cases hit : pyItems rd with
    | none => rw [hit] at hs; exact absurd hs (by simp)
    | some items =>
        rw [hit] at hs
        simp only [Option.bind_eq_bind, Option.some_bind] at hs
        have hall := hn items hit
        rw [List.all_eq_true] at hall
        exact foldlM_inv_mem RefInv rosterPlayersStep items
          (fun kv hkv a b hP hf => rosterPlayersStep_refInv a kv b (hall kv hkv) hP hf)
          s s' h hs

/-- The coach loop body preserves the referential invariant together with the resolved team identity staying backed. -/
theorem coachStep_refInv (g : Nat → String) (tid : String) (s : TState) (coach : JValue)
    (h : RefInv s ∧ tid ∈ teamIds s) :
    RefInv (coachStep g tid s coach) ∧ tid ∈ teamIds (coachStep g tid s coach) := by
  unfold coachStep
  cases hfn : coachFullName coach with
  | none => exact h
  | some fn =>
      dsimp only
      by_cases hfe : fn = ""
      · rw [if_pos hfe]
        exact h
      · rw [if_neg hfe]
        cases hap : normalize_uuid (safe_get coach ["id"] JValue.null) with
        | some u =>
            dsimp only
            refine ⟨refInv_coachAdd s _ ?_ h.1, h.2⟩
            exact h.2
        | none =>
            dsimp only [freshUuid]
            refine ⟨refInv_coachAdd { s with ctr := s.ctr + 1 } _ ?_
              (refInv_ctr s _ h.1), h.2⟩
            exact h.2

/-- The per-roster coach loop preserves the referential invariant. -/
theorem rosterCoachesStep_refInv (g : Nat → String) (s : TState) (kv : String × JValue)
    (s' : TState) (h : RefInv s) (hs : rosterCoachesStep g s kv = some s') :
    RefInv s' := by
  unfold rosterCoachesStep at hs
  cases hag : aget s.team_id_map kv.1 with
  | none =>
      rw [hag] at hs
      obtain rfl := Option.some.inj hs
      exact h
  | some tid =>
      rw [hag] at hs
      dsimp only at hs
      by_cases hte : tid = ""
      · rw [if_pos hte] at hs
        obtain rfl := Option.some.inj hs
        exact h
      · rw [if_neg hte] at hs
        cases hcs : pyIterList (safe_get kv.2 ["coaches"] (JValue.arr [])) with
        | none => rw [hcs] at hs; exact absurd hs (by simp)
        | some cs =>
            rw [hcs] at hs
            simp only [Option.bind_eq_bind, Option.some_bind, Option.some.injEq] at hs
            subst hs
            have htid : tid ∈ teamIds s := by
              obtain ⟨p, hp, hp2⟩ := aget_mem _ _ _ hag
              exact hp2 ▸ h.1.2.2.2.1 p hp
            exact (foldl_inv (fun st => RefInv st ∧ tid ∈ teamIds st) (coachStep g tid)
              (fun a b hP => coachStep_refInv g tid a b hP) cs s ⟨h, htid⟩).1

/-- `transform_coaches` preserves the referential invariant. -/
theorem transformCoaches_refInv (g : Nat → String) (s : TState) (rd : JValue)
    (s' : TState) (h : RefInv s) (hs : transformCoaches g s rd = some s') :
    RefInv s' := by
  unfold transformCoaches at hs
  by_cases ht : pyTruthy rd
  case neg =>
    rw [if_pos (by simpa using ht)] at hs
    obtain rfl := Option.some.inj hs
    exact h
  case pos =>
    rw [if_neg (by simpa using ht)] at hs
    cases hit : pyItems rd with
    | none => rw [hit] at hs; exact absurd hs (by simp)
    | some items =>
        rw [hit] at hs
        simp only [Option.bind_eq_bind, Option.some_bind] at hs
        exact foldlM_inv RefInv (rosterCoachesStep g)
          (fun a b c hP hf => rosterCoachesStep_refInv g a b c hP hf) items s s' h hs

/-- The statistics loop body preserves the referential invariant together with the resolved team and season identities staying backed. -/
theorem statPlayerStep_refInv (tid sid : String) (acc : TState × Int) (ps : JValue)
    (h : RefInv acc.1 ∧ tid ∈ teamIds acc.1 ∧ sid ∈ seasonIds acc.1) :
    RefInv (statPlayerStep tid sid acc ps).1 ∧
      tid ∈ teamIds (statPlayerStep tid sid acc ps).1 ∧
      sid ∈ seasonIds (statPlayerStep tid sid acc ps).1 := by
  unfold statPlayerStep
  cases hid : normalize_uuid (safe_get ps ["id"] JValue.null) with
  | none => exact h
  | some api =>
      dsimp only
      cases hag : aget acc.1.player_id_map api with
      | none => exact h
      | some pdb =>
          dsimp only
          by_cases hpe : pdb = ""
          · rw [if_pos hpe]
            exact h
          · rw [if_neg hpe]
            have hpm : pdb ∈ playerIds acc.1 := by
              obtain ⟨p, hp, hp2⟩ := aget_mem _ _ _ hag
              exact hp2 ▸ h.1.1.2.2.2.2.2 p hp
            refine ⟨refInv_statAdd acc.1 _ ?_ ?_ ?_ h.1, h.2.1, h.2.2⟩
            exacts [hpm, h.2.1, h.2.2]

/-- The per-team statistics loop preserves the referential invariant together with the resolved season identity staying backed. -/
theorem statTeamStep_refInv (sid : String) (acc : TState × Int) (kv : String × JValue)
    (acc' : TState × Int) (h : RefInv acc.1 ∧ sid ∈ seasonIds acc.1)
    (hs : statTeamStep sid acc kv = some acc') :
    RefInv acc'.1 ∧ sid ∈ seasonIds acc'.1 := by
  unfold statTeamStep at hs
  cases hag : aget acc.1.team_id_map kv.1 with
  | none =>
      rw [hag] at hs
      obtain rfl := Option.some.inj hs
      exact h
  | some tid =>
      rw [hag] at hs
      dsimp only at hs
      by_cases hte : tid = ""
      · rw [if_pos hte] at hs
        obtain rfl := Option.some.inj hs
        exact h
      · rw [if_neg hte] at hs
        cases hps : pyIterList (safe_get kv.2 ["players"] (JValue.arr [])) with
        | none => rw [hps] at hs; exact absurd hs (by simp)
        | some ps =>
            rw [hps] at hs
            simp only [Option.bind_eq_bind, Option.some_bind, Option.some.injEq] at hs
            subst hs
            have htid : tid ∈ teamIds acc.1 := by
              obtain ⟨p, hp, hp2⟩ := aget_mem _ _ _ hag
              exact hp2 ▸ h.1.1.2.2.2.1 p hp
            have hres := foldl_inv
              (fun a => RefInv a.1 ∧ tid ∈ teamIds a.1 ∧ sid ∈ seasonIds a.1)
              (statPlayerStep tid sid)
              (fun a b hP => statPlayerStep_refInv tid sid a b hP)
              ps acc ⟨h.1, htid, h.2⟩
            exact ⟨hres.1, hres.2.2⟩

/-- `transform_player_statistics` preserves the referential invariant. -/
theorem transformPlayerStatistics_refInv (s : TState) (sd : JValue) (y : Int)
    (st : String) (s' : TState) (h : RefInv s)
    (hs : transformPlayerStatistics s sd y st = some s') : RefInv s' := by
  unfold transformPlayerStatistics at hs
  by_cases ht : pyTruthy sd
  case neg =>
    rw [if_pos (by simpa using ht)] at hs
    obtain rfl := Option.some.inj hs
    exact h
  case pos =>
    rw [if_neg (by simpa using ht)] at hs
    cases hag : aget s.season_id_map (y, st) with
    | none =>
        rw [hag] at hs
        obtain rfl := Option.some.inj hs
        exact h
    | some sid =>
        rw [hag] at hs
        dsimp only at hs
        by_cases hse : sid = ""
        · rw [if_pos hse] at hs
          obtain rfl := Option.some.inj hs
          exact h
        · rw [if_neg hse] at hs
          cases hit : pyItems sd with
          | none => rw [hit] at hs; exact absurd hs (by simp)
          | some items =>
              rw [hit] at hs
              simp only [Option.bind_eq_bind, Option.some_bind, Option.bind_eq_some,
                Option.some.injEq] at hs
              obtain ⟨acc, hacc, rfl⟩ := hs
              have hsid : sid ∈ seasonIds s := by
                obtain ⟨p, hp, hp2⟩ := aget_mem _ _ _ hag
                exact hp2 ▸ h.1.2.2.2.2.1 p hp
              exact (foldlM_inv (fun a => RefInv a.1 ∧ sid ∈ seasonIds a.1)
                (statTeamStep sid)
                (fun a b c hP hf => statTeamStep_refInv sid a b c hP hf)
                items (s, 1) acc ⟨h, hsid⟩ hacc).1

/-- The rankings loop body preserves the referential invariant together with the fixed season reference staying null or backed. -/
theorem rankStep_refInv (pid : String) (pn : Option String) (sdb : Option String)
    (wk : Option Int) (eff : Option String) (acc : TState × Int) (item : JValue)
    (h : RefInv acc.1 ∧ OptIn sdb (seasonIds acc.1)) :
    RefInv (rankStep pid pn sdb wk eff acc item).1 ∧
      OptIn sdb (seasonIds (rankStep pid pn sdb wk eff acc item).1) := by
  unfold rankStep
  cases hid : normalize_uuid (safe_get item ["id"] JValue.null) with
  | none => exact h
  | some api =>
      dsimp only
      cases hag : aget acc.1.team_id_map api with
      | none => exact h
      | some tdb =>
          dsimp only
          by_cases hte : tdb = ""
          · rw [if_pos hte]
            exact h
          · rw [if_neg hte]
            have htm : tdb ∈ teamIds acc.1 := by
              obtain ⟨p, hp, hp2⟩ := aget_mem _ _ _ hag
              exact hp2 ▸ h.1.1.2.2.2.1 p hp
            refine ⟨refInv_rankAdd acc.1 _ ?_ ?_ h.1, h.2⟩
            exacts [htm, h.2]

/-- `transform_rankings` preserves the referential invariant. -/
theorem transformRankings_refInv (g : Nat → String) (s : TState) (rdata : JValue)
    (y : Int) (w : Option Int) (s' : TState) (h : RefInv s)
    (hs : transformRankings g s rdata y w = some s') : RefInv s' := by
  unfold transformRankings at hs
  by_cases ht : pyTruthy rdata
  case neg =>
    rw [if_pos (by simpa using ht)] at hs
    obtain rfl := Option.some.inj hs
    exact h
  case pos =>
    rw [if_neg (by simpa using ht)] at hs
    dsimp only at hs
    have hopt : ∀ (b : TState), RefInv b →
        OptIn (aget b.season_id_map (y, "REG")) (seasonIds b) := by
      intro b hb
      cases hag : aget b.season_id_map (y, "REG") with
      | none => exact True.intro
      | some v =>
          obtain ⟨p, hp, hp2⟩ := aget_mem _ _ _ hag
          exact hp2 ▸ hb.1.2.2.2.2.1 p hp
    by_cases hpt : optSTruthy (normalize_uuid (safe_get rdata ["poll", "id"] JValue.null))
    · rw [if_pos hpt] at hs
      dsimp only at hs
      cases hitems : pyIterList (safe_get rdata ["rankings"] (JValue.arr [])) with
      | none => rw [hitems] at hs; exact absurd hs (by simp)
      | some items =>
          rw [hitems] at hs
          simp only [Option.bind_eq_bind, Option.some_bind, Option.some.injEq] at hs
          rw [← hs]
          exact (foldl_inv
            (fun a => RefInv a.1 ∧ OptIn (aget s.season_id_map (y, "REG")) (seasonIds a.1))
            _ (fun a b hP => rankStep_refInv _ _ _ _ _ a b hP)
            items (s, (s.rankings.length : Int) + 1) ⟨h, hopt s h⟩).1
    · rw [if_neg hpt] at hs
      dsimp only [freshUuid] at hs
      cases hitems : pyIterList (safe_get rdata ["rankings"] (JValue.arr [])) with
      | none => rw [hitems] at hs; exact absurd hs (by simp)
      | some items =>
          rw [hitems] at hs
          simp only [Option.bind_eq_bind, Option.some_bind, Option.some.injEq] at hs
          rw [← hs]
          exact (foldl_inv
            (fun a => RefInv a.1 ∧
              OptIn (aget s.season_id_map (y, "REG")) (seasonIds a.1))
            _ (fun a b hP => rankStep_refInv _ _ _ _ _ a b hP)
            items ({ s with ctr := s.ctr + 1 },
              (s.rankings.length : Int) + 1) ⟨refInv_ctr s _ h, hopt s h⟩).1

/-- C1, counterexample to the claim as stated: a roster whose conference object carries a valid id but no name never registers that conference, yet the division block still stores the conference id on the appended division record, so the run ends with a division whose conference reference names an identity while the conference table is empty - a dangling foreign key. -/
theorem roster_division_dangling_conference :
    (transformAllData gZero danglingConfInput 2025 "REG").map
      (fun s => (s.divisions.map (fun d => d.conference_id), confIds s)) =
    some ([some uuidC], []) := by decide

/-- C1, amended: on any snapshot in which every roster conference object carrying a valid external id also carries a usable name, every foreign-key field on every record of a successful pipeline run (conference, division and venue references on teams; the conference reference on divisions; team references on players and coaches; player, team and season references on statistics; team and season references on rankings) is null or names the primary key of a record present in the corresponding entity table. -/
theorem fk_integrity_of_named_conferences (g : Nat → String)
    (allData : List (String × JValue)) (y : Int) (st : String)
    (hn : rostersConfNamed allData = true) (out : TState)
    (hrun : transformAllData g allData y st = some out) :
    FKIntegrity out := by
  have hnp : ∀ items, pyItems (dGet allData "rosters") = some items →
      items.all (fun kv => rosterConfNamed kv.2) = true := by
    intro items hit
    unfold rostersConfNamed at hn
    cases hdg : dGet allData "rosters" with
    | obj fs =>
        rw [hdg] at hn hit
        have hfi : fs = items := by simpa [pyItems] using hit
        rw [← hfi]
        exact hn
    | null => rw [hdg] at hit; exact absurd hit (by simp [pyItems])
    | str v => rw [hdg] at hit; exact absurd hit (by simp [pyItems])
    | int v => rw [hdg] at hit; exact absurd hit (by simp [pyItems])
    | float v => rw [hdg] at hit; exact absurd hit (by simp [pyItems])
    | bool v => rw [hdg] at hit; exact absurd hit (by simp [pyItems])
    | arr v => rw [hdg] at hit; exact absurd hit (by simp [pyItems])
  refine (transformAllData_inv RefInv g allData y st ?_ ?_ ?_ ?_ ?_ ?_ ?_ ?_ ?_
    refInv_init out hrun).2
  · exact fun a b hp hf => transformHierarchy_refInv g a _ b hp hf
  · exact fun a b hp hf => transformVenues_refInv a _ b hp hf
  · exact fun a b hp hf => transformTeams_refInv a _ b hp hf
  · exact fun a b hp hf => transformSeasons_refInv g a _ b hp hf
  · exact fun a b hp hf => transformPlayers_refInv a _ b hnp hp hf
  · exact fun a b hp hf => transformCoaches_refInv g a _ b hp hf
  · exact fun a b hp hf => transformPlayerStatistics_refInv a _ y st b hp hf
  · exact fun a b hp hf => transformRankings_refInv g a _ y none b hp hf
  · exact fun a b hp hf => transformRankings_refInv g a _ y (some 1) b hp hf

/-- Witness for the amended C1 on a concrete snapshot whose roster conferences are named. -/
theorem fk_integrity_of_named_conferences_witness :
    rostersConfNamed richInput = true ∧
    ∃ out, transformAllData gZero richInput 2025 "REG" = some out ∧ FKIntegrity out :=
  ⟨by decide, _, rfl,
    fk_integrity_of_named_conferences gZero richInput 2025 "REG" (by decide) _ rfl⟩

end Theorems
